import Mathlib

/-!
# pso2-trans: the import paths of `cmd/pso2-trans/trans.go`

A shallow embedding of the two ingestion paths of `main`:

* the archive-scan import (lines 219-313), and
* the AIDA import: the skit-list loader (lines 88-103) followed by the CSV pass
  (lines 110-198).

The storage layer (`trans.Database`), the archive and text decoders and the Go
standard library are not part of `trans.go`.  The storage layer is modelled from
the specification (section 6); what the decoders and the library return is an
input of the model.
-/

namespace Pso2Trans

/-! ## Data model -/

/-- Go `error` values are represented by their message. -/
abbrev Err := String

/-- Modelled from the spec: the type `trans.ArchiveName` is declared outside `trans.go`;
section 3 describes it as a raw name plus a version/variant. -/
structure ArchiveName where
  name : String
  variant : Nat
deriving DecidableEq, Repr

/-- A row handle as returned by the storage layer (a Go pointer such as `*trans.File`):
the position of the row in its table together with a copy of the row. -/
structure Ref (α : Type) where
  id : Nat
  val : α
deriving DecidableEq, Repr

/-- Modelled from the spec: a File row, keyed by (Archive, filename). -/
structure FileRow where
  archive : Nat
  name : String
deriving DecidableEq, Repr

/-- Modelled from the spec: a SourceString row, keyed by (File, identifier, ordinal),
holding a value and an import version tag. -/
structure StringRow where
  file : Nat
  ordinal : Nat
  identifier : String
  value : String
  version : Int
deriving DecidableEq, Repr

/-- Modelled from the spec: a TranslationString row, the association
(Translation, SourceString) with its localized value. -/
structure TransRow where
  translation : Nat
  string : Nat
  value : String
deriving DecidableEq, Repr

abbrev Archive := Ref ArchiveName
abbrev File := Ref FileRow
abbrev SourceString := Ref StringRow
abbrev Translation := Ref String
abbrev TranslationString := Ref TransRow

/-- Modelled from the spec: the persistent catalog behind `trans.Database`, one table per
entity of section 3.  A row is identified by its position in its table. -/
structure Store where
  archives : List ArchiveName
  files : List FileRow
  strings : List StringRow
  translations : List String
  tstrings : List TransRow
deriving DecidableEq, Repr

/-- One call of the storage surface of section 6; queries record what they returned. -/
inductive Event where
  | queryArchive (aname : ArchiveName) (res : Option Archive)
  | insertArchive (aname : ArchiveName)
  | queryFile (a : Archive) (name : String) (res : Option File)
  | insertFile (a : Archive) (name : String)
  | queryString (f : File) (ordinal : Nat) (identifier : String) (res : Option SourceString)
  | insertString (f : File) (version : Int) (ordinal : Nat) (identifier value : String)
  | updateString (s : SourceString) (version : Int) (value : String)
  | queryTranslation (name : String) (res : Option Translation)
  | insertTranslation (name : String)
  | queryTranslationString (t : Translation) (s : SourceString) (res : Option TranslationString)
  | insertTranslationString (t : Translation) (s : SourceString) (value : String)
  | updateTranslationString (ts : TranslationString) (value : String)
  | txBegin
  | txEnd
deriving DecidableEq, Repr

/-- What the program cannot see from `trans.go` alone. `fails n` tells whether the storage
call number `n` of the run (counting from 0) fails with a StorageError; `parseName` is
`trans.ArchiveNameFromString`; `dir` and `base` are Go's `path.Dir` and `path.Base`. -/
structure Env where
  fails : Nat → Bool
  parseName : String → Except Err ArchiveName
  dir : String → String
  base : String → String

/-- The state of a run: the store as the open session sees it, the store as committed,
whether a transaction bracket is open, the storage calls issued so far and the
diagnostics written by `complain` (context path and message). -/
structure St where
  db : Store
  durable : Store
  inTx : Bool
  trace : List Event
  diag : List (String × Err)
deriving DecidableEq, Repr

/-- The state right after `trans.NewDatabase` opened the store. -/
def St.init (db : Store) : St :=
  { db := db, durable := db, inTx := false, trace := [], diag := [] }

/-! ## Storage layer, modelled from the specification -/

/-- First row of a table satisfying `p`, with its position. -/
def find? {α : Type} (p : α → Bool) : List α → Option (Ref α)
  | [] => none
  | x :: xs => if p x then some ⟨0, x⟩ else (find? p xs).map (fun r => ⟨r.id + 1, r.val⟩)

/-- Rewrite the row at position `i`. -/
def modifyAt {α : Type} (f : α → α) : Nat → List α → List α
  | _, [] => []
  | 0, x :: xs => f x :: xs
  | i + 1, x :: xs => x :: modifyAt f i xs

/-- The message of a StorageError. -/
def storageError : Err := "storage error"

/-- Record a storage call. -/
def St.log (st : St) (e : Event) : St := { st with trace := st.trace ++ [e] }

/-- Modelled from the spec: a mutation inside a transaction bracket stays uncommitted until
`End`; outside a bracket it is committed at once. -/
def St.mutate (st : St) (db : Store) : St :=
  if st.inTx then { st with db := db } else { st with db := db, durable := db }

/-- Modelled from the spec: `Begin()` opens the transaction bracket. -/
def dbBegin (st : St) : St := { st.log .txBegin with inTx := true }

/-- Modelled from the spec: `End()` closes the bracket and commits its mutations. -/
def dbEnd (st : St) : St := { st.log .txEnd with inTx := false, durable := st.db }

def archiveKey (aname : ArchiveName) (r : ArchiveName) : Bool := decide (r = aname)

def fileKey (archive : Nat) (name : String) (r : FileRow) : Bool :=
  decide (r.archive = archive ∧ r.name = name)

def stringKey (file ordinal : Nat) (identifier : String) (r : StringRow) : Bool :=
  decide (r.file = file ∧ r.ordinal = ordinal ∧ r.identifier = identifier)

def translationKey (name : String) (r : String) : Bool := decide (r = name)

def transKey (translation string : Nat) (r : TransRow) : Bool :=
  decide (r.translation = translation ∧ r.string = string)

/-- Modelled from the spec: `QueryArchive(ArchiveName) -> Archive?`. A failing call returns
`(nil, err)`, here `.error err`. -/
def queryArchive (env : Env) (aname : ArchiveName) (st : St) : St × Except Err (Option Archive) :=
  if env.fails st.trace.length then (st.log (.queryArchive aname none), .error storageError)
  else
    let r := find? (archiveKey aname) st.db.archives
    (st.log (.queryArchive aname r), .ok r)

/-- Modelled from the spec: `InsertArchive(ArchiveName) -> Archive`. -/
def insertArchive (env : Env) (aname : ArchiveName) (st : St) : St × Except Err Archive :=
  if env.fails st.trace.length then (st.log (.insertArchive aname), .error storageError)
  else
    ((st.log (.insertArchive aname)).mutate { st.db with archives := st.db.archives ++ [aname] },
      .ok ⟨st.db.archives.length, aname⟩)

/-- Modelled from the spec: `QueryFile(Archive, name) -> File?`. -/
def queryFile (env : Env) (a : Archive) (name : String) (st : St) :
    St × Except Err (Option File) :=
  if env.fails st.trace.length then (st.log (.queryFile a name none), .error storageError)
  else
    let r := find? (fileKey a.id name) st.db.files
    (st.log (.queryFile a name r), .ok r)

/-- Modelled from the spec: `InsertFile(Archive, name) -> File`. -/
def insertFile (env : Env) (a : Archive) (name : String) (st : St) : St × Except Err File :=
  if env.fails st.trace.length then (st.log (.insertFile a name), .error storageError)
  else
    ((st.log (.insertFile a name)).mutate { st.db with files := st.db.files ++ [⟨a.id, name⟩] },
      .ok ⟨st.db.files.length, ⟨a.id, name⟩⟩)

/-- Modelled from the spec: `QueryString(File, ordinal, id) -> SourceString?`. -/
def queryString (env : Env) (f : File) (ordinal : Nat) (identifier : String) (st : St) :
    St × Except Err (Option SourceString) :=
  if env.fails st.trace.length then
    (st.log (.queryString f ordinal identifier none), .error storageError)
  else
    let r := find? (stringKey f.id ordinal identifier) st.db.strings
    (st.log (.queryString f ordinal identifier r), .ok r)

/-- Modelled from the spec: `InsertString(File, version, ordinal, id, value) -> SourceString`. -/
def insertString (env : Env) (f : File) (version : Int) (ordinal : Nat)
    (identifier value : String) (st : St) : St × Except Err SourceString :=
  if env.fails st.trace.length then
    (st.log (.insertString f version ordinal identifier value), .error storageError)
  else
    let row : StringRow := ⟨f.id, ordinal, identifier, value, version⟩
    ((st.log (.insertString f version ordinal identifier value)).mutate
        { st.db with strings := st.db.strings ++ [row] },
      .ok ⟨st.db.strings.length, row⟩)

/-- Modelled from the spec: `UpdateString(SourceString, version, value) -> SourceString`
rewrites value and version of the row in place. -/
def updateString (env : Env) (s : SourceString) (version : Int) (value : String) (st : St) :
    St × Except Err SourceString :=
  if env.fails st.trace.length then
    (st.log (.updateString s version value), .error storageError)
  else
    ((st.log (.updateString s version value)).mutate
        { st.db with
          strings := modifyAt (fun r => { r with value := value, version := version }) s.id
            st.db.strings },
      .ok ⟨s.id, { s.val with value := value, version := version }⟩)

/-- Modelled from the spec: `QueryTranslation(name) -> Translation?`. -/
def queryTranslation (env : Env) (name : String) (st : St) :
    St × Except Err (Option Translation) :=
  if env.fails st.trace.length then (st.log (.queryTranslation name none), .error storageError)
  else
    let r := find? (translationKey name) st.db.translations
    (st.log (.queryTranslation name r), .ok r)

/-- Modelled from the spec: `InsertTranslation(name) -> Translation`. -/
def insertTranslation (env : Env) (name : String) (st : St) : St × Except Err Translation :=
  if env.fails st.trace.length then (st.log (.insertTranslation name), .error storageError)
  else
    ((st.log (.insertTranslation name)).mutate
        { st.db with translations := st.db.translations ++ [name] },
      .ok ⟨st.db.translations.length, name⟩)

/-- Modelled from the spec:
`QueryTranslationString(Translation, SourceString) -> TranslationString?`. -/
def queryTranslationString (env : Env) (t : Translation) (s : SourceString) (st : St) :
    St × Except Err (Option TranslationString) :=
  if env.fails st.trace.length then
    (st.log (.queryTranslationString t s none), .error storageError)
  else
    let r := find? (transKey t.id s.id) st.db.tstrings
    (st.log (.queryTranslationString t s r), .ok r)

/-- Modelled from the spec: `InsertTranslationString(Translation, SourceString, value)`. -/
def insertTranslationString (env : Env) (t : Translation) (s : SourceString) (value : String)
    (st : St) : St × Except Err TranslationString :=
  if env.fails st.trace.length then
    (st.log (.insertTranslationString t s value), .error storageError)
  else
    let row : TransRow := ⟨t.id, s.id, value⟩
    ((st.log (.insertTranslationString t s value)).mutate
        { st.db with tstrings := st.db.tstrings ++ [row] },
      .ok ⟨st.db.tstrings.length, row⟩)

/-- Modelled from the spec: `UpdateTranslationString(TranslationString, value)` rewrites the
localized value of the row in place. -/
def updateTranslationString (env : Env) (ts : TranslationString) (value : String) (st : St) :
    St × Except Err TranslationString :=
  if env.fails st.trace.length then
    (st.log (.updateTranslationString ts value), .error storageError)
  else
    ((st.log (.updateTranslationString ts value)).mutate
        { st.db with
          tstrings := modifyAt (fun r => { r with value := value }) ts.id st.db.tstrings },
      .ok ⟨ts.id, { ts.val with value := value }⟩)

/-- The `err` half of a Go result pair. -/
def errOf {α : Type} : Except Err α → Option Err
  | .error e => some e
  | .ok _ => none

/-! ## `trans.go` -/

/-- Lines 26-36, `complain`: report a non-nil error with its context path and tell whether
there was one. -/
def complain (apath : String) (err : Option Err) (st : St) : St × Bool :=
  match err with
  | some e => ({ st with diag := st.diag ++ [(apath, e)] }, true)
  | none => (st, false)

/-- The pointer half of a Go result pair of a query (`nil` when the call failed). -/
def ptrOf {α : Type} : Except Err (Option α) → Option α
  | .ok r => r
  | .error _ => none

/-- The import flags of `main`: `-i` (import version, non-zero on the import paths), `-t`
(translation name; empty selects the base import), `-aidaskits` and `-aidastrings`. -/
structure Flags where
  flagImport : Int
  flagTrans : String
  flagAidaSkits : String
  flagAidaStrings : String

/-- One entry of a decoded text file (`text.Pair`). -/
structure Pair where
  identifier : String
  string : String
deriving DecidableEq, Repr

/-- One file of an archive group, with what `text.NewTextFile(file.Data)` returns for it. -/
structure ArchiveFile where
  name : String
  type : String
  text : Except Err (List Pair)

/-- How the body of a loop was left. -/
inductive Flow where
  | next
  | brk
deriving DecidableEq, Repr

/-- Lines 264-265 and 149-150: `c[key] = collision + 1`. -/
def bump (collisions : String → Nat) (key : String) : String → Nat :=
  fun k => if k = key then collisions key + 1 else collisions k

/-- Lines 275-283: the translation set is looked up, or created, on first use; `none` is the
`break` of line 280 (and leaves the variable `translation` nil). -/
def resolveTranslation (env : Env) (flagTrans : String) (translation : Option Translation)
    (st : St) : St × Option Translation :=
  match translation with
  | some t => (st, some t)
  | none =>
    match queryTranslation env flagTrans st with
    | (st, r) =>
      match ptrOf r with
      | some t => (st, some t)
      | none =>
        match insertTranslation env flagTrans st with
        | (st, .ok t) => (st, some t)
        | (st, .error e) => ((complain flagTrans (some e) st).1, none)

/-- Lines 285-290 and 181-186: update the TranslationString when the query returned one,
insert it otherwise; the error of the query is dropped (`ts, _ :=`). Returns `err`. -/
def upsertTranslationString (env : Env) (t : Translation) (s : SourceString) (value : String)
    (st : St) : St × Option Err :=
  match queryTranslationString env t s st with
  | (st, r) =>
    match ptrOf r with
    | some ts =>
      match updateTranslationString env ts value st with
      | (st, r) => (st, errOf r)
    | none =>
      match insertTranslationString env t s value st with
      | (st, r) => (st, errOf r)

/-- Lines 275-297, translation mode, for a pair whose SourceString `s` holds another
value: resolve the translation set, upsert the TranslationString, and `break` on an
error. -/
def translatePair (env : Env) (fl : Flags) (f : File) (p : Pair) (s : SourceString)
    (translation : Option Translation) (st : St) : St × Option Translation × Flow :=
  match resolveTranslation env fl.flagTrans translation st with
  | (st, none) => (st, none, .brk)
  | (st, some t) =>
    match upsertTranslationString env t s p.string st with
    | (st, err) =>
      match complain (f.val.name ++ ": " ++ p.identifier) err st with
      | (st, true) => (st, some t, .brk)
      | (st, false) => (st, some t, .next)

/-- Lines 264-308: the body of the loop over the pairs of one text file. -/
def importPair (env : Env) (fl : Flags) (f : File) (p : Pair) (collisions : String → Nat)
    (translation : Option Translation) (st : St) :
    St × (String → Nat) × Option Translation × Flow :=
  let collision := collisions p.identifier
  let collisions := bump collisions p.identifier
  match queryString env f collision p.identifier st with
  | (st, r) =>
    match complain (f.val.name ++ ": " ++ p.identifier) (errOf r) st with
    | (st, true) => (st, collisions, translation, .brk)
    | (st, false) =>
      match ptrOf r with
      | some s =>
        if s.val.value ≠ p.string then
          if fl.flagTrans ≠ "" then
            match translatePair env fl f p s translation st with
            | (st, translation, flow) => (st, collisions, translation, flow)
          else
            match updateString env s fl.flagImport p.string st with
            | (st, r) =>
              match complain (f.val.name ++ ": " ++ p.identifier) (errOf r) st with
              | (st, true) => (st, collisions, translation, .brk)
              | (st, false) => (st, collisions, translation, .next)
        else (st, collisions, translation, .next)
      | none =>
        if fl.flagTrans ≠ "" then
          ((complain (f.val.name ++ ": " ++ p.identifier ++ ": " ++ p.string)
              (some "translated identifier does not exist") st).1,
            collisions, translation, .next)
        else
          match insertString env f fl.flagImport collision p.identifier p.string st with
          | (st, r) =>
            match complain (f.val.name ++ ": " ++ p.identifier) (errOf r) st with
            | (st, true) => (st, collisions, translation, .brk)
            | (st, false) => (st, collisions, translation, .next)

/-- Lines 263-309: the loop over the pairs of one text file. The result is the state in which
the loop is left: the run state, the collision map, the variable `translation`, and
whether the loop was left by `break`. -/
def importPairs (env : Env) (fl : Flags) (f : File) :
    List Pair → (String → Nat) → Option Translation → St →
      St × (String → Nat) × Option Translation × Flow
  | [], collisions, translation, st => (st, collisions, translation, .next)
  | p :: ps, collisions, translation, st =>
    match importPair env fl f p collisions translation st with
    | (st, collisions, translation, .next) => importPairs env fl f ps collisions translation st
    | (st, collisions, translation, .brk) => (st, collisions, translation, .brk)

/-- Lines 260-310: a fresh collision map, then the pairs of the file inside one transaction
bracket. -/
def importStrings (env : Env) (fl : Flags) (f : File) (pairs : List Pair)
    (translation : Option Translation) (st : St) : St × Option Translation :=
  match importPairs env fl f pairs (fun _ => 0) translation (dbBegin st) with
  | (st, _, translation, _) => (dbEnd st, translation)

/-- Lines 234-246: the archive row is looked up, or created, by the first text file of the
archive; `none` is a `continue` (and leaves the variable `a` nil). -/
def resolveArchive (env : Env) (name : String) (aname : ArchiveName) (a : Option Archive)
    (st : St) : St × Option Archive :=
  match a with
  | some a => (st, some a)
  | none =>
    match queryArchive env aname st with
    | (st, r) =>
      match complain name (errOf r) st with
      | (st, true) => (st, none)
      | (st, false) =>
        match ptrOf r with
        | some a => (st, some a)
        | none =>
          match insertArchive env aname st with
          | (st, .ok a) => (st, some a)
          | (st, .error e) => ((complain name (some e) st).1, none)

/-- Lines 248-258: the file row is looked up, or created; `none` is a `continue`. -/
def resolveFile (env : Env) (a : Archive) (fileName : String) (st : St) : St × Option File :=
  match queryFile env a fileName st with
  | (st, r) =>
    match complain fileName (errOf r) st with
    | (st, true) => (st, none)
    | (st, false) =>
      match ptrOf r with
      | some f => (st, some f)
      | none =>
        match insertFile env a fileName st with
        | (st, .ok f) => (st, some f)
        | (st, .error e) => ((complain fileName (some e) st).1, none)

/-- Lines 226-311: the body of the loop over the files of a group. `name` is the path of the
archive, `aname` its parsed name; `a` and `translation` are the variables of lines 219-220. -/
def importFile (env : Env) (fl : Flags) (name : String) (aname : ArchiveName)
    (file : ArchiveFile) (a : Option Archive) (translation : Option Translation) (st : St) :
    St × Option Archive × Option Translation :=
  if file.type = "text" then
    match file.text with
    | .error e => ((complain file.name (some e) st).1, a, translation)
    | .ok pairs =>
      match resolveArchive env name aname a st with
      | (st, none) => (st, none, translation)
      | (st, some a) =>
        match resolveFile env a file.name st with
        | (st, none) => (st, some a, translation)
        | (st, some f) =>
          match importStrings env fl f pairs translation st with
          | (st, translation) => (st, some a, translation)
  else (st, a, translation)

/-- Lines 225-312: the loop over the files of one group. -/
def importGroup (env : Env) (fl : Flags) (name : String) (aname : ArchiveName) :
    List ArchiveFile → Option Archive → Option Translation → St →
      St × Option Archive × Option Translation
  | [], a, translation, st => (st, a, translation)
  | file :: files, a, translation, st =>
    match importFile env fl name aname file a translation st with
    | (st, a, translation) => importGroup env fl name aname files a translation st

/-- Lines 222-313: the loop over the groups of one archive. -/
def importGroups (env : Env) (fl : Flags) (name : String) (aname : ArchiveName) :
    List (List ArchiveFile) → Option Archive → Option Translation → St →
      St × Option Archive × Option Translation
  | [], a, translation, st => (st, a, translation)
  | group :: groups, a, translation, st =>
    match importGroup env fl name aname group a translation st with
    | (st, a, translation) => importGroups env fl name aname groups a translation st

/-- Lines 219-313: the archive-scan import of one opened archive; `a` and `translation`
start out nil. -/
def importArchive (env : Env) (fl : Flags) (name : String) (aname : ArchiveName)
    (groups : List (List ArchiveFile)) (st : St) : St :=
  (importGroups env fl name aname groups none none st).1

/-! ### The AIDA import -/

/-- An error of a reader: `io.EOF` or any other fault. -/
inductive ReadErr where
  | eof
  | other (msg : String)
deriving DecidableEq, Repr

/-- What one `fmt.Fscanln(sf, &scanArchive, &scanHdr, &scanGroup, &scanName)` returns: the
number of tokens scanned, the error, and the tokens. -/
structure Scan where
  n : Nat
  err : Option ReadErr
  scanArchive : String
  scanHdr : String
  scanGroup : String
  scanName : String

/-- The Go map `archiveMap`. -/
abbrev ArchiveMap := String → Option ArchiveName

/-- Line 102: `archiveMap[scanName] = *aname`. -/
def ArchiveMap.set (m : ArchiveMap) (key : String) (aname : ArchiveName) : ArchiveMap :=
  fun k => if k = key then some aname else m k

/-- Lines 88-103: the loop reading the skit list. `scan i` is the outcome of the scan number
`i`, `err` the variable tested by the loop condition. The loop has no bound of its own:
`none` means that `fuel` iterations did not reach its end. -/
def loadSkits (env : Env) (scan : Nat → Scan) :
    Nat → Nat → Option ReadErr → ArchiveMap → St → Option (ArchiveMap × St)
  | fuel, i, err, archiveMap, st =>
    if err = some ReadErr.eof then some (archiveMap, st)
    else
      match fuel with
      | 0 => none
      | fuel + 1 =>
        let r := scan i
        if r.err ≠ none ∨ r.n ≠ 4 then loadSkits env scan fuel (i + 1) r.err archiveMap st
        else
          match env.parseName r.scanArchive with
          | .error e =>
            loadSkits env scan fuel (i + 1) r.err archiveMap
              (complain r.scanArchive (some e) st).1
          | .ok aname =>
            loadSkits env scan fuel (i + 1) r.err (archiveMap.set r.scanName aname) st

/-- One record of the CSV file: `{filename, type, zeroUnk, identifier, string}` (line 123). -/
structure Record where
  filename : String
  type : String
  zeroUnk : String
  identifier : String
  string : String
deriving DecidableEq, Repr

/-- What the CSV reader delivers: the records `r.Read()` returns without error, then the
error with which it stops (`io.EOF` at the end of the input). -/
structure CsvInput where
  records : List Record
  last : ReadErr

/-- Line 130: `strings.Replace(line[0], "\\", "/", -1)`. -/
def normalize (s : String) : String :=
  ⟨s.data.map (fun c => if c = Char.ofNat 92 then '/' else c)⟩

/-- Lines 143-150 on the map of maps `collisions`. -/
def bump2 (collisions : String → String → Nat) (path key : String) : String → String → Nat :=
  fun p k => if p = path ∧ k = key then collisions path key + 1 else collisions p k

/-- Lines 38-42, `ragequit`: `complain`, and `os.Exit(1)` when there was an error; the flag
tells whether the process exited. -/
def ragequit (apath : String) (err : Option Err) (st : St) : St × Bool :=
  complain apath err st

/-- Lines 130-187: the body of the loop over the CSV records, for a record that was read.
The flag of the result tells whether the process exited (line 135). -/
def importRecord (env : Env) (archiveMap : ArchiveMap) (t : Translation) (line : Record)
    (collisions : String → String → Nat) (st : St) : St × (String → String → Nat) × Bool :=
  let line0 := normalize line.filename
  let archive := env.dir line0
  match archiveMap archive with
  | none => ((ragequit archive (some "unknown archive name") st).1, collisions, true)
  | some aname =>
    let fname := env.base line0
    let translation := line.string
    let identifier := line.identifier
    let collision := collisions line0 identifier
    let collisions := bump2 collisions line0 identifier
    match queryArchive env aname st with
    | (st, r) =>
      match complain archive (errOf r) st with
      | (st, true) => (st, collisions, false)
      | (st, false) =>
        match ptrOf r with
        | none =>
          ((complain archive (some "archive not found in database") st).1, collisions, false)
        | some a =>
          match queryFile env a fname st with
          | (st, r) =>
            match complain fname (errOf r) st with
            | (st, true) => (st, collisions, false)
            | (st, false) =>
              match ptrOf r with
              | none =>
                ((complain (archive ++ ": " ++ fname) (some "file not found in database") st).1,
                  collisions, false)
              | some f =>
                match queryString env f collision identifier st with
                | (st, r) =>
                  match complain (fname ++ ": " ++ identifier) (errOf r) st with
                  | (st, true) => (st, collisions, false)
                  | (st, false) =>
                    match ptrOf r with
                    | none =>
                      ((complain (fname ++ ": " ++ identifier)
                          (some "string not found in database") st).1, collisions, false)
                    | some s =>
                      if s.val.value ≠ translation then
                        ((upsertTranslationString env t s translation st).1, collisions, false)
                      else (st, collisions, false)

/-- Lines 122-188: the loop over the CSV records. It is left when the process exits or when
`r.Read()` returns an error, that is after the last record. -/
def importRecords (env : Env) (archiveMap : ArchiveMap) (t : Translation) :
    List Record → (String → String → Nat) → St → St × (String → String → Nat) × Bool
  | [], collisions, st => (st, collisions, false)
  | line :: rest, collisions, st =>
    match importRecord env archiveMap t line collisions st with
    | (st, collisions, true) => (st, collisions, true)
    | (st, collisions, false) => importRecords env archiveMap t rest collisions st

/-- The state in which a run ends, and whether it ended in `os.Exit(1)`. -/
structure Outcome where
  st : St
  exited : Bool
deriving DecidableEq, Repr

/-- Lines 190-196: after the loop, a read error other than `io.EOF` is fatal; otherwise the
bracket is closed. -/
def finishCsv (fl : Flags) (last : ReadErr) (st : St) : Outcome :=
  match last with
  | .eof => ⟨dbEnd st, false⟩
  | .other msg => ⟨(ragequit fl.flagAidaStrings (some msg) st).1, true⟩

/-- Lines 120-196: the CSV pass proper: all records are processed inside one transaction
bracket. -/
def csvPass (env : Env) (fl : Flags) (archiveMap : ArchiveMap) (t : Translation)
    (input : CsvInput) (st : St) : Outcome :=
  match importRecords env archiveMap t input.records (fun _ _ => 0) (dbBegin st) with
  | (st, _, true) => ⟨st, true⟩
  | (st, _, false) => finishCsv fl input.last st

/-- Lines 114-196: the translation set is looked up, or created (fatal on failure), then
the CSV pass runs. -/
def importCsv (env : Env) (fl : Flags) (archiveMap : ArchiveMap) (input : CsvInput) (st : St) :
    Outcome :=
  match queryTranslation env fl.flagTrans st with
  | (st, r) =>
    match ptrOf r with
    | some t => csvPass env fl archiveMap t input st
    | none =>
      match insertTranslation env fl.flagTrans st with
      | (st, .error e) => ⟨(ragequit fl.flagTrans (some e) st).1, true⟩
      | (st, .ok t) => csvPass env fl archiveMap t input st

/-- Lines 78-198: the AIDA import, the body of the branch of line 77; it starts with the
check of line 78 that `-aidaskits`, `-aidastrings` and `-t` are all given. `skits` and `csv`
are what opening the two files and reading them yields. `none` means that `fuel` iterations
did not end the skit-list loop. -/
def importAida (env : Env) (fl : Flags) (skits : Except Err (Nat → Scan))
    (csv : Except Err CsvInput) (fuel : Nat) (st : St) : Option Outcome :=
  if fl.flagAidaSkits = "" ∨ fl.flagAidaStrings = "" ∨ fl.flagTrans = "" then
    some ⟨(ragequit ""
      (some "-aidaskits, -aidsstrings, and -t must all be specified together") st).1, true⟩
  else
    match skits with
    | .error e => some ⟨(ragequit fl.flagAidaSkits (some e) st).1, true⟩
    | .ok scan =>
      match loadSkits env scan fuel 0 none (fun _ => none) st with
      | none => none
      | some (archiveMap, st) =>
        match csv with
        | .error e => some ⟨(ragequit fl.flagAidaStrings (some e) st).1, true⟩
        | .ok input => some (importCsv env fl archiveMap input st)

/-! ### The import run -/

/-- One archive argument of the command line: its path, and what `os.OpenFile` followed by
`ice.NewArchive` yields for it: the groups of the archive, or the error of the one that
failed. -/
structure ArchiveArg where
  name : String
  opened : Except Err (List (List ArchiveFile))

/-- Lines 200-315: the loop over the archive arguments. An argument whose name does not
parse, or whose archive cannot be opened or decoded, is reported and skipped. -/
def importArchives (env : Env) (fl : Flags) : List ArchiveArg → St → St
  | [], st => st
  | arg :: rest, st =>
    match env.parseName (env.base arg.name) with
    | .error e => importArchives env fl rest (complain arg.name (some e) st).1
    | .ok aname =>
      match arg.opened with
      | .error e => importArchives env fl rest (complain arg.name (some e) st).1
      | .ok groups =>
        importArchives env fl rest (importArchive env fl arg.name aname groups st)

/-- Lines 77-315: the body of `if flagImport != 0`, an import run. When one of the flags
`-aidaskits`, `-aidastrings` is given (line 77) it is the AIDA import, otherwise (line 199)
the archive-scan import of the archive arguments. `none` means that `fuel` iterations did
not end the skit-list loop. -/
def runImport (env : Env) (fl : Flags) (skits : Except Err (Nat → Scan))
    (csv : Except Err CsvInput) (args : List ArchiveArg) (fuel : Nat) (st : St) :
    Option Outcome :=
  if fl.flagAidaSkits ≠ "" ∨ fl.flagAidaStrings ≠ "" then importAida env fl skits csv fuel st
  else some ⟨importArchives env fl args st, false⟩

/-! ## Vocabulary of the statements -/

/-- The second call of lines 285-290: an update when the query returned a row, an insert
otherwise. -/
def upsertEvent (t : Translation) (s : SourceString) (q : Option TranslationString)
    (value : String) : Event :=
  match q with
  | some ts => .updateTranslationString ts value
  | none => .insertTranslationString t s value

/-- The storage calls issued between the state `st` and the later state `st'`. -/
def newEvents (st st' : St) : List Event := st'.trace.drop st.trace.length

/-- The ordinal of a `QueryString` call. -/
def queryOrdinal : Event → Option Nat
  | .queryString _ o _ _ => some o
  | _ => none

/-- The ordinal of an `InsertString` call. -/
def insertOrdinal : Event → Option Nat
  | .insertString _ _ o _ _ => some o
  | _ => none

/-! ## Concrete inputs -/

/-- An environment in which no storage call fails; archive names parse to variant 0, and
a path is split at its last slash. -/
def quietEnv : Env where
  fails := fun _ => false
  parseName := fun s => .ok ⟨s, 0⟩
  dir := fun s => ⟨((s.data.reverse.dropWhile (fun c => c ≠ '/')).drop 1).reverse⟩
  base := fun s => ⟨(s.data.reverse.takeWhile (fun c => c ≠ '/')).reverse⟩

/-- The empty catalog. -/
def emptyStore : Store := ⟨[], [], [], [], []⟩

/-- A base import with version 1. -/
def baseFlags : Flags := ⟨1, "", "", ""⟩

/-- A translation import into the set "eng". -/
def engFlags : Flags := ⟨1, "eng", "skits.txt", "strings.csv"⟩

/-- The file with identifiers GREET, GREET, BYE of section 8. -/
def greetPairs : List Pair := [⟨"GREET", "hello"⟩, ⟨"GREET", "hi"⟩, ⟨"BYE", "bye"⟩]

/-- A File handle. -/
def file0 : File := ⟨0, ⟨0, "ui.text"⟩⟩

/-- File, ordinal and identifier of a `QueryString` call. -/
def queryKey : Event → Option (Nat × Nat × String)
  | .queryString f o i _ => some (f.id, o, i)
  | _ => none

/-- A catalog with one archive, two files and three source strings. -/
def uiStore : Store where
  archives := [⟨"ui.ice", 0⟩]
  files := [⟨0, "a.text"⟩, ⟨0, "b.text"⟩]
  strings := [⟨0, 0, "GREET", "hello", 1⟩, ⟨0, 1, "GREET", "hi", 1⟩, ⟨1, 0, "GREET", "hey", 1⟩]
  translations := ["eng"]
  tstrings := []

/-- The mapping that knows the label "ui" only. -/
def uiMap : ArchiveMap := fun k => if k = "ui" then some ⟨"ui.ice", 0⟩ else none

/-- Three records: two share path (up to the separator) and identifier, the third is in
another file. -/
def uiRecords : List Record :=
  [⟨"ui\\a.text", "text", "0", "GREET", "bonjour"⟩, ⟨"ui/a.text", "text", "0", "GREET", "salut"⟩,
    ⟨"ui/b.text", "text", "0", "GREET", "coucou"⟩]

/-- The storage calls that only read. -/
def Event.isQuery : Event → Bool
  | .queryArchive _ _ => true
  | .queryFile _ _ _ => true
  | .queryString _ _ _ _ => true
  | .queryTranslation _ _ => true
  | .queryTranslationString _ _ _ => true
  | _ => false

/-- The storage calls the body of the CSV loop can issue. -/
def Event.isRecordCall : Event → Bool
  | .queryArchive _ _ => true
  | .queryFile _ _ _ => true
  | .queryString _ _ _ _ => true
  | .queryTranslationString _ _ _ => true
  | .insertTranslationString _ _ _ => true
  | .updateTranslationString _ _ => true
  | _ => false

/-- The archive label of record `line` is mapped, the lookups of lines 152-170 raise no
storage error, and one of them (Archive, then File, then SourceString) returns nothing. -/
def LookupMiss (env : Env) (archiveMap : ArchiveMap) (line : Record)
    (c : String → String → Nat) (st : St) : Prop :=
  ∃ aname, archiveMap (env.dir (normalize line.filename)) = some aname ∧
    ((queryArchive env aname st).2 = .ok none ∨
      ∃ a, (queryArchive env aname st).2 = .ok (some a) ∧
        ((queryFile env a (env.base (normalize line.filename)) (queryArchive env aname st).1).2
            = .ok none ∨
          ∃ f, (queryFile env a (env.base (normalize line.filename))
                (queryArchive env aname st).1).2 = .ok (some f) ∧
            (queryString env f (c (normalize line.filename) line.identifier) line.identifier
              (queryFile env a (env.base (normalize line.filename))
                (queryArchive env aname st).1).1).2 = .ok none))

/-- A record whose archive label "xx" is not in `uiMap`. -/
def strayRecord : Record := ⟨"xx/a.text", "text", "0", "GREET", "hola"⟩

/-- A record of a mapped archive whose identifier has no SourceString. -/
def orphanRecord : Record := ⟨"ui/a.text", "text", "0", "NOPE", "hola"⟩

/-- A skit list whose first scan reports a read fault other than end-of-file, whose second
scan reads the line `ui.ice h g ui`, and which is at end-of-file from then on. -/
def faultyScan : Nat → Scan := fun i =>
  if i = 0 then ⟨0, some (.other "read fault"), "", "", "", ""⟩
  else if i = 1 then ⟨4, none, "ui.ice", "h", "g", "ui"⟩
  else ⟨0, some .eof, "", "", "", ""⟩

/-- A skit list every scan of which reports a read fault other than end-of-file, as when
the path given with `-aidaskits` is a directory. -/
def stuckScan : Nat → Scan := fun _ => ⟨0, some (.other "read fault"), "", "", "", ""⟩

/-- A skit list that is at end-of-file from the first scan on. -/
def emptyScan : Nat → Scan := fun _ => ⟨0, some .eof, "", "", "", ""⟩

/-- The environment `quietEnv` in which exactly the storage call number `k` fails. -/
def failAt (k : Nat) : Env := { quietEnv with fails := fun n => decide (n = k) }

/-- A catalog in which the translation set "eng" exists and the string A of `ui.text` has
the value "old". -/
def engStore : Store where
  archives := [⟨"ui.ice", 0⟩]
  files := [⟨0, "ui.text"⟩]
  strings := [⟨0, 0, "A", "old", 1⟩]
  translations := ["eng"]
  tstrings := [⟨0, 0, "alt"⟩]

/-- An archive with the one text file `ui.text`, holding the pair (A, new). -/
def engGroups : List (List ArchiveFile) := [[⟨"ui.text", "text", .ok [⟨"A", "new"⟩]⟩]]

/-- Scanning a trace of a translation import: `cur` is what the latest `QueryString`
returned. A `QueryString` that returned a row returned the row stored under the queried
key; an `InsertTranslationString` targets the row `cur` and carries a value different from
the stored one; an `UpdateTranslationString` rewrites a row that refers to `cur`, again with
a different value; `InsertString` and `UpdateString` do not occur. -/
def Justified (strings : List StringRow) : Option SourceString → List Event → Prop
  | _, [] => True
  | cur, e :: rest =>
    match e with
    | .queryString g o i r =>
      (∀ s, r = some s → find? (stringKey g.id o i) strings = some s) ∧ Justified strings r rest
    | .insertTranslationString _ s w =>
      (cur = some s ∧ s.val.value ≠ w) ∧ Justified strings cur rest
    | .updateTranslationString ts w =>
      (∃ s, cur = some s ∧ ts.val.string = s.id ∧ s.val.value ≠ w) ∧ Justified strings cur rest
    | .insertString _ _ _ _ _ => False
    | .updateString _ _ _ => False
    | _ => Justified strings cur rest

/-- The storage calls that neither read nor write a SourceString or a TranslationString row. -/
def Event.isNeutral : Event → Bool
  | .queryArchive _ _ => true
  | .insertArchive _ => true
  | .queryFile _ _ _ => true
  | .insertFile _ _ => true
  | .queryTranslation _ _ => true
  | .insertTranslation _ => true
  | .queryTranslationString _ _ _ => true
  | .txBegin => true
  | .txEnd => true
  | _ => false

/-- A step of a translation import: the trace grows by events that pass the scan
`Justified` from any start, and the SourceString table stays as it is. -/
def TransStep (st st' : St) : Prop :=
  st'.trace = st.trace ++ newEvents st st' ∧ st'.db.strings = st.db.strings ∧
    (∀ cur, Justified st.db.strings cur (newEvents st st')) ∧
    (st.durable.strings = st.db.strings → st'.durable.strings = st.db.strings)

/-- The run reached `cur'` as the result of its latest `QueryString`: either the events
`pre` hold no `QueryString` and `cur'` is the start value `cur`, or the last `QueryString`
of `pre` returned `cur'`, and a row it returned is the one stored under the queried key. -/
def LatestQuery (strings : List StringRow) (cur : Option SourceString) (pre : List Event)
    (cur' : Option SourceString) : Prop :=
  (cur' = cur ∧ ∀ e ∈ pre, queryOrdinal e = none) ∨
    ∃ pre1 g o i pre2, pre = pre1 ++ Event.queryString g o i cur' :: pre2 ∧
      (∀ e ∈ pre2, queryOrdinal e = none) ∧
      (∀ s, cur' = some s → find? (stringKey g.id o i) strings = some s)

/-! ## Keyed tables -/

/-- Get-or-update-or-create on a keyed table: the first row with key `w.1` is rewritten by
`upd w.2`; when there is none, the row `mk w.1 w.2` is appended. -/
def put {α κ π : Type} [DecidableEq κ] (key : α → κ) (upd : π → α → α) (mk : κ → π → α)
    (w : κ × π) (T : List α) : List α :=
  match find? (fun r => decide (key r = w.1)) T with
  | some r => modifyAt (upd w.2) r.id T
  | none => T ++ [mk w.1 w.2]

/-- A sequence of `put`s, in order. -/
def puts {α κ π : Type} [DecidableEq κ] (key : α → κ) (upd : π → α → α) (mk : κ → π → α)
    (W : List (κ × π)) (T : List α) : List α :=
  W.foldl (fun T w => put key upd mk w T) T

/-- The first row with key `k`. -/
def rowAt {α κ : Type} [DecidableEq κ] (key : α → κ) (k : κ) (T : List α) : Option α :=
  (find? (fun r => decide (key r = k)) T).map (fun r => r.val)

/-- What a `put` of the payload `v` makes of the first row with key `k`. -/
def putRow {α κ π : Type} (upd : π → α → α) (mk : κ → π → α) (k : κ) (o : Option α) (v : π) :
    Option α :=
  match o with
  | some r => some (upd v r)
  | none => some (mk k v)

/-- The last payload of a list, or `d` for the empty list. -/
def lastOr {π : Type} : List π → π → π
  | [], d => d
  | v :: vs, _ => lastOr vs v

/-- The natural key of a SourceString row: (File, ordinal, identifier). -/
def skey (r : StringRow) : Nat × Nat × String := (r.file, r.ordinal, r.identifier)

/-- What lines 272-293 do to a present SourceString in base mode: value and version are
rewritten when the value differs, the row is left alone when it is equal. -/
def supd (version : Int) (value : String) (r : StringRow) : StringRow :=
  if r.value ≠ value then { r with value := value, version := version } else r

/-- The row `InsertString` creates. -/
def smk (version : Int) (k : Nat × Nat × String) (value : String) : StringRow :=
  ⟨k.1, k.2.1, k.2.2, value, version⟩

/-- The natural key of a TranslationString row: (Translation, SourceString). -/
def tkey (r : TransRow) : Nat × Nat := (r.translation, r.string)

/-- What `UpdateTranslationString` does to a row. -/
def tupd (value : String) (r : TransRow) : TransRow := { r with value := value }

/-- The row `InsertTranslationString` creates. -/
def tmk (k : Nat × Nat) (value : String) : TransRow := ⟨k.1, k.2, value⟩

/-- The SourceString writes of the pairs of one file: key (file, ordinal, identifier) and
value, with the ordinals of the collision map. -/
def fileWrites (fid : Nat) : List Pair → (String → Nat) → List ((Nat × Nat × String) × String)
  | [], _ => []
  | p :: ps, c =>
    ((fid, c p.identifier, p.identifier), p.string) :: fileWrites fid ps (bump c p.identifier)

/-! ## Resolution of archive, file and translation rows -/

/-- Get-or-create on a table: the first row satisfying `p`, or else the appended `row`;
returns the table afterwards and the handle of the row. -/
def ensure {α : Type} (p : α → Bool) (row : α) (T : List α) : List α × Ref α :=
  match find? p T with
  | some r => (T, r)
  | none => (T ++ [row], ⟨T.length, row⟩)

/-- What lines 234-246 make of the Archive table and of the variable `a` when no storage
call fails. -/
def ensureArchive (aname : ArchiveName) (a : Option Archive) (A : List ArchiveName) :
    List ArchiveName × Archive :=
  match a with
  | some x => (A, x)
  | none => ensure (archiveKey aname) aname A

/-- What lines 275-283 make of the Translation table and of the variable `translation`
when no storage call fails. -/
def ensureTranslation (name : String) (tr : Option Translation) (T : List String) :
    List String × Translation :=
  match tr with
  | some t => (T, t)
  | none => ensure (translationKey name) name T

/-- What lines 248-258 make of the File table when no storage call fails. -/
def ensureFile (x : Archive) (name : String) (F : List FileRow) : List FileRow × File :=
  ensure (fileKey x.id name) ⟨x.id, name⟩ F

/-- The text files of a list of archive files that decode, in order, each with the File row
that lines 234-258 resolve for it when no storage call fails; then the variable `a` and the
Archive and File tables afterwards. -/
def jobs (aname : ArchiveName) :
    List ArchiveFile → Option Archive → List ArchiveName → List FileRow →
      List (File × List Pair) × Option Archive × List ArchiveName × List FileRow
  | [], a, A, F => ([], a, A, F)
  | file :: rest, a, A, F =>
    if file.type = "text" then
      match file.text with
      | .error _ => jobs aname rest a A F
      | .ok pairs =>
        let ra := ensureArchive aname a A
        let rf := ensureFile ra.2 file.name F
        let r := jobs aname rest (some ra.2) ra.1 rf.1
        ((rf.2, pairs) :: r.1, r.2)
    else jobs aname rest a A F

/-- The SourceString writes of a list of resolved text files, in order. -/
def jobWrites (js : List (File × List Pair)) : List ((Nat × Nat × String) × String) :=
  js.flatMap (fun j => fileWrites j.1.id j.2 (fun _ => 0))

/-- The TranslationString writes of the pairs of one file against the SourceString table `S`:
for each pair whose SourceString is stored with another value, the id of that SourceString
and the value of the pair. -/
def transWrites (S : List StringRow) (fid : Nat) :
    List Pair → (String → Nat) → List (Nat × String)
  | [], _ => []
  | p :: ps, c =>
    match find? (stringKey fid (c p.identifier) p.identifier) S with
    | some s =>
      if s.val.value ≠ p.string then (s.id, p.string) :: transWrites S fid ps (bump c p.identifier)
      else transWrites S fid ps (bump c p.identifier)
    | none => transWrites S fid ps (bump c p.identifier)

/-- The TranslationString writes of a list of resolved text files, in order. -/
def jobTransWrites (S : List StringRow) (js : List (File × List Pair)) : List (Nat × String) :=
  js.flatMap (fun j => transWrites S j.1.id j.2 (fun _ => 0))

/-- The writes of `transWrites` as keyed writes of the translation set `tid`. -/
def keyed (tid : Nat) (W : List (Nat × String)) : List ((Nat × Nat) × String) :=
  W.map (fun w => ((tid, w.1), w.2))

/-- The Translation table and the variable `translation` after a stretch of the run that
issued the TranslationString writes `W`: the set is resolved by the first write. -/
def lazyT (name : String) (tr : Option Translation) (T : List String) (W : List (Nat × String)) :
    List String × Option Translation :=
  if W = [] then (T, tr)
  else ((ensureTranslation name tr T).1, some (ensureTranslation name tr T).2)

/-- The effect of a stretch of a translation import that issued the TranslationString
writes `W`, from the store `db` and the variable `tr` to `db'` and `tr'`: the translation
set is resolved by the first write, the writes are keyed upserts on the TranslationString
table, and the SourceString table stays as it is. -/
def TransEffect (name : String) (tr : Option Translation) (W : List (Nat × String))
    (db db' : Store) (tr' : Option Translation) : Prop :=
  tr' = (lazyT name tr db.translations W).2 ∧
    db'.translations = (lazyT name tr db.translations W).1 ∧
    db'.tstrings = puts tkey tupd tmk
      (keyed (ensureTranslation name tr db.translations).2.id W) db.tstrings ∧
    db'.strings = db.strings

/-! ## Projections of the storage calls -/

@[simp] theorem complain_none (a : String) (st : St) : complain a none st = (st, false) := rfl
@[simp] theorem complain_diag (a : String) (e : Option Err) (st : St) :
    (complain a e st).1.diag = st.diag ++ (e.map (fun m => (a, m))).toList := by
  cases e <;> simp [complain]

@[simp] theorem log_trace (st : St) (e : Event) : (st.log e).trace = st.trace ++ [e] := rfl
@[simp] theorem log_db (st : St) (e : Event) : (st.log e).db = st.db := rfl
@[simp] theorem log_durable (st : St) (e : Event) : (st.log e).durable = st.durable := rfl
@[simp] theorem log_inTx (st : St) (e : Event) : (st.log e).inTx = st.inTx := rfl
@[simp] theorem log_diag (st : St) (e : Event) : (st.log e).diag = st.diag := rfl
@[simp] theorem mutate_trace (st : St) (db : Store) : (st.mutate db).trace = st.trace := by
  unfold St.mutate; split <;> rfl
@[simp] theorem mutate_db (st : St) (db : Store) : (st.mutate db).db = db := by
  unfold St.mutate; split <;> rfl
@[simp] theorem mutate_inTx (st : St) (db : Store) : (st.mutate db).inTx = st.inTx := by
  unfold St.mutate; split <;> rfl
@[simp] theorem mutate_diag (st : St) (db : Store) : (st.mutate db).diag = st.diag := by
  unfold St.mutate; split <;> rfl
@[simp] theorem mutate_durable (st : St) (db : Store) :
    (st.mutate db).durable = if st.inTx then st.durable else db := by
  unfold St.mutate; split <;> rfl

@[simp] theorem queryArchive_fst (env : Env) (aname : ArchiveName) (st : St) :
    (queryArchive env aname st).1
      = st.log (.queryArchive aname (ptrOf (queryArchive env aname st).2)) := by
  unfold queryArchive; split <;> rfl
@[simp] theorem queryArchive_snd (env : Env) (aname : ArchiveName) (st : St) :
    (queryArchive env aname st).2 = if env.fails st.trace.length then .error storageError
      else .ok (find? (archiveKey aname) st.db.archives) := by
  unfold queryArchive; split <;> rfl
@[simp] theorem queryFile_fst (env : Env) (a : Archive) (name : String) (st : St) :
    (queryFile env a name st).1 = st.log (.queryFile a name (ptrOf (queryFile env a name st).2)) := by
  unfold queryFile; split <;> rfl
@[simp] theorem queryFile_snd (env : Env) (a : Archive) (name : String) (st : St) :
    (queryFile env a name st).2 = if env.fails st.trace.length then .error storageError
      else .ok (find? (fileKey a.id name) st.db.files) := by
  unfold queryFile; split <;> rfl
@[simp] theorem queryString_fst (env : Env) (f : File) (o : Nat) (i : String) (st : St) :
    (queryString env f o i st).1
      = st.log (.queryString f o i (ptrOf (queryString env f o i st).2)) := by
  unfold queryString; split <;> rfl
@[simp] theorem queryString_snd (env : Env) (f : File) (o : Nat) (i : String) (st : St) :
    (queryString env f o i st).2 = if env.fails st.trace.length then .error storageError
      else .ok (find? (stringKey f.id o i) st.db.strings) := by
  unfold queryString; split <;> rfl
@[simp] theorem queryTranslation_fst (env : Env) (n : String) (st : St) :
    (queryTranslation env n st).1
      = st.log (.queryTranslation n (ptrOf (queryTranslation env n st).2)) := by
  unfold queryTranslation; split <;> rfl
@[simp] theorem queryTranslation_snd (env : Env) (n : String) (st : St) :
    (queryTranslation env n st).2 = if env.fails st.trace.length then .error storageError
      else .ok (find? (translationKey n) st.db.translations) := by
  unfold queryTranslation; split <;> rfl
@[simp] theorem queryTranslationString_fst (env : Env) (t : Translation) (s : SourceString)
    (st : St) : (queryTranslationString env t s st).1
      = st.log (.queryTranslationString t s (ptrOf (queryTranslationString env t s st).2)) := by
  unfold queryTranslationString; split <;> rfl
@[simp] theorem queryTranslationString_snd (env : Env) (t : Translation) (s : SourceString)
    (st : St) : (queryTranslationString env t s st).2
      = if env.fails st.trace.length then .error storageError
        else .ok (find? (transKey t.id s.id) st.db.tstrings) := by
  unfold queryTranslationString; split <;> rfl

@[simp] theorem insertArchive_snd (env : Env) (aname : ArchiveName) (st : St) :
    (insertArchive env aname st).2 = if env.fails st.trace.length then .error storageError
      else .ok ⟨st.db.archives.length, aname⟩ := by
  unfold insertArchive; split <;> rfl
@[simp] theorem insertFile_snd (env : Env) (a : Archive) (name : String) (st : St) :
    (insertFile env a name st).2 = if env.fails st.trace.length then .error storageError
      else .ok ⟨st.db.files.length, ⟨a.id, name⟩⟩ := by
  unfold insertFile; split <;> rfl
@[simp] theorem insertString_snd (env : Env) (f : File) (v : Int) (o : Nat) (i w : String)
    (st : St) : (insertString env f v o i w st).2
      = if env.fails st.trace.length then .error storageError
        else .ok ⟨st.db.strings.length, ⟨f.id, o, i, w, v⟩⟩ := by
  unfold insertString; split <;> rfl
@[simp] theorem updateString_snd (env : Env) (s : SourceString) (v : Int) (w : String) (st : St) :
    (updateString env s v w st).2 = if env.fails st.trace.length then .error storageError
      else .ok ⟨s.id, { s.val with value := w, version := v }⟩ := by
  unfold updateString; split <;> rfl
@[simp] theorem insertTranslation_snd (env : Env) (n : String) (st : St) :
    (insertTranslation env n st).2 = if env.fails st.trace.length then .error storageError
      else .ok ⟨st.db.translations.length, n⟩ := by
  unfold insertTranslation; split <;> rfl
@[simp] theorem insertTranslationString_snd (env : Env) (t : Translation) (s : SourceString)
    (w : String) (st : St) : (insertTranslationString env t s w st).2
      = if env.fails st.trace.length then .error storageError
        else .ok ⟨st.db.tstrings.length, ⟨t.id, s.id, w⟩⟩ := by
  unfold insertTranslationString; split <;> rfl
@[simp] theorem updateTranslationString_snd (env : Env) (ts : TranslationString) (w : String)
    (st : St) : (updateTranslationString env ts w st).2
      = if env.fails st.trace.length then .error storageError
        else .ok ⟨ts.id, { ts.val with value := w }⟩ := by
  unfold updateTranslationString; split <;> rfl

@[simp] theorem ptrOf_ok {α : Type} (r : Option α) : ptrOf (.ok r : Except Err (Option α)) = r := rfl
@[simp] theorem ptrOf_error {α : Type} (e : Err) :
    ptrOf (.error e : Except Err (Option α)) = none := rfl
@[simp] theorem errOf_ok {α : Type} (r : α) : errOf (.ok r : Except Err α) = none := rfl
@[simp] theorem errOf_ite {α : Type} (c : Prop) [Decidable c] (e : Err) (x : α) :
    errOf (if c then (.error e : Except Err α) else .ok x) = if c then some e else none := by
  split <;> rfl
@[simp] theorem ptrOf_ite {α : Type} (c : Prop) [Decidable c] (e : Err) (x : Option α) :
    ptrOf (if c then (.error e : Except Err (Option α)) else .ok x) = if c then none else x := by
  split <;> rfl
@[simp] theorem errOf_error {α : Type} (e : Err) : errOf (.error e : Except Err α) = some e := rfl
@[simp] theorem insertArchive_trace (env : Env) (aname : ArchiveName) (st : St) :
    (insertArchive env aname st).1.trace = st.trace ++ [.insertArchive aname] := by
  unfold insertArchive; split <;> simp
@[simp] theorem insertArchive_diag (env : Env) (aname : ArchiveName) (st : St) :
    (insertArchive env aname st).1.diag = st.diag := by
  unfold insertArchive; split <;> simp
@[simp] theorem insertArchive_inTx (env : Env) (aname : ArchiveName) (st : St) :
    (insertArchive env aname st).1.inTx = st.inTx := by
  unfold insertArchive; split <;> simp
@[simp] theorem insertArchive_db (env : Env) (aname : ArchiveName) (st : St) :
    (insertArchive env aname st).1.db = if env.fails st.trace.length then st.db
      else { st.db with archives := st.db.archives ++ [aname] } := by
  unfold insertArchive; split <;> simp
@[simp] theorem insertArchive_durable (env : Env) (aname : ArchiveName) (st : St) :
    (insertArchive env aname st).1.durable = if env.fails st.trace.length ∨ st.inTx then st.durable
      else { st.db with archives := st.db.archives ++ [aname] } := by
  unfold insertArchive; split <;> simp [*]
@[simp] theorem insertFile_trace (env : Env) (a : Archive) (name : String) (st : St) :
    (insertFile env a name st).1.trace = st.trace ++ [.insertFile a name] := by
  unfold insertFile; split <;> simp
@[simp] theorem insertFile_diag (env : Env) (a : Archive) (name : String) (st : St) :
    (insertFile env a name st).1.diag = st.diag := by
  unfold insertFile; split <;> simp
@[simp] theorem insertFile_inTx (env : Env) (a : Archive) (name : String) (st : St) :
    (insertFile env a name st).1.inTx = st.inTx := by
  unfold insertFile; split <;> simp
@[simp] theorem insertFile_db (env : Env) (a : Archive) (name : String) (st : St) :
    (insertFile env a name st).1.db = if env.fails st.trace.length then st.db
      else { st.db with files := st.db.files ++ [⟨a.id, name⟩] } := by
  unfold insertFile; split <;> simp
@[simp] theorem insertFile_durable (env : Env) (a : Archive) (name : String) (st : St) :
    (insertFile env a name st).1.durable = if env.fails st.trace.length ∨ st.inTx then st.durable
      else { st.db with files := st.db.files ++ [⟨a.id, name⟩] } := by
  unfold insertFile; split <;> simp [*]
@[simp] theorem insertString_trace (env : Env) (f : File) (v : Int) (o : Nat) (i w : String) (st : St) :
    (insertString env f v o i w st).1.trace = st.trace ++ [.insertString f v o i w] := by
  unfold insertString; split <;> simp
@[simp] theorem insertString_diag (env : Env) (f : File) (v : Int) (o : Nat) (i w : String) (st : St) :
    (insertString env f v o i w st).1.diag = st.diag := by
  unfold insertString; split <;> simp
@[simp] theorem insertString_inTx (env : Env) (f : File) (v : Int) (o : Nat) (i w : String) (st : St) :
    (insertString env f v o i w st).1.inTx = st.inTx := by
  unfold insertString; split <;> simp
@[simp] theorem insertString_db (env : Env) (f : File) (v : Int) (o : Nat) (i w : String) (st : St) :
    (insertString env f v o i w st).1.db = if env.fails st.trace.length then st.db
      else { st.db with strings := st.db.strings ++ [⟨f.id, o, i, w, v⟩] } := by
  unfold insertString; split <;> simp
@[simp] theorem insertString_durable (env : Env) (f : File) (v : Int) (o : Nat) (i w : String) (st : St) :
    (insertString env f v o i w st).1.durable = if env.fails st.trace.length ∨ st.inTx then st.durable
      else { st.db with strings := st.db.strings ++ [⟨f.id, o, i, w, v⟩] } := by
  unfold insertString; split <;> simp [*]
@[simp] theorem updateString_trace (env : Env) (s : SourceString) (v : Int) (w : String) (st : St) :
    (updateString env s v w st).1.trace = st.trace ++ [.updateString s v w] := by
  unfold updateString; split <;> simp
@[simp] theorem updateString_diag (env : Env) (s : SourceString) (v : Int) (w : String) (st : St) :
    (updateString env s v w st).1.diag = st.diag := by
  unfold updateString; split <;> simp
@[simp] theorem updateString_inTx (env : Env) (s : SourceString) (v : Int) (w : String) (st : St) :
    (updateString env s v w st).1.inTx = st.inTx := by
  unfold updateString; split <;> simp
@[simp] theorem updateString_db (env : Env) (s : SourceString) (v : Int) (w : String) (st : St) :
    (updateString env s v w st).1.db = if env.fails st.trace.length then st.db
      else { st.db with
          strings := modifyAt (fun r => { r with value := w, version := v }) s.id
            st.db.strings } := by
  unfold updateString; split <;> simp
@[simp] theorem updateString_durable (env : Env) (s : SourceString) (v : Int) (w : String) (st : St) :
    (updateString env s v w st).1.durable = if env.fails st.trace.length ∨ st.inTx then st.durable
      else { st.db with
          strings := modifyAt (fun r => { r with value := w, version := v }) s.id
            st.db.strings } := by
  unfold updateString; split <;> simp [*]
@[simp] theorem insertTranslation_trace (env : Env) (n : String) (st : St) :
    (insertTranslation env n st).1.trace = st.trace ++ [.insertTranslation n] := by
  unfold insertTranslation; split <;> simp
@[simp] theorem insertTranslation_diag (env : Env) (n : String) (st : St) :
    (insertTranslation env n st).1.diag = st.diag := by
  unfold insertTranslation; split <;> simp
@[simp] theorem insertTranslation_inTx (env : Env) (n : String) (st : St) :
    (insertTranslation env n st).1.inTx = st.inTx := by
  unfold insertTranslation; split <;> simp
@[simp] theorem insertTranslation_db (env : Env) (n : String) (st : St) :
    (insertTranslation env n st).1.db = if env.fails st.trace.length then st.db
      else { st.db with translations := st.db.translations ++ [n] } := by
  unfold insertTranslation; split <;> simp
@[simp] theorem insertTranslation_durable (env : Env) (n : String) (st : St) :
    (insertTranslation env n st).1.durable = if env.fails st.trace.length ∨ st.inTx then st.durable
      else { st.db with translations := st.db.translations ++ [n] } := by
  unfold insertTranslation; split <;> simp [*]
@[simp] theorem insertTranslationString_trace (env : Env) (t : Translation) (s : SourceString) (w : String) (st : St) :
    (insertTranslationString env t s w st).1.trace = st.trace ++ [.insertTranslationString t s w] := by
  unfold insertTranslationString; split <;> simp
@[simp] theorem insertTranslationString_diag (env : Env) (t : Translation) (s : SourceString) (w : String) (st : St) :
    (insertTranslationString env t s w st).1.diag = st.diag := by
  unfold insertTranslationString; split <;> simp
@[simp] theorem insertTranslationString_inTx (env : Env) (t : Translation) (s : SourceString) (w : String) (st : St) :
    (insertTranslationString env t s w st).1.inTx = st.inTx := by
  unfold insertTranslationString; split <;> simp
@[simp] theorem insertTranslationString_db (env : Env) (t : Translation) (s : SourceString) (w : String) (st : St) :
    (insertTranslationString env t s w st).1.db = if env.fails st.trace.length then st.db
      else { st.db with tstrings := st.db.tstrings ++ [⟨t.id, s.id, w⟩] } := by
  unfold insertTranslationString; split <;> simp
@[simp] theorem insertTranslationString_durable (env : Env) (t : Translation) (s : SourceString) (w : String) (st : St) :
    (insertTranslationString env t s w st).1.durable = if env.fails st.trace.length ∨ st.inTx then st.durable
      else { st.db with tstrings := st.db.tstrings ++ [⟨t.id, s.id, w⟩] } := by
  unfold insertTranslationString; split <;> simp [*]
@[simp] theorem updateTranslationString_trace (env : Env) (ts : TranslationString) (w : String) (st : St) :
    (updateTranslationString env ts w st).1.trace = st.trace ++ [.updateTranslationString ts w] := by
  unfold updateTranslationString; split <;> simp
@[simp] theorem updateTranslationString_diag (env : Env) (ts : TranslationString) (w : String) (st : St) :
    (updateTranslationString env ts w st).1.diag = st.diag := by
  unfold updateTranslationString; split <;> simp
@[simp] theorem updateTranslationString_inTx (env : Env) (ts : TranslationString) (w : String) (st : St) :
    (updateTranslationString env ts w st).1.inTx = st.inTx := by
  unfold updateTranslationString; split <;> simp
@[simp] theorem updateTranslationString_db (env : Env) (ts : TranslationString) (w : String) (st : St) :
    (updateTranslationString env ts w st).1.db = if env.fails st.trace.length then st.db
      else { st.db with
          tstrings := modifyAt (fun r => { r with value := w }) ts.id st.db.tstrings } := by
  unfold updateTranslationString; split <;> simp
@[simp] theorem updateTranslationString_durable (env : Env) (ts : TranslationString) (w : String) (st : St) :
    (updateTranslationString env ts w st).1.durable = if env.fails st.trace.length ∨ st.inTx then st.durable
      else { st.db with
          tstrings := modifyAt (fun r => { r with value := w }) ts.id st.db.tstrings } := by
  unfold updateTranslationString; split <;> simp [*]

@[simp] theorem complain_trace (a : String) (e : Option Err) (st : St) :
    (complain a e st).1.trace = st.trace := by cases e <;> rfl
@[simp] theorem complain_db (a : String) (e : Option Err) (st : St) :
    (complain a e st).1.db = st.db := by cases e <;> rfl
@[simp] theorem complain_durable (a : String) (e : Option Err) (st : St) :
    (complain a e st).1.durable = st.durable := by cases e <;> rfl
@[simp] theorem complain_inTx (a : String) (e : Option Err) (st : St) :
    (complain a e st).1.inTx = st.inTx := by cases e <;> rfl
@[simp] theorem complain_snd (a : String) (e : Option Err) (st : St) :
    (complain a e st).2 = e.isSome := by cases e <;> rfl
@[simp] theorem dbBegin_trace (st : St) : (dbBegin st).trace = st.trace ++ [.txBegin] := rfl
@[simp] theorem dbBegin_db (st : St) : (dbBegin st).db = st.db := rfl
@[simp] theorem dbBegin_durable (st : St) : (dbBegin st).durable = st.durable := rfl
@[simp] theorem dbBegin_inTx (st : St) : (dbBegin st).inTx = true := rfl
@[simp] theorem dbBegin_diag (st : St) : (dbBegin st).diag = st.diag := rfl
@[simp] theorem dbEnd_trace (st : St) : (dbEnd st).trace = st.trace ++ [.txEnd] := rfl
@[simp] theorem dbEnd_db (st : St) : (dbEnd st).db = st.db := rfl
@[simp] theorem dbEnd_durable (st : St) : (dbEnd st).durable = st.db := rfl
@[simp] theorem dbEnd_inTx (st : St) : (dbEnd st).inTx = false := rfl
@[simp] theorem dbEnd_diag (st : St) : (dbEnd st).diag = st.diag := rfl

/-! ## Traces grow by appending -/

theorem newEvents_self (st : St) : newEvents st st = [] := by simp [newEvents]

theorem newEvents_trans {st st1 st2 : St} (h1 : st1.trace = st.trace ++ newEvents st st1)
    (h2 : st2.trace = st1.trace ++ newEvents st1 st2) :
    st2.trace = st.trace ++ newEvents st st2 ∧
      newEvents st st2 = newEvents st st1 ++ newEvents st1 st2 := by
  have h : st2.trace = st.trace ++ (newEvents st st1 ++ newEvents st1 st2) := by
    rw [h2, h1, List.append_assoc]
  have h' : newEvents st st2 = newEvents st st1 ++ newEvents st1 st2 := by
    conv_lhs => rw [newEvents, h]
    simp
  exact ⟨by rw [h', ← h], h'⟩

theorem find?_some {α : Type} {p : α → Bool} {l : List α} {r : Ref α}
    (h : find? p l = some r) : p r.val = true ∧ l[r.id]? = some r.val := by
  induction l generalizing r with
  | nil => simp [find?] at h
  | cons x xs ih =>
    unfold find? at h
    split at h
    · cases h; simp [*]
    · cases hq : find? p xs with
      | none => simp [hq] at h
      | some r' =>
        simp [hq] at h
        cases h
        simpa using ih hq

/-! ## The pair loop of the archive-scan import -/

theorem newEvents_append (st st' : St) (evs : List Event) (h : st'.trace = st.trace ++ evs) :
    newEvents st st' = evs := by
  simp [newEvents, h]

theorem importPair_coll (env : Env) (fl : Flags) (f : File) (p : Pair) (c : String → Nat)
    (tr : Option Translation) (st : St) :
    (importPair env fl f p c tr st).2.1 = bump c p.identifier := by
  unfold importPair
  simp only []
  repeat' split
  all_goals rfl

theorem resolveTranslation_trace (env : Env) (n : String) (tr : Option Translation) (st : St) :
    (resolveTranslation env n tr st).1.trace
      = st.trace ++ newEvents st (resolveTranslation env n tr st).1 := by
  unfold resolveTranslation newEvents
  repeat' split
  all_goals simp only [Prod.ext_iff] at *
  all_goals (try casesm* _ ∧ _)
  all_goals subst_vars
  all_goals simp

theorem resolveTranslation_events (env : Env) (n : String) (tr : Option Translation) (st : St) :
    ∀ e ∈ newEvents st (resolveTranslation env n tr st).1,
      (∃ r, e = Event.queryTranslation n r) ∨ e = Event.insertTranslation n := by
  unfold resolveTranslation newEvents
  repeat' split
  all_goals simp only [Prod.ext_iff] at *
  all_goals (try casesm* _ ∧ _)
  all_goals subst_vars
  all_goals simp

theorem upsert_trace (env : Env) (t : Translation) (s : SourceString) (v : String) (st : St) :
    (upsertTranslationString env t s v st).1.trace
      = st.trace ++ [Event.queryTranslationString t s (ptrOf (queryTranslationString env t s st).2),
          upsertEvent t s (ptrOf (queryTranslationString env t s st).2) v] := by
  unfold upsertTranslationString
  repeat' split
  all_goals simp only [Prod.ext_iff] at *
  all_goals (try casesm* _ ∧ _)
  all_goals subst_vars
  all_goals rename_i h
  all_goals rw [h]
  all_goals simp only [queryTranslationString_snd] at h
  all_goals simp [upsertEvent, h]

theorem upsert_err (env : Env) (t : Translation) (s : SourceString) (v : String) (st : St) :
    (upsertTranslationString env t s v st).2.isSome = env.fails (st.trace.length + 1) := by
  unfold upsertTranslationString
  repeat' split
  all_goals simp only [Prod.ext_iff] at *
  all_goals (try casesm* _ ∧ _)
  all_goals subst_vars
  all_goals simp
  all_goals (by_cases h : env.fails (st.trace.length + 1) = true <;> simp [h])

theorem resolveTranslation_none (env : Env) (n : String) (tr : Option Translation) (st : St)
    (h : (resolveTranslation env n tr st).2 = none) :
    (resolveTranslation env n tr st).1.trace.length = st.trace.length + 2 ∧
      env.fails (st.trace.length + 1) = true := by
  unfold resolveTranslation at h ⊢
  repeat' split at h
  all_goals simp only [Prod.ext_iff] at *
  all_goals (try casesm* _ ∧ _)
  all_goals subst_vars
  all_goals (try simp at h)
  rename_i hr hq
  have hf : env.fails (st.trace.length + 1) = true := by
    by_contra hc
    simp [hc] at hr
  simp [hf]

theorem ext_of_trace (st st' : St) (evs : List Event) (h : st'.trace = st.trace ++ evs) :
    st'.trace = st.trace ++ newEvents st st' ∧ newEvents st st' = evs := by
  have := newEvents_append st st' evs h
  exact ⟨by rw [this, h], this⟩

theorem translatePair_cases (env : Env) (fl : Flags) (f : File) (p : Pair) (s : SourceString)
    (tr : Option Translation) (st : St) :
    ((resolveTranslation env fl.flagTrans tr st).2 = none ∧
      translatePair env fl f p s tr st
        = ((resolveTranslation env fl.flagTrans tr st).1, none, .brk)) ∨
    (∃ t, (resolveTranslation env fl.flagTrans tr st).2 = some t ∧
      translatePair env fl f p s tr st
        = ((complain (f.val.name ++ ": " ++ p.identifier)
              (upsertTranslationString env t s p.string
                (resolveTranslation env fl.flagTrans tr st).1).2
              (upsertTranslationString env t s p.string
                (resolveTranslation env fl.flagTrans tr st).1).1).1,
            some t,
            if (upsertTranslationString env t s p.string
                (resolveTranslation env fl.flagTrans tr st).1).2.isSome then .brk else .next)) := by
  unfold translatePair
  rcases h : resolveTranslation env fl.flagTrans tr st with ⟨st1, _ | t⟩
  · left; simp
  · right
    refine ⟨t, rfl, ?_⟩
    simp only []
    rcases hU : upsertTranslationString env t s p.string st1 with ⟨st2, _ | e⟩ <;>
      simp [complain]

theorem translatePair_trace (env : Env) (fl : Flags) (f : File) (p : Pair) (s : SourceString)
    (tr : Option Translation) (st : St) :
    (translatePair env fl f p s tr st).1.trace
        = st.trace ++ newEvents st (translatePair env fl f p s tr st).1 ∧
    ∃ l, (∀ e ∈ l, e.isNeutral = true) ∧
      (newEvents st (translatePair env fl f p s tr st).1 = l ∨
        ∃ t q, (∀ ts, q = some ts → ts.val.string = s.id) ∧
          newEvents st (translatePair env fl f p s tr st).1
            = l ++ [Event.queryTranslationString t s q, upsertEvent t s q p.string]) := by
  have hR := resolveTranslation_trace env fl.flagTrans tr st
  have hN : ∀ e ∈ newEvents st (resolveTranslation env fl.flagTrans tr st).1,
      e.isNeutral = true := by
    intro e he
    rcases resolveTranslation_events env fl.flagTrans tr st e he with ⟨r, rfl⟩ | rfl <;> rfl
  rcases translatePair_cases env fl f p s tr st with ⟨_, h⟩ | ⟨t, _, h⟩
  · rw [h]
    exact ⟨hR, _, hN, Or.inl rfl⟩
  · rw [h]
    have h2 := ext_of_trace (resolveTranslation env fl.flagTrans tr st).1
      (complain (f.val.name ++ ": " ++ p.identifier)
              (upsertTranslationString env t s p.string
                (resolveTranslation env fl.flagTrans tr st).1).2
              (upsertTranslationString env t s p.string
                (resolveTranslation env fl.flagTrans tr st).1).1).1 _
      (by rw [complain_trace, upsert_trace])
    obtain ⟨k1, k2⟩ := newEvents_trans hR h2.1
    refine ⟨k1, _, hN, Or.inr ⟨t, _, ?_, by rw [k2, h2.2]⟩⟩
    intro ts hts
    simp at hts
    have := (find?_some hts.2).1
    simp [transKey] at this
    exact this.2

theorem translatePair_flow (env : Env) (fl : Flags) (f : File) (p : Pair) (s : SourceString)
    (tr : Option Translation) (st : St) :
    st.trace.length < (translatePair env fl f p s tr st).1.trace.length ∧
    ((translatePair env fl f p s tr st).2.2 = Flow.brk ↔
      env.fails ((translatePair env fl f p s tr st).1.trace.length - 1) = true) := by
  rcases translatePair_cases env fl f p s tr st with ⟨hn, h⟩ | ⟨t, _, h⟩
  · rw [h]
    obtain ⟨h1, h2⟩ := resolveTranslation_none env fl.flagTrans tr st hn
    simp [h1, h2]
  · rw [h]
    have hl := congrArg List.length (resolveTranslation_trace env fl.flagTrans tr st)
    rw [List.length_append] at hl
    simp only [complain_trace, upsert_trace, List.length_append, List.length_cons,
      List.length_nil]
    have he := upsert_err env t s p.string (resolveTranslation env fl.flagTrans tr st).1
    refine ⟨by omega, ?_⟩
    rw [show (resolveTranslation env fl.flagTrans tr st).1.trace.length + (0 + 1 + 1) - 1
      = (resolveTranslation env fl.flagTrans tr st).1.trace.length + 1 by omega, ← he]
    split <;> simp_all

theorem importPair_eq (env : Env) (fl : Flags) (f : File) (p : Pair) (c : String → Nat)
    (tr : Option Translation) (st : St) :
    importPair env fl f p c tr st
      = match (queryString env f (c p.identifier) p.identifier st).2 with
        | .error e =>
          ((complain (f.val.name ++ ": " ++ p.identifier) (some e)
              (queryString env f (c p.identifier) p.identifier st).1).1,
            bump c p.identifier, tr, .brk)
        | .ok (some s) =>
          if s.val.value = p.string then
            ((queryString env f (c p.identifier) p.identifier st).1, bump c p.identifier, tr,
              .next)
          else if fl.flagTrans ≠ "" then
            ((translatePair env fl f p s tr
                (queryString env f (c p.identifier) p.identifier st).1).1,
              bump c p.identifier,
              (translatePair env fl f p s tr
                (queryString env f (c p.identifier) p.identifier st).1).2.1,
              (translatePair env fl f p s tr
                (queryString env f (c p.identifier) p.identifier st).1).2.2)
          else
            ((complain (f.val.name ++ ": " ++ p.identifier)
                (errOf (updateString env s fl.flagImport p.string
                  (queryString env f (c p.identifier) p.identifier st).1).2)
                (updateString env s fl.flagImport p.string
                  (queryString env f (c p.identifier) p.identifier st).1).1).1,
              bump c p.identifier, tr,
              if (errOf (updateString env s fl.flagImport p.string
                  (queryString env f (c p.identifier) p.identifier st).1).2).isSome
              then .brk else .next)
        | .ok none =>
          if fl.flagTrans ≠ "" then
            ((complain (f.val.name ++ ": " ++ p.identifier ++ ": " ++ p.string)
                (some "translated identifier does not exist")
                (queryString env f (c p.identifier) p.identifier st).1).1,
              bump c p.identifier, tr, .next)
          else
            ((complain (f.val.name ++ ": " ++ p.identifier)
                (errOf (insertString env f fl.flagImport (c p.identifier) p.identifier p.string
                  (queryString env f (c p.identifier) p.identifier st).1).2)
                (insertString env f fl.flagImport (c p.identifier) p.identifier p.string
                  (queryString env f (c p.identifier) p.identifier st).1).1).1,
              bump c p.identifier, tr,
              if (errOf (insertString env f fl.flagImport (c p.identifier) p.identifier p.string
                  (queryString env f (c p.identifier) p.identifier st).1).2).isSome
              then .brk else .next) := by
  unfold importPair
  simp only []
  rcases hQ : queryString env f (c p.identifier) p.identifier st with ⟨st1, _ | _ | s⟩
  · simp [complain]
  · simp only [errOf_ok, complain_none, ptrOf_ok]
    by_cases ht : fl.flagTrans = ""
    · simp only [ht, ne_eq, not_true_eq_false, if_false]
      rcases hI : insertString env f fl.flagImport (c p.identifier) p.identifier p.string st1
        with ⟨st2, _ | _⟩ <;> simp [complain]
    · simp [ht]
  · simp only [errOf_ok, complain_none, ptrOf_ok]
    by_cases hv : s.val.value = p.string
    · simp [hv]
    · simp only [hv, ne_eq, not_false_eq_true, if_true, if_false]
      by_cases ht : fl.flagTrans = ""
      · simp only [ht, not_true_eq_false, if_false]
        rcases hU : updateString env s fl.flagImport p.string st1 with ⟨st2, _ | _⟩ <;>
          simp [complain]
      · simp [ht]

theorem importPair_tail (env : Env) (fl : Flags) (f : File) (p : Pair) (c : String → Nat)
    (tr : Option Translation) (st : St) :
    ∃ tail, (importPair env fl f p c tr st).1.trace
        = st.trace ++ Event.queryString f (c p.identifier) p.identifier
            (ptrOf (queryString env f (c p.identifier) p.identifier st).2) :: tail ∧
      (tail = []
        ∨ (fl.flagTrans = "" ∧
            tail = [Event.insertString f fl.flagImport (c p.identifier) p.identifier p.string])
        ∨ (fl.flagTrans = "" ∧ ∃ s,
            ptrOf (queryString env f (c p.identifier) p.identifier st).2 = some s ∧
            tail = [Event.updateString s fl.flagImport p.string])
        ∨ (fl.flagTrans ≠ "" ∧ ∃ s,
            ptrOf (queryString env f (c p.identifier) p.identifier st).2 = some s ∧
            s.val.value ≠ p.string ∧ ∃ l, (∀ e ∈ l, e.isNeutral = true) ∧
              (tail = l ∨ ∃ t q, (∀ ts, q = some ts → ts.val.string = s.id) ∧
                tail = l ++ [Event.queryTranslationString t s q,
                  upsertEvent t s q p.string]))) := by
  rw [importPair_eq]
  have hQ : (queryString env f (c p.identifier) p.identifier st).1.trace
      = st.trace ++ [Event.queryString f (c p.identifier) p.identifier
          (ptrOf (queryString env f (c p.identifier) p.identifier st).2)] := by
    rw [queryString_fst, log_trace]
  cases hQ2 : (queryString env f (c p.identifier) p.identifier st).2 with
  | error e =>
    refine ⟨[], ?_, Or.inl rfl⟩
    simp only [complain_trace, hQ, hQ2]
  | ok r =>
    cases r with
    | none =>
      simp only []
      split
      · refine ⟨[], ?_, Or.inl rfl⟩
        simp only [complain_trace, hQ, hQ2]
      · rename_i ht
        refine ⟨_, ?_, Or.inr (Or.inl ⟨by simpa using ht, rfl⟩)⟩
        simp only [complain_trace, insertString_trace, hQ, hQ2]
        simp
    | some s =>
      simp only []
      split
      · refine ⟨[], ?_, Or.inl rfl⟩
        simp only [hQ, hQ2]
      · rename_i hv
        split
        · rename_i ht
          obtain ⟨h1, l, hl, h2⟩ := translatePair_trace env fl f p s tr
            (queryString env f (c p.identifier) p.identifier st).1
          refine ⟨_, ?_, Or.inr (Or.inr (Or.inr ⟨ht, s, rfl, hv, l, hl, h2⟩))⟩
          rw [h1, hQ, hQ2]
          simp
        · rename_i ht
          refine ⟨_, ?_, Or.inr (Or.inr (Or.inl ⟨by simpa using ht, s, rfl, rfl⟩))⟩
          simp only [complain_trace, updateString_trace, hQ, hQ2]
          simp

theorem importPair_trace (env : Env) (fl : Flags) (f : File) (p : Pair) (c : String → Nat)
    (tr : Option Translation) (st : St) :
    (importPair env fl f p c tr st).1.trace = st.trace ++ newEvents st (importPair env fl f p c tr st).1
      ∧ (newEvents st (importPair env fl f p c tr st).1).head? = some (Event.queryString f
          (c p.identifier) p.identifier (ptrOf (queryString env f (c p.identifier) p.identifier st).2))
      ∧ ∀ e ∈ (newEvents st (importPair env fl f p c tr st).1).tail,
          (∀ g o i q, e ≠ Event.queryString g o i q) ∧
          (∀ g v o i w, e = Event.insertString g v o i w →
            e = Event.insertString f fl.flagImport (c p.identifier) p.identifier p.string) := by
  obtain ⟨tail, h, hcase⟩ := importPair_tail env fl f p c tr st
  obtain ⟨h1, h2⟩ := ext_of_trace _ _ _ h
  refine ⟨h1, by rw [h2]; rfl, ?_⟩
  rw [h2, List.tail_cons]
  intro e he
  have hneutral : ∀ l : List Event, (∀ e ∈ l, e.isNeutral = true) → ∀ e ∈ l,
      (∀ g o i q, e ≠ Event.queryString g o i q) ∧
      (∀ g v o i w, e ≠ Event.insertString g v o i w) := by
    intro l hl e he
    have := hl e he
    constructor
    · intro g o i q hq; subst hq; simp [Event.isNeutral] at this
    · intro g v o i w hq; subst hq; simp [Event.isNeutral] at this
  rcases hcase with rfl | ⟨_, rfl⟩ | ⟨_, s, _, rfl⟩ | ⟨_, s, _, _, l, hl, ht | ⟨t, q, _, ht⟩⟩
  · simp at he
  · simp at he; subst he; simp
  · simp at he; subst he; simp
  · rw [ht] at he
    exact ⟨(hneutral l hl e he).1, fun g v o i w hw => absurd hw ((hneutral l hl e he).2 g v o i w)⟩
  · rw [ht] at he
    rcases List.mem_append.1 he with he | he
    · exact ⟨(hneutral l hl e he).1,
        fun g v o i w hw => absurd hw ((hneutral l hl e he).2 g v o i w)⟩
    · simp at he
      rcases he with rfl | rfl
      · simp
      · cases q <;> simp [upsertEvent]

theorem importPairs_cons (env : Env) (fl : Flags) (f : File) (p : Pair) (ps : List Pair)
    (c : String → Nat) (tr : Option Translation) (st : St) :
    importPairs env fl f (p :: ps) c tr st
      = if (importPair env fl f p c tr st).2.2.2 = Flow.next then
          importPairs env fl f ps (importPair env fl f p c tr st).2.1
            (importPair env fl f p c tr st).2.2.1 (importPair env fl f p c tr st).1
        else importPair env fl f p c tr st := by
  rcases h : importPair env fl f p c tr st with ⟨st1, c1, tr1, fl1⟩
  cases fl1 <;> simp [importPairs, h]

theorem importPairs_append (env : Env) (fl : Flags) (f : File) (a b : List Pair)
    (c : String → Nat) (tr : Option Translation) (st : St) :
    importPairs env fl f (a ++ b) c tr st
      = if (importPairs env fl f a c tr st).2.2.2 = Flow.next then
          importPairs env fl f b (importPairs env fl f a c tr st).2.1
            (importPairs env fl f a c tr st).2.2.1 (importPairs env fl f a c tr st).1
        else importPairs env fl f a c tr st := by
  induction a generalizing c tr st with
  | nil => simp [importPairs]
  | cons p ps ih =>
    simp only [List.cons_append, importPairs_cons]
    split
    · rw [ih]
    · rename_i h
      simp [h]

theorem importPairs_coll (env : Env) (fl : Flags) (f : File) (a : List Pair)
    (c : String → Nat) (tr : Option Translation) (st : St)
    (h : (importPairs env fl f a c tr st).2.2.2 = Flow.next) (k : String) :
    (importPairs env fl f a c tr st).2.1 k
      = c k + (a.filter (fun q => decide (q.identifier = k))).length := by
  induction a generalizing c tr st with
  | nil => simp [importPairs]
  | cons p ps ih =>
    rw [importPairs_cons] at h ⊢
    split at h
    · rename_i hn
      rw [if_pos hn, ih _ _ _ h, importPair_coll]
      by_cases hk : p.identifier = k
      · subst hk
        simp [bump, List.filter_cons]
        omega
      · have hk' : ¬ k = p.identifier := fun h => hk h.symm
        simp [bump, List.filter_cons, hk, hk']
    · rename_i hn
      exact absurd h hn

/-- C2: in the pair loop of one text file, started with a fresh collision map in any state
of the run, the pair that follows the pairs `pre` is processed by the loop body in the state
the loop reached; the first storage call of that body is `QueryString` with the ordinal
"number of pairs of `pre` with the same identifier", no further `QueryString` is issued for
the pair, and an `InsertString` of the body carries the same ordinal. For the identifiers
GREET, GREET, BYE the ordinals queried and inserted are 0, 1, 0. -/
theorem importPairs_ordinal (env : Env) (fl : Flags) (f : File) (pre : List Pair) (p : Pair)
    (post : List Pair) (translation : Option Translation) (st : St)
    (hreach : (importPairs env fl f pre (fun _ => 0) translation st).2.2.2 = Flow.next) :
    let s := importPairs env fl f pre (fun _ => 0) translation st
    let n := (pre.filter (fun q => decide (q.identifier = p.identifier))).length
    let b := importPair env fl f p s.2.1 s.2.2.1 s.1
    importPairs env fl f (pre ++ p :: post) (fun _ => 0) translation st
        = importPairs env fl f (p :: post) s.2.1 s.2.2.1 s.1
      ∧ b.1.trace = s.1.trace ++ newEvents s.1 b.1
      ∧ (∃ r, (newEvents s.1 b.1).head? = some (Event.queryString f n p.identifier r))
      ∧ (∀ e ∈ (newEvents s.1 b.1).tail, (∀ g o i q, e ≠ Event.queryString g o i q) ∧
          (∀ g v o i w, e = Event.insertString g v o i w → g = f ∧ o = n ∧ i = p.identifier))
      ∧ (newEvents (St.init emptyStore)
            (importStrings quietEnv baseFlags file0 greetPairs none (St.init emptyStore)).1).filterMap
          queryOrdinal = [0, 1, 0]
      ∧ (newEvents (St.init emptyStore)
            (importStrings quietEnv baseFlags file0 greetPairs none (St.init emptyStore)).1).filterMap
          insertOrdinal = [0, 1, 0] := by
  intro s n b
  have hc : s.2.1 p.identifier = n := by
    have := importPairs_coll env fl f pre (fun _ => 0) translation st hreach p.identifier
    simpa using this
  obtain ⟨h1, h2, h3⟩ := importPair_trace env fl f p s.2.1 s.2.2.1 s.1
  refine ⟨?_, h1, ⟨_, hc ▸ h2⟩, ?_, by decide, by decide⟩
  · rw [importPairs_append, if_pos hreach]
  · intro e he
    refine ⟨(h3 e he).1, ?_⟩
    intro g v o i w hw
    have := (h3 e he).2 g v o i w hw
    rw [hw] at this
    cases this
    exact ⟨rfl, hc, rfl⟩

theorem importPairs_ordinal_witness :
    (importPairs quietEnv baseFlags file0 ([⟨"GREET", "hello"⟩] ++ ⟨"GREET", "hi"⟩ :: [⟨"BYE", "bye"⟩])
        (fun _ => 0) none (St.init emptyStore)).1.trace.length = 6 ∧
    ∃ r, (newEvents (importPairs quietEnv baseFlags file0 [⟨"GREET", "hello"⟩]
              (fun _ => 0) none (St.init emptyStore)).1
            (importPair quietEnv baseFlags file0 ⟨"GREET", "hi"⟩
              (importPairs quietEnv baseFlags file0 [⟨"GREET", "hello"⟩]
                (fun _ => 0) none (St.init emptyStore)).2.1
              (importPairs quietEnv baseFlags file0 [⟨"GREET", "hello"⟩]
                (fun _ => 0) none (St.init emptyStore)).2.2.1
              (importPairs quietEnv baseFlags file0 [⟨"GREET", "hello"⟩]
                (fun _ => 0) none (St.init emptyStore)).1).1).head?
        = some (Event.queryString file0 1 "GREET" r) :=
  ⟨by decide,
    (importPairs_ordinal quietEnv baseFlags file0 [⟨"GREET", "hello"⟩] ⟨"GREET", "hi"⟩
      [⟨"BYE", "bye"⟩] none (St.init emptyStore) (by decide)).2.2.1⟩

/-! ## The CSV pass -/

@[simp] theorem upsert_inTx (env : Env) (t : Translation) (s : SourceString) (v : String)
    (st : St) : (upsertTranslationString env t s v st).1.inTx = st.inTx := by
  unfold upsertTranslationString
  repeat' split
  all_goals simp only [Prod.ext_iff] at *
  all_goals (try casesm* _ ∧ _)
  all_goals subst_vars
  all_goals simp

@[simp] theorem upsert_diag (env : Env) (t : Translation) (s : SourceString) (v : String)
    (st : St) : (upsertTranslationString env t s v st).1.diag = st.diag := by
  unfold upsertTranslationString
  repeat' split
  all_goals simp only [Prod.ext_iff] at *
  all_goals (try casesm* _ ∧ _)
  all_goals subst_vars
  all_goals simp

theorem upsert_durable (env : Env) (t : Translation) (s : SourceString) (v : String)
    (st : St) (h : st.inTx = true) :
    (upsertTranslationString env t s v st).1.durable = st.durable := by
  unfold upsertTranslationString
  repeat' split
  all_goals simp only [Prod.ext_iff] at *
  all_goals (try casesm* _ ∧ _)
  all_goals subst_vars
  all_goals simp [h]

theorem importRecord_unmapped (env : Env) (archiveMap : ArchiveMap) (t : Translation)
    (line : Record) (c : String → String → Nat) (st : St)
    (h : archiveMap (env.dir (normalize line.filename)) = none) :
    importRecord env archiveMap t line c st
      = ({ st with diag := st.diag ++
            [(env.dir (normalize line.filename), "unknown archive name")] }, c, true) := by
  simp [importRecord, h, ragequit, complain]

theorem importRecord_mapped (env : Env) (archiveMap : ArchiveMap) (t : Translation)
    (line : Record) (c : String → String → Nat) (st : St) (aname : ArchiveName)
    (h : archiveMap (env.dir (normalize line.filename)) = some aname) :
    (importRecord env archiveMap t line c st).2.2 = false ∧
    (importRecord env archiveMap t line c st).2.1
      = bump2 c (normalize line.filename) line.identifier := by
  unfold importRecord
  simp only [h]
  repeat' split
  all_goals simp

theorem importRecord_inTx (env : Env) (archiveMap : ArchiveMap) (t : Translation)
    (line : Record) (c : String → String → Nat) (st : St) (h : st.inTx = true) :
    (importRecord env archiveMap t line c st).1.inTx = true ∧
    (importRecord env archiveMap t line c st).1.durable = st.durable := by
  unfold importRecord
  simp only []
  repeat' split
  all_goals simp only [Prod.ext_iff] at *
  all_goals (try casesm* _ ∧ _)
  all_goals subst_vars
  all_goals simp [h, ragequit, upsert_durable]

theorem importRecord_trace (env : Env) (archiveMap : ArchiveMap) (t : Translation)
    (line : Record) (c : String → String → Nat) (st : St) :
    (importRecord env archiveMap t line c st).1.trace
        = st.trace ++ newEvents st (importRecord env archiveMap t line c st).1 ∧
    ∀ e ∈ newEvents st (importRecord env archiveMap t line c st).1, ∀ f o i q,
      e = Event.queryString f o i q →
        o = c (normalize line.filename) line.identifier ∧ i = line.identifier := by
  unfold importRecord newEvents
  simp only []
  repeat' split
  all_goals simp only [Prod.ext_iff] at *
  all_goals (try casesm* _ ∧ _)
  all_goals subst_vars
  all_goals simp [ragequit, upsert_trace, upsertEvent]
  all_goals clear * -
  all_goals aesop

theorem importRecords_cons (env : Env) (archiveMap : ArchiveMap) (t : Translation)
    (line : Record) (rest : List Record) (c : String → String → Nat) (st : St) :
    importRecords env archiveMap t (line :: rest) c st
      = if (importRecord env archiveMap t line c st).2.2 = false then
          importRecords env archiveMap t rest (importRecord env archiveMap t line c st).2.1
            (importRecord env archiveMap t line c st).1
        else importRecord env archiveMap t line c st := by
  rcases h : importRecord env archiveMap t line c st with ⟨st1, c1, x⟩
  cases x <;> simp [importRecords, h]

theorem importRecords_append (env : Env) (archiveMap : ArchiveMap) (t : Translation)
    (a b : List Record) (c : String → String → Nat) (st : St) :
    importRecords env archiveMap t (a ++ b) c st
      = if (importRecords env archiveMap t a c st).2.2 = false then
          importRecords env archiveMap t b (importRecords env archiveMap t a c st).2.1
            (importRecords env archiveMap t a c st).1
        else importRecords env archiveMap t a c st := by
  induction a generalizing c st with
  | nil => simp [importRecords]
  | cons p ps ih =>
    simp only [List.cons_append, importRecords_cons]
    split
    · rw [ih]
    · rename_i h
      simp [h]

theorem importRecord_exited (env : Env) (archiveMap : ArchiveMap) (t : Translation)
    (line : Record) (c : String → String → Nat) (st : St) :
    (importRecord env archiveMap t line c st).2.2
      = (archiveMap (env.dir (normalize line.filename))).isNone := by
  cases h : archiveMap (env.dir (normalize line.filename)) with
  | none => simp [importRecord_unmapped _ _ _ _ _ _ h]
  | some aname => simp [(importRecord_mapped _ _ _ _ _ _ _ h).1]

theorem importRecords_coll (env : Env) (archiveMap : ArchiveMap) (t : Translation)
    (a : List Record) (c : String → String → Nat) (st : St)
    (h : (importRecords env archiveMap t a c st).2.2 = false) (path k : String) :
    (importRecords env archiveMap t a c st).2.1 path k
      = c path k + (a.filter
          (fun q => decide (normalize q.filename = path ∧ q.identifier = k))).length := by
  induction a generalizing c st with
  | nil => simp [importRecords]
  | cons p ps ih =>
    rw [importRecords_cons] at h ⊢
    split at h
    · rename_i hn
      rw [if_pos hn, ih _ _ h]
      rw [importRecord_exited] at hn
      cases hm : archiveMap (env.dir (normalize p.filename)) with
      | none => simp [hm] at hn
      | some aname =>
        rw [(importRecord_mapped _ _ _ _ _ _ _ hm).2]
        by_cases hk : normalize p.filename = path ∧ p.identifier = k
        · obtain ⟨h1, h2⟩ := hk
          subst h1 h2
          simp [bump2, List.filter_cons]
          omega
        · have hk' : ¬ (path = normalize p.filename ∧ k = p.identifier) :=
            fun h => hk ⟨h.1.symm, h.2.symm⟩
          simp [bump2, List.filter_cons, hk, hk']
    · rename_i hn
      exact absurd h hn

theorem importRecords_mapped (env : Env) (archiveMap : ArchiveMap) (t : Translation)
    (a : List Record) (c : String → String → Nat) (st : St)
    (h : ∀ q ∈ a, archiveMap (env.dir (normalize q.filename)) ≠ none) :
    (importRecords env archiveMap t a c st).2.2 = false := by
  induction a generalizing c st with
  | nil => simp [importRecords]
  | cons p ps ih =>
    have hp : (importRecord env archiveMap t p c st).2.2 = false := by
      rw [importRecord_exited]
      have := h p (by simp)
      cases hm : archiveMap (env.dir (normalize p.filename)) <;> simp_all
    rw [importRecords_cons, if_pos hp]
    exact ih _ _ (fun q hq => h q (by simp [hq]))

/-- C5: in the CSV pass, the record that follows the records `pre` is processed by the loop
body in the state the loop reached; every `QueryString` the body issues carries the ordinal
"number of records of `pre` with the same separator-normalized path and the same
identifier", whatever happened to those records. In the concrete pass `uiRecords` the two
records sharing path and identifier query the ordinals 0 and 1 of one file, the record of
another file queries ordinal 0, and three distinct TranslationStrings result. -/
theorem importRecords_ordinal (env : Env) (archiveMap : ArchiveMap) (t : Translation)
    (pre : List Record) (r : Record) (post : List Record) (st : St)
    (hreach : (importRecords env archiveMap t pre (fun _ _ => 0) st).2.2 = false) :
    let s := importRecords env archiveMap t pre (fun _ _ => 0) st
    let n := (pre.filter (fun q => decide
      (normalize q.filename = normalize r.filename ∧ q.identifier = r.identifier))).length
    let b := importRecord env archiveMap t r s.2.1 s.1
    importRecords env archiveMap t (pre ++ r :: post) (fun _ _ => 0) st
        = importRecords env archiveMap t (r :: post) s.2.1 s.1
      ∧ b.1.trace = s.1.trace ++ newEvents s.1 b.1
      ∧ (∀ e ∈ newEvents s.1 b.1, ∀ f o i q,
          e = Event.queryString f o i q → o = n ∧ i = r.identifier)
      ∧ (newEvents (St.init uiStore)
            (importCsv quietEnv engFlags uiMap ⟨uiRecords, .eof⟩ (St.init uiStore)).st).filterMap
          queryKey = [(0, 0, "GREET"), (0, 1, "GREET"), (1, 0, "GREET")]
      ∧ (importCsv quietEnv engFlags uiMap ⟨uiRecords, .eof⟩ (St.init uiStore)).st.db.tstrings
          = [⟨0, 0, "bonjour"⟩, ⟨0, 1, "salut"⟩, ⟨0, 2, "coucou"⟩] := by
  intro s n b
  have hc : s.2.1 (normalize r.filename) r.identifier = n := by
    have := importRecords_coll env archiveMap t pre (fun _ _ => 0) st hreach
      (normalize r.filename) r.identifier
    simp only [Nat.zero_add] at this
    exact this
  obtain ⟨h1, h2⟩ := importRecord_trace env archiveMap t r s.2.1 s.1
  refine ⟨?_, h1, ?_, by decide, by decide⟩
  · rw [importRecords_append, if_pos hreach]
  · intro e he f o i q hq
    have := h2 e he f o i q hq
    rw [hc] at this
    exact this

theorem importRecords_ordinal_witness :
    Event.queryString ⟨0, ⟨0, "a.text"⟩⟩ 1 "GREET" (some ⟨1, ⟨0, 1, "GREET", "hi", 1⟩⟩)
        ∈ newEvents
          (importRecords quietEnv uiMap ⟨0, "eng"⟩ (uiRecords.take 1) (fun _ _ => 0)
            (St.init uiStore)).1
          (importRecord quietEnv uiMap ⟨0, "eng"⟩ ⟨"ui/a.text", "text", "0", "GREET", "salut"⟩
            (importRecords quietEnv uiMap ⟨0, "eng"⟩ (uiRecords.take 1) (fun _ _ => 0)
              (St.init uiStore)).2.1
            (importRecords quietEnv uiMap ⟨0, "eng"⟩ (uiRecords.take 1) (fun _ _ => 0)
              (St.init uiStore)).1).1 ∧
    (1 = ((uiRecords.take 1).filter (fun q => decide
      (normalize q.filename = normalize "ui/a.text" ∧ q.identifier = "GREET"))).length
      ∧ "GREET" = "GREET") :=
  ⟨by decide,
    (importRecords_ordinal quietEnv uiMap ⟨0, "eng"⟩ (uiRecords.take 1)
      ⟨"ui/a.text", "text", "0", "GREET", "salut"⟩ (uiRecords.drop 2) (St.init uiStore)
      (by decide)).2.2.1
      (Event.queryString ⟨0, ⟨0, "a.text"⟩⟩ 1 "GREET" (some ⟨1, ⟨0, 1, "GREET", "hi", 1⟩⟩))
      (by decide) _ _ _ _ rfl⟩

@[simp] theorem upsertEvent_isRecordCall (t : Translation) (s : SourceString)
    (q : Option TranslationString) (v : String) : (upsertEvent t s q v).isRecordCall = true := by
  cases q <;> rfl

theorem importRecord_calls (env : Env) (archiveMap : ArchiveMap) (t : Translation)
    (line : Record) (c : String → String → Nat) (st : St) :
    ∀ e ∈ newEvents st (importRecord env archiveMap t line c st).1, e.isRecordCall = true := by
  unfold importRecord newEvents
  simp only []
  repeat' split
  all_goals simp only [Prod.ext_iff] at *
  all_goals (try casesm* _ ∧ _)
  all_goals subst_vars
  all_goals simp [ragequit, upsert_trace]
  all_goals (try simp [Event.isRecordCall])

theorem importRecords_trace (env : Env) (archiveMap : ArchiveMap) (t : Translation)
    (a : List Record) (c : String → String → Nat) (st : St) :
    (importRecords env archiveMap t a c st).1.trace
        = st.trace ++ newEvents st (importRecords env archiveMap t a c st).1 ∧
    ∀ e ∈ newEvents st (importRecords env archiveMap t a c st).1, e.isRecordCall = true := by
  induction a generalizing c st with
  | nil => simp [importRecords, newEvents_self]
  | cons p ps ih =>
    rw [importRecords_cons]
    have hb := (importRecord_trace env archiveMap t p c st).1
    have hc := importRecord_calls env archiveMap t p c st
    split
    · obtain ⟨h1, h2⟩ := ih (importRecord env archiveMap t p c st).2.1
        (importRecord env archiveMap t p c st).1
      obtain ⟨h3, h4⟩ := newEvents_trans hb h1
      refine ⟨h3, ?_⟩
      rw [h4]
      intro e he
      rcases List.mem_append.1 he with he | he
      · exact hc e he
      · exact h2 e he
    · exact ⟨hb, hc⟩

theorem importRecords_inTx (env : Env) (archiveMap : ArchiveMap) (t : Translation)
    (a : List Record) (c : String → String → Nat) (st : St) (h : st.inTx = true) :
    (importRecords env archiveMap t a c st).1.inTx = true ∧
    (importRecords env archiveMap t a c st).1.durable = st.durable := by
  induction a generalizing c st with
  | nil => simp [importRecords, h]
  | cons p ps ih =>
    rw [importRecords_cons]
    obtain ⟨h1, h2⟩ := importRecord_inTx env archiveMap t p c st h
    split
    · obtain ⟨h3, h4⟩ := ih (importRecord env archiveMap t p c st).2.1 _ h1
      exact ⟨h3, h4.trans h2⟩
    · exact ⟨h1, h2⟩

theorem importRecord_miss (env : Env) (archiveMap : ArchiveMap) (t : Translation)
    (line : Record) (c : String → String → Nat) (st : St)
    (hmiss : LookupMiss env archiveMap line c st) :
    (importRecord env archiveMap t line c st).1.diag.length = st.diag.length + 1 ∧
    (importRecord env archiveMap t line c st).1.trace
      = st.trace ++ newEvents st (importRecord env archiveMap t line c st).1 ∧
    (∀ e ∈ newEvents st (importRecord env archiveMap t line c st).1, e.isQuery = true) ∧
    (importRecord env archiveMap t line c st).1.db = st.db ∧
    (importRecord env archiveMap t line c st).1.durable = st.durable := by
  obtain ⟨aname, hm, h⟩ := hmiss
  have key : ∀ (α : Type) (x : St × Except Err (Option α)) (v : Option α), x.2 = .ok v →
      x = (x.1, .ok v) := by
    intro α x v hx
    rw [← hx]
  unfold importRecord newEvents
  simp only [hm]
  rcases h with h | ⟨a, ha, h | ⟨f, hf, h⟩⟩
  · rw [key _ _ _ h]
    simp [Event.isQuery]
  · rw [key _ _ _ ha]
    simp only [errOf_ok, complain_none, ptrOf_ok]
    rw [key _ _ _ h]
    simp [Event.isQuery]
  · rw [key _ _ _ ha]
    simp only [errOf_ok, complain_none, ptrOf_ok]
    rw [key _ _ _ hf]
    simp only [errOf_ok, complain_none, ptrOf_ok]
    rw [key _ _ _ h]
    simp [Event.isQuery]

theorem csvPass_eq (env : Env) (fl : Flags) (archiveMap : ArchiveMap) (t : Translation)
    (input : CsvInput) (st : St) :
    csvPass env fl archiveMap t input st
      = if (importRecords env archiveMap t input.records (fun _ _ => 0) (dbBegin st)).2.2 = false
        then finishCsv fl input.last
          (importRecords env archiveMap t input.records (fun _ _ => 0) (dbBegin st)).1
        else ⟨(importRecords env archiveMap t input.records (fun _ _ => 0) (dbBegin st)).1,
          true⟩ := by
  unfold csvPass
  rcases h : importRecords env archiveMap t input.records (fun _ _ => 0) (dbBegin st)
    with ⟨st1, c1, x⟩
  cases x <;> simp

theorem not_isRecordCall_txEnd {evs : List Event} (h : ∀ e ∈ evs, e.isRecordCall = true) :
    Event.txEnd ∉ evs := by
  intro hmem
  have := h _ hmem
  simp [Event.isRecordCall] at this

theorem dbBegin_extends (st : St) :
    (dbBegin st).trace = st.trace ++ newEvents st (dbBegin st) ∧
      newEvents st (dbBegin st) = [Event.txBegin] := by
  simp [newEvents]

theorem csvPass_unknown_aux (env : Env) (fl : Flags) (archiveMap : ArchiveMap)
    (t : Translation) (pre : List Record) (r : Record) (post : List Record) (last : ReadErr)
    (st : St)
    (hpre : ∀ q ∈ pre, archiveMap (env.dir (normalize q.filename)) ≠ none)
    (hk : archiveMap (env.dir (normalize r.filename)) = none) :
    (importRecords env archiveMap t pre (fun _ _ => 0) (dbBegin st)).2.2 = false ∧
    csvPass env fl archiveMap t ⟨pre ++ r :: post, last⟩ st
      = ⟨{ (importRecords env archiveMap t pre (fun _ _ => 0) (dbBegin st)).1 with
            diag := (importRecords env archiveMap t pre (fun _ _ => 0) (dbBegin st)).1.diag ++
              [(env.dir (normalize r.filename), "unknown archive name")] }, true⟩ ∧
    (csvPass env fl archiveMap t ⟨pre ++ r :: post, last⟩ st).st.trace
      = st.trace ++ newEvents st (csvPass env fl archiveMap t ⟨pre ++ r :: post, last⟩ st).st ∧
    Event.txEnd ∉ newEvents st (csvPass env fl archiveMap t ⟨pre ++ r :: post, last⟩ st).st ∧
    (csvPass env fl archiveMap t ⟨pre ++ r :: post, last⟩ st).st.durable = st.durable := by
  have hs := importRecords_mapped env archiveMap t pre (fun _ _ => 0) (dbBegin st) hpre
  have hloop : importRecords env archiveMap t (pre ++ r :: post) (fun _ _ => 0) (dbBegin st)
      = ({ (importRecords env archiveMap t pre (fun _ _ => 0) (dbBegin st)).1 with
            diag := (importRecords env archiveMap t pre (fun _ _ => 0) (dbBegin st)).1.diag ++
              [(env.dir (normalize r.filename), "unknown archive name")] },
          (importRecords env archiveMap t pre (fun _ _ => 0) (dbBegin st)).2.1, true) := by
    rw [importRecords_append, if_pos hs, importRecords_cons, importRecord_unmapped _ _ _ _ _ _ hk]
    simp
  have hpass : csvPass env fl archiveMap t ⟨pre ++ r :: post, last⟩ st
      = ⟨{ (importRecords env archiveMap t pre (fun _ _ => 0) (dbBegin st)).1 with
            diag := (importRecords env archiveMap t pre (fun _ _ => 0) (dbBegin st)).1.diag ++
              [(env.dir (normalize r.filename), "unknown archive name")] }, true⟩ := by
    rw [csvPass_eq]
    simp only [hloop]
    simp
  obtain ⟨h1, h2⟩ := importRecords_trace env archiveMap t pre (fun _ _ => 0) (dbBegin st)
  obtain ⟨h3, h4⟩ := newEvents_trans (dbBegin_extends st).1 h1
  have hd := (importRecords_inTx env archiveMap t pre (fun _ _ => 0) (dbBegin st) rfl).2
  have hnew : newEvents st (csvPass env fl archiveMap t ⟨pre ++ r :: post, last⟩ st).st
      = newEvents st (importRecords env archiveMap t pre (fun _ _ => 0) (dbBegin st)).1 := by
    rw [hpass]
    rfl
  refine ⟨hs, hpass, ?_, ?_, ?_⟩
  · rw [hnew, hpass]
    exact h3
  · rw [hnew, h4, (dbBegin_extends st).2]
    intro hmem
    rcases List.mem_append.1 hmem with hm | hm
    · simp at hm
    · exact not_isRecordCall_txEnd h2 hm
  · rw [hpass]
    exact hd

/-- C6: in the CSV pass, when the record `r` that follows the records `pre` is the first
whose archive label is absent from the mapping, the run exits at `r`: the storage calls
issued are exactly those of the records `pre`, one diagnostic "unknown archive name" is
added, `End` is never called and the committed store is the one from before `Begin`; the
whole CSV import exits without `End` as well. -/
theorem csvPass_unknown_archive (env : Env) (fl : Flags) (archiveMap : ArchiveMap)
    (t : Translation) (pre : List Record) (r : Record) (post : List Record) (last : ReadErr)
    (st : St)
    (hpre : ∀ q ∈ pre, archiveMap (env.dir (normalize q.filename)) ≠ none)
    (hk : archiveMap (env.dir (normalize r.filename)) = none) :
    let s := importRecords env archiveMap t pre (fun _ _ => 0) (dbBegin st)
    let out := csvPass env fl archiveMap t ⟨pre ++ r :: post, last⟩ st
    s.2.2 = false ∧ out.exited = true ∧ out.st.trace = s.1.trace ∧ out.st.db = s.1.db
      ∧ out.st.diag = s.1.diag ++ [(env.dir (normalize r.filename), "unknown archive name")]
      ∧ out.st.trace = st.trace ++ newEvents st out.st
      ∧ Event.txEnd ∉ newEvents st out.st
      ∧ out.st.durable = st.durable
      ∧ (importCsv env fl archiveMap ⟨pre ++ r :: post, last⟩ st).exited = true
      ∧ (importCsv env fl archiveMap ⟨pre ++ r :: post, last⟩ st).st.trace
          = st.trace ++ newEvents st (importCsv env fl archiveMap ⟨pre ++ r :: post, last⟩ st).st
      ∧ Event.txEnd ∉
          newEvents st (importCsv env fl archiveMap ⟨pre ++ r :: post, last⟩ st).st := by
  intro s out
  obtain ⟨h1, h2, h3, h4, h5⟩ := csvPass_unknown_aux env fl archiveMap t pre r post last st hpre hk
  refine ⟨h1, ?_, ?_, ?_, ?_, h3, h4, h5, ?_⟩
  · show (csvPass env fl archiveMap t ⟨pre ++ r :: post, last⟩ st).exited = true
    rw [h2]
  · show (csvPass env fl archiveMap t ⟨pre ++ r :: post, last⟩ st).st.trace = _
    rw [h2]
  · show (csvPass env fl archiveMap t ⟨pre ++ r :: post, last⟩ st).st.db = _
    rw [h2]
  · show (csvPass env fl archiveMap t ⟨pre ++ r :: post, last⟩ st).st.diag = _
    rw [h2]
  · have hq : (queryTranslation env fl.flagTrans st).1.trace
        = st.trace ++ newEvents st (queryTranslation env fl.flagTrans st).1 := by
      simp [newEvents]
    have hqn : Event.txEnd ∉ newEvents st (queryTranslation env fl.flagTrans st).1 := by
      simp [newEvents]
    unfold importCsv
    split
    rename_i st1 r1 heq
    have e1 : st1 = (queryTranslation env fl.flagTrans st).1 := by rw [heq]
    subst e1
    split
    · rename_i t1 _
      obtain ⟨g1, g2, g3, g4, g5⟩ := csvPass_unknown_aux env fl archiveMap t1 pre r post last
        (queryTranslation env fl.flagTrans st).1 hpre hk
      obtain ⟨k1, k2⟩ := newEvents_trans hq g3
      refine ⟨by rw [g2], k1, ?_⟩
      rw [k2]
      intro hmem
      rcases List.mem_append.1 hmem with hm | hm
      · exact hqn hm
      · exact g4 hm
    · have hi : (insertTranslation env fl.flagTrans (queryTranslation env fl.flagTrans st).1).1.trace
          = (queryTranslation env fl.flagTrans st).1.trace ++
            newEvents (queryTranslation env fl.flagTrans st).1
              (insertTranslation env fl.flagTrans (queryTranslation env fl.flagTrans st).1).1 := by
        simp [newEvents]
      have hin : Event.txEnd ∉ newEvents (queryTranslation env fl.flagTrans st).1
          (insertTranslation env fl.flagTrans (queryTranslation env fl.flagTrans st).1).1 := by
        simp [newEvents]
      obtain ⟨m1, m2⟩ := newEvents_trans hq hi
      have hm12 : Event.txEnd ∉ newEvents st
          (insertTranslation env fl.flagTrans (queryTranslation env fl.flagTrans st).1).1 := by
        rw [m2]
        intro hmem
        rcases List.mem_append.1 hmem with hm | hm
        · exact hqn hm
        · exact hin hm
      split
      · rename_i st2 e heq2
        have e2 : st2 = (insertTranslation env fl.flagTrans
            (queryTranslation env fl.flagTrans st).1).1 := by rw [heq2]
        subst e2
        refine ⟨rfl, ?_, ?_⟩
        · simp [ragequit, newEvents]
        · simpa [ragequit] using hm12
      · rename_i st2 t2 heq2
        have e2 : st2 = (insertTranslation env fl.flagTrans
            (queryTranslation env fl.flagTrans st).1).1 := by rw [heq2]
        subst e2
        obtain ⟨g1, g2, g3, g4, g5⟩ := csvPass_unknown_aux env fl archiveMap t2 pre r post last
          (insertTranslation env fl.flagTrans (queryTranslation env fl.flagTrans st).1).1 hpre hk
        obtain ⟨k1, k2⟩ := newEvents_trans m1 g3
        refine ⟨by rw [g2], k1, ?_⟩
        rw [k2]
        intro hmem
        rcases List.mem_append.1 hmem with hm | hm
        · exact hm12 hm
        · exact g4 hm

theorem csvPass_unknown_archive_witness :
    (csvPass quietEnv engFlags uiMap ⟨0, "eng"⟩ ⟨uiRecords.take 1 ++ strayRecord :: uiRecords.drop 1,
        .eof⟩ (St.init uiStore)).exited = true ∧
    (csvPass quietEnv engFlags uiMap ⟨0, "eng"⟩ ⟨uiRecords.take 1 ++ strayRecord :: uiRecords.drop 1,
        .eof⟩ (St.init uiStore)).st.durable = uiStore :=
  ⟨(csvPass_unknown_archive quietEnv engFlags uiMap ⟨0, "eng"⟩ (uiRecords.take 1) strayRecord
      (uiRecords.drop 1) .eof (St.init uiStore) (by decide) (by decide)).2.1,
    (csvPass_unknown_archive quietEnv engFlags uiMap ⟨0, "eng"⟩ (uiRecords.take 1) strayRecord
      (uiRecords.drop 1) .eof (St.init uiStore) (by decide) (by decide)).2.2.2.2.2.2.2.1⟩

theorem csvPass_mapped (env : Env) (fl : Flags) (archiveMap : ArchiveMap) (t : Translation)
    (records : List Record) (st : St)
    (h : ∀ q ∈ records, archiveMap (env.dir (normalize q.filename)) ≠ none) :
    csvPass env fl archiveMap t ⟨records, .eof⟩ st
      = ⟨dbEnd (importRecords env archiveMap t records (fun _ _ => 0) (dbBegin st)).1, false⟩ := by
  rw [csvPass_eq]
  simp [importRecords_mapped env archiveMap t records (fun _ _ => 0) (dbBegin st) h, finishCsv]

/-- C7: in the CSV pass, for a record whose archive label is mapped and for which the
Archive, File or SourceString lookup returns nothing, the loop body reports exactly one
diagnostic, issues only queries, leaves the store (session and committed) unchanged and
does not exit; the loop goes on with the records that follow; and a pass all of whose
archive labels are mapped, on input ending in end-of-file, ends with `End`, which commits. -/
theorem importRecord_lookup_miss (env : Env) (fl : Flags) (archiveMap : ArchiveMap)
    (t : Translation) (r : Record) (rest : List Record) (c : String → String → Nat) (st : St)
    (hmiss : LookupMiss env archiveMap r c st) :
    let b := importRecord env archiveMap t r c st
    b.2.2 = false
      ∧ b.1.diag.length = st.diag.length + 1
      ∧ b.1.trace = st.trace ++ newEvents st b.1
      ∧ (∀ e ∈ newEvents st b.1, e.isQuery = true)
      ∧ b.1.db = st.db ∧ b.1.durable = st.durable
      ∧ importRecords env archiveMap t (r :: rest) c st
          = importRecords env archiveMap t rest b.2.1 b.1
      ∧ (∀ (records : List Record) (st0 : St),
          (∀ q ∈ records, archiveMap (env.dir (normalize q.filename)) ≠ none) →
          (csvPass env fl archiveMap t ⟨records, .eof⟩ st0).exited = false ∧
          (csvPass env fl archiveMap t ⟨records, .eof⟩ st0).st.trace.getLast? = some Event.txEnd ∧
          (csvPass env fl archiveMap t ⟨records, .eof⟩ st0).st.durable
            = (csvPass env fl archiveMap t ⟨records, .eof⟩ st0).st.db) := by
  intro b
  obtain ⟨h1, h2, h3, h4, h5⟩ := importRecord_miss env archiveMap t r c st hmiss
  obtain ⟨aname, hm, _⟩ := hmiss
  have hx := (importRecord_mapped env archiveMap t r c st aname hm).1
  refine ⟨hx, h1, h2, h3, h4, h5, ?_, ?_⟩
  · rw [importRecords_cons, if_pos hx]
  · intro records st0 hall
    rw [csvPass_mapped env fl archiveMap t records st0 hall]
    simp

theorem importRecord_lookup_miss_witness :
    (importRecord quietEnv uiMap ⟨0, "eng"⟩ orphanRecord (fun _ _ => 0)
        (St.init uiStore)).1.diag.length = 1 ∧
    (importRecord quietEnv uiMap ⟨0, "eng"⟩ orphanRecord (fun _ _ => 0)
        (St.init uiStore)).1.db = uiStore :=
  ⟨(importRecord_lookup_miss quietEnv engFlags uiMap ⟨0, "eng"⟩ orphanRecord uiRecords
      (fun _ _ => 0) (St.init uiStore)
      ⟨⟨"ui.ice", 0⟩, by decide, Or.inr ⟨⟨0, ⟨"ui.ice", 0⟩⟩, rfl,
        Or.inr ⟨⟨0, ⟨0, "a.text"⟩⟩, rfl, rfl⟩⟩⟩).2.1,
    (importRecord_lookup_miss quietEnv engFlags uiMap ⟨0, "eng"⟩ orphanRecord uiRecords
      (fun _ _ => 0) (St.init uiStore)
      ⟨⟨"ui.ice", 0⟩, by decide, Or.inr ⟨⟨0, ⟨"ui.ice", 0⟩⟩, rfl,
        Or.inr ⟨⟨0, ⟨0, "a.text"⟩⟩, rfl, rfl⟩⟩⟩).2.2.2.2.1⟩

/-! ## The skit-list loader -/

theorem loadSkits_eof (env : Env) (scan : Nat → Scan) (fuel i : Nat) (m : ArchiveMap) (st : St) :
    loadSkits env scan fuel i (some .eof) m st = some (m, st) := by
  unfold loadSkits
  simp

theorem loadSkits_zero (env : Env) (scan : Nat → Scan) (i : Nat) (err : Option ReadErr)
    (m : ArchiveMap) (st : St) (h : err ≠ some .eof) :
    loadSkits env scan 0 i err m st = none := by
  unfold loadSkits
  simp [h]

theorem loadSkits_step (env : Env) (scan : Nat → Scan) (fuel i : Nat) (err : Option ReadErr)
    (m : ArchiveMap) (st : St) (h : err ≠ some .eof) :
    ∃ m' st', loadSkits env scan (fuel + 1) i err m st
        = loadSkits env scan fuel (i + 1) (scan i).err m' st' ∧
      st'.trace = st.trace ∧ st'.db = st.db ∧ st'.durable = st.durable ∧
      ((scan i).err ≠ none → m' = m ∧ st' = st) := by
  rw [loadSkits]
  simp only [h, if_false]
  split
  · exact ⟨m, st, rfl, rfl, rfl, rfl, fun _ => ⟨rfl, rfl⟩⟩
  · rename_i hc
    have hn : (scan i).err = none := by
      by_contra hne
      exact hc (Or.inl hne)
    split
    · exact ⟨m, _, rfl, by simp, by simp, by simp, fun hne => absurd hn hne⟩
    · exact ⟨_, st, rfl, rfl, rfl, rfl, fun hne => absurd hn hne⟩

theorem loadSkits_diverges (env : Env) (scan : Nat → Scan) (fuel : Nat) :
    ∀ (i : Nat) (err : Option ReadErr) (m : ArchiveMap) (st : St),
      err ≠ some .eof → (∀ j, i ≤ j → j < i + fuel → (scan j).err ≠ some .eof) →
      loadSkits env scan fuel i err m st = none := by
  induction fuel with
  | zero =>
    intro i err m st herr _
    exact loadSkits_zero env scan i err m st herr
  | succ fuel ih =>
    intro i err m st herr hall
    obtain ⟨m', st', h1, _⟩ := loadSkits_step env scan fuel i err m st herr
    rw [h1]
    exact ih (i + 1) (scan i).err m' st' (hall i (Nat.le_refl _) (by omega))
      (fun j h1 h2 => hall j (by omega) (by omega))

/-- C10 does not hold of the code: a read fault other than end-of-file does not abort the
run in the skit-list loader. When the first scan reports such a fault and a later scan
reports end-of-file, the loader goes on, and the CSV pass reads the records, issues its
storage calls and commits three TranslationStrings. When every scan reports the fault, the
loop never ends, whatever the number of iterations. The read loop of the CSV pass, for
comparison, exits on a read fault other than end-of-file without calling `End`. -/
theorem loadSkits_fault_not_fatal :
    (faultyScan 0).err = some (.other "read fault") ∧
    (runImport quietEnv engFlags (.ok faultyScan) (.ok ⟨uiRecords, .eof⟩) [] 3
        (St.init uiStore)).map (fun o => (o.exited, o.st.trace.length, o.st.durable.tstrings))
      = some (false, 18, [⟨0, 0, "bonjour"⟩, ⟨0, 1, "salut"⟩, ⟨0, 2, "coucou"⟩]) ∧
    (∀ fuel, runImport quietEnv engFlags (.ok stuckScan) (.ok ⟨uiRecords, .eof⟩) [] fuel
        (St.init uiStore) = none) ∧
    (runImport quietEnv engFlags (.ok emptyScan) (.ok ⟨[], .other "read fault"⟩) [] 1
        (St.init uiStore)).map (fun o => (o.exited, o.st.trace.getLast?, o.st.diag))
      = some (true, some Event.txBegin, [("strings.csv", "read fault")]) := by
  refine ⟨by decide, by decide, ?_, by decide⟩
  intro fuel
  have h := loadSkits_diverges quietEnv stuckScan fuel 0 none (fun _ => none) (St.init uiStore)
    (by simp) (fun j _ _ => by simp [stuckScan])
  simp [runImport, importAida, engFlags, h]

/-! ## Leaving the pair loop -/

theorem importPair_flow (env : Env) (fl : Flags) (f : File) (p : Pair) (c : String → Nat)
    (tr : Option Translation) (st : St) :
    (importPair env fl f p c tr st).2.2.2 = Flow.brk ↔
      env.fails ((importPair env fl f p c tr st).1.trace.length - 1) = true := by
  unfold importPair
  simp only []
  repeat' split
  all_goals simp only [Prod.ext_iff] at *
  all_goals (try casesm* _ ∧ _)
  all_goals subst_vars
  all_goals simp_all [upsert_trace, upsert_err]
  all_goals exact (translatePair_flow _ _ _ _ _ _ _).2

theorem importStrings_eq (env : Env) (fl : Flags) (f : File) (pairs : List Pair)
    (tr : Option Translation) (st : St) :
    importStrings env fl f pairs tr st
      = (dbEnd (importPairs env fl f pairs (fun _ => 0) tr (dbBegin st)).1,
          (importPairs env fl f pairs (fun _ => 0) tr (dbBegin st)).2.2.1) := by
  unfold importStrings
  rfl

theorem importPair_absent (env : Env) (fl : Flags) (f : File) (p : Pair) (c : String → Nat)
    (tr : Option Translation) (st : St) (ht : fl.flagTrans ≠ "")
    (h : (queryString env f (c p.identifier) p.identifier st).2 = .ok none) :
    (importPair env fl f p c tr st).2.2.2 = Flow.next ∧
    (importPair env fl f p c tr st).1.diag = st.diag ++
      [(f.val.name ++ ": " ++ p.identifier ++ ": " ++ p.string,
        "translated identifier does not exist")] ∧
    (importPair env fl f p c tr st).1.db = st.db ∧
    (importPair env fl f p c tr st).1.trace
      = st.trace ++ [Event.queryString f (c p.identifier) p.identifier none] := by
  have key : queryString env f (c p.identifier) p.identifier st
      = ((queryString env f (c p.identifier) p.identifier st).1, .ok none) := by
    rw [← h]
  unfold importPair
  simp only []
  rw [key]
  simp [ht]
  intro hf
  simpa [hf] using h

/-- C8, as the code has it: when the last storage call of the body of the pair `p` fails
(the calls whose error is checked are QueryString, InsertString, UpdateString,
InsertTranslation and the insert or update of the translation upsert), the body is left by
`break`: no pair after `p` is processed, `End` is still called and commits what the pairs
before `p` changed, and the group loop goes on with the next file. The body is left by
`break` in no other case: in translation mode an absent SourceString is reported as
"translated identifier does not exist" and the loop goes on with the next pair. -/
theorem importStrings_break (env : Env) (fl : Flags) (f : File) (pre : List Pair) (p : Pair)
    (post : List Pair) (translation : Option Translation) (st : St)
    (hreach : (importPairs env fl f pre (fun _ => 0) translation (dbBegin st)).2.2.2 = Flow.next)
    (hfail : env.fails ((importPair env fl f p
        (importPairs env fl f pre (fun _ => 0) translation (dbBegin st)).2.1
        (importPairs env fl f pre (fun _ => 0) translation (dbBegin st)).2.2.1
        (importPairs env fl f pre (fun _ => 0) translation (dbBegin st)).1).1.trace.length - 1)
      = true) :
    let s := importPairs env fl f pre (fun _ => 0) translation (dbBegin st)
    let b := importPair env fl f p s.2.1 s.2.2.1 s.1
    let out := importStrings env fl f (pre ++ p :: post) translation st
    b.2.2.2 = Flow.brk
      ∧ importPairs env fl f (pre ++ p :: post) (fun _ => 0) translation (dbBegin st) = b
      ∧ out.1.trace = b.1.trace ++ [Event.txEnd]
      ∧ out.1.db = b.1.db ∧ out.1.durable = b.1.db ∧ out.1.inTx = false
      ∧ (∀ (q : Pair) (c : String → Nat) (tr : Option Translation) (st' : St),
          (importPair env fl f q c tr st').2.2.2 = Flow.brk ↔
            env.fails ((importPair env fl f q c tr st').1.trace.length - 1) = true)
      ∧ (∀ (q : Pair) (c : String → Nat) (tr : Option Translation) (st' : St),
          fl.flagTrans ≠ "" →
          (queryString env f (c q.identifier) q.identifier st').2 = .ok none →
          (importPair env fl f q c tr st').2.2.2 = Flow.next ∧
          (importPair env fl f q c tr st').1.diag = st'.diag ++
            [(f.val.name ++ ": " ++ q.identifier ++ ": " ++ q.string,
              "translated identifier does not exist")] ∧
          (importPair env fl f q c tr st').1.db = st'.db)
      ∧ (∀ (name : String) (aname : ArchiveName) (file : ArchiveFile) (files : List ArchiveFile)
          (a : Option Archive) (tr : Option Translation) (st' : St),
          importGroup env fl name aname (file :: files) a tr st'
            = importGroup env fl name aname files
                (importFile env fl name aname file a tr st').2.1
                (importFile env fl name aname file a tr st').2.2
                (importFile env fl name aname file a tr st').1) := by
  intro s b out
  have hb : b.2.2.2 = Flow.brk := (importPair_flow env fl f p s.2.1 s.2.2.1 s.1).2 hfail
  have hloop : importPairs env fl f (pre ++ p :: post) (fun _ => 0) translation (dbBegin st) = b := by
    rw [importPairs_append, if_pos hreach, importPairs_cons]
    have : ¬ b.2.2.2 = Flow.next := by rw [hb]; decide
    exact if_neg this
  have hout : out = (dbEnd b.1, b.2.2.1) := by
    show importStrings env fl f (pre ++ p :: post) translation st = _
    rw [importStrings_eq, hloop]
  refine ⟨hb, hloop, ?_, ?_, ?_, ?_, ?_, ?_, ?_⟩
  · rw [hout]; simp
  · rw [hout]; simp
  · rw [hout]; simp
  · rw [hout]; simp
  · intro q c tr st'
    exact importPair_flow env fl f q c tr st'
  · intro q c tr st' ht hq
    obtain ⟨h1, h2, h3, _⟩ := importPair_absent env fl f q c tr st' ht hq
    exact ⟨h1, h2, h3⟩
  · intro name aname file files a tr st'
    rfl

theorem importStrings_break_witness :
    (importStrings (failAt 3) baseFlags file0 ([⟨"GREET", "hello"⟩] ++ ⟨"GREET", "hi"⟩ ::
        [⟨"BYE", "bye"⟩]) none (St.init emptyStore)).1.durable.strings
      = [⟨0, 0, "GREET", "hello", 1⟩] ∧
    (importStrings (failAt 3) baseFlags file0 ([⟨"GREET", "hello"⟩] ++ ⟨"GREET", "hi"⟩ ::
        [⟨"BYE", "bye"⟩]) none (St.init emptyStore)).1.trace
      = (importPair (failAt 3) baseFlags file0 ⟨"GREET", "hi"⟩
          (importPairs (failAt 3) baseFlags file0 [⟨"GREET", "hello"⟩] (fun _ => 0) none
            (dbBegin (St.init emptyStore))).2.1
          (importPairs (failAt 3) baseFlags file0 [⟨"GREET", "hello"⟩] (fun _ => 0) none
            (dbBegin (St.init emptyStore))).2.2.1
          (importPairs (failAt 3) baseFlags file0 [⟨"GREET", "hello"⟩] (fun _ => 0) none
            (dbBegin (St.init emptyStore))).1).1.trace ++ [Event.txEnd] :=
  ⟨by decide,
    (importStrings_break (failAt 3) baseFlags file0 [⟨"GREET", "hello"⟩] ⟨"GREET", "hi"⟩
      [⟨"BYE", "bye"⟩] none (St.init emptyStore) (by decide) (by decide)).2.2.1⟩

/-- C8 fails as stated: in translation mode the pair A, whose SourceString is absent, raises
"translated identifier does not exist", and the next pair B of the file is processed all
the same: a `QueryString` is issued for it. -/
theorem importStrings_absent_continues :
    (importPair quietEnv engFlags file0 ⟨"A", "x"⟩ (fun _ => 0) none
        (dbBegin (St.init emptyStore))).1.diag
      = [("ui.text: A: x", "translated identifier does not exist")] ∧
    Event.queryString file0 0 "B" none ∈
      (importStrings quietEnv engFlags file0 [⟨"A", "x"⟩, ⟨"B", "y"⟩] none
        (St.init emptyStore)).1.trace := by
  decide

/-! ## Translation mode leaves the source strings alone -/

/-- C9, the defect: the catalog `engStore` has each natural key once and holds the
translation set "eng". In the archive-scan import the `QueryTranslation` call (number 4)
fails, its error is never looked at (line 276), and `InsertTranslation` is issued for the
name that is present: the committed catalog ends with two sets named "eng". The same
happens at line 114 of the CSV import (call number 0), and with `QueryTranslationString`
(call number 5, its error dropped at line 285), which leaves two TranslationStrings for one
(Translation, SourceString). -/
theorem insert_on_present_key :
    engStore.translations.Nodup ∧
    find? (translationKey "eng") engStore.translations = some ⟨0, "eng"⟩ ∧
    Event.insertTranslation "eng" ∈
      (importArchive (failAt 4) engFlags "ui.ice" ⟨"ui.ice", 0⟩ engGroups (St.init engStore)).trace ∧
    (importArchive (failAt 4) engFlags "ui.ice" ⟨"ui.ice", 0⟩ engGroups
      (St.init engStore)).durable.translations = ["eng", "eng"] ∧
    (importCsv (failAt 0) engFlags uiMap ⟨[], .eof⟩ (St.init uiStore)).st.durable.translations
      = ["eng", "eng"] ∧
    find? (transKey 0 0) engStore.tstrings = some ⟨0, ⟨0, 0, "alt"⟩⟩ ∧
    (importArchive (failAt 5) engFlags "ui.ice" ⟨"ui.ice", 0⟩ engGroups
      (St.init engStore)).durable.tstrings = [⟨0, 0, "alt"⟩, ⟨0, 0, "new"⟩] := by
  decide

theorem Justified_neutral_cons (S : List StringRow) (cur : Option SourceString) (e : Event)
    (rest : List Event) (h : e.isNeutral = true) :
    Justified S cur (e :: rest) ↔ Justified S cur rest := by
  cases e <;> simp [Justified, Event.isNeutral] at h ⊢

theorem Justified_neutral_append (S : List StringRow) (cur : Option SourceString)
    (l rest : List Event) (h : ∀ e ∈ l, e.isNeutral = true) :
    Justified S cur (l ++ rest) ↔ Justified S cur rest := by
  induction l with
  | nil => simp
  | cons e l ih =>
    rw [List.cons_append, Justified_neutral_cons S cur e _ (h e (by simp))]
    exact ih (fun e' he' => h e' (by simp [he']))

theorem Justified_append (S : List StringRow) (a b : List Event)
    (hb : ∀ c, Justified S c b) : ∀ cur, Justified S cur a → Justified S cur (a ++ b) := by
  induction a with
  | nil => intro cur _; simpa using hb cur
  | cons e a ih =>
    intro cur h
    cases e <;> simp only [List.cons_append, Justified] at h ⊢ <;>
      first
        | exact ih _ h
        | exact ⟨h.1, ih _ h.2⟩

theorem TransStep.refl (st : St) : TransStep st st := by
  simp [TransStep, newEvents_self, Justified]

theorem TransStep.trans {st st1 st2 : St} (h1 : TransStep st st1) (h2 : TransStep st1 st2) :
    TransStep st st2 := by
  obtain ⟨a1, a2, a3, a4⟩ := h1
  obtain ⟨b1, b2, b3, b4⟩ := h2
  obtain ⟨c1, c2⟩ := newEvents_trans a1 b1
  refine ⟨c1, b2.trans a2, ?_, ?_⟩
  · intro cur
    rw [c2]
    rw [a2] at b3
    exact Justified_append _ _ _ b3 cur (a3 cur)
  · intro hd
    rw [← a2]
    exact b4 ((a4 hd).trans a2.symm)

theorem TransStep.of_neutral {st st' : St}
    (ht : st'.trace = st.trace ++ newEvents st st')
    (hn : ∀ e ∈ newEvents st st', e.isNeutral = true)
    (hs : st'.db.strings = st.db.strings)
    (hd : st.durable.strings = st.db.strings → st'.durable.strings = st.db.strings) :
    TransStep st st' := by
  refine ⟨ht, hs, ?_, hd⟩
  intro cur
  have := Justified_neutral_append st.db.strings cur (newEvents st st') [] hn
  rw [List.append_nil] at this
  rw [this]
  simp [Justified]

theorem resolveArchive_step (env : Env) (name : String) (aname : ArchiveName)
    (a : Option Archive) (st : St) : TransStep st (resolveArchive env name aname a st).1 := by
  unfold resolveArchive
  repeat' split
  all_goals simp only [Prod.ext_iff] at *
  all_goals (try casesm* _ ∧ _)
  all_goals subst_vars
  all_goals refine TransStep.of_neutral ?_ ?_ ?_ ?_
  all_goals simp [newEvents, Event.isNeutral]
  all_goals (try (split <;> rfl))
  all_goals (try (intro hd; split <;> simp_all))

theorem resolveFile_step (env : Env) (a : Archive) (fileName : String) (st : St) :
    TransStep st (resolveFile env a fileName st).1 := by
  unfold resolveFile
  repeat' split
  all_goals simp only [Prod.ext_iff] at *
  all_goals (try casesm* _ ∧ _)
  all_goals subst_vars
  all_goals refine TransStep.of_neutral ?_ ?_ ?_ ?_
  all_goals simp [newEvents, Event.isNeutral]
  all_goals (try (split <;> rfl))
  all_goals (try (intro hd; split <;> simp_all))

theorem resolveTranslation_step (env : Env) (n : String) (tr : Option Translation) (st : St) :
    TransStep st (resolveTranslation env n tr st).1 := by
  unfold resolveTranslation
  repeat' split
  all_goals simp only [Prod.ext_iff] at *
  all_goals (try casesm* _ ∧ _)
  all_goals subst_vars
  all_goals refine TransStep.of_neutral ?_ ?_ ?_ ?_
  all_goals simp [newEvents, Event.isNeutral]
  all_goals (try (split <;> rfl))
  all_goals (try (intro hd; split <;> simp_all))

theorem complain_step (a : String) (e : Option Err) (st : St) :
    TransStep st (complain a e st).1 :=
  TransStep.of_neutral (by simp [newEvents]) (by simp [newEvents]) (by simp) (by simp)

theorem queryTS_target (env : Env) (t : Translation) (s : SourceString) (st : St)
    (ts : TranslationString) (h : ptrOf (queryTranslationString env t s st).2 = some ts) :
    ts.val.string = s.id := by
  simp at h
  have := (find?_some h.2).1
  simp [transKey] at this
  exact this.2

theorem upsert_step (env : Env) (t : Translation) (s : SourceString) (w : String) (st : St)
    (hw : s.val.value ≠ w) :
    (upsertTranslationString env t s w st).1.trace
        = st.trace ++ newEvents st (upsertTranslationString env t s w st).1 ∧
    (upsertTranslationString env t s w st).1.db.strings = st.db.strings ∧
    Justified st.db.strings (some s) (newEvents st (upsertTranslationString env t s w st).1) := by
  have htr := upsert_trace env t s w st
  have hnew := newEvents_append _ _ _ htr
  refine ⟨by rw [hnew, htr], ?_, ?_⟩
  · unfold upsertTranslationString
    repeat' split
    all_goals simp only [Prod.ext_iff] at *
    all_goals (try casesm* _ ∧ _)
    all_goals subst_vars
    all_goals simp
    all_goals (split <;> rfl)
  · rw [hnew]
    cases hq : ptrOf (queryTranslationString env t s st).2 with
    | none => simp [Justified, upsertEvent, hw]
    | some ts => simp [Justified, upsertEvent, hw, queryTS_target env t s st ts hq]

theorem resolveTranslation_neutral (env : Env) (n : String) (tr : Option Translation) (st : St) :
    ∀ e ∈ newEvents st (resolveTranslation env n tr st).1, e.isNeutral = true := by
  intro e he
  rcases resolveTranslation_events env n tr st e he with ⟨r, rfl⟩ | rfl <;> rfl

theorem Justified_neutral_list (S : List StringRow) (cur : Option SourceString)
    (l : List Event) (h : ∀ e ∈ l, e.isNeutral = true) : Justified S cur l := by
  have := Justified_neutral_append S cur l [] h
  rw [List.append_nil] at this
  rw [this]
  simp [Justified]

theorem Justified_pair_tail (S : List StringRow) (s : SourceString) (t : Translation)
    (q : Option TranslationString) (w : String) (l : List Event)
    (hn : ∀ e ∈ l, e.isNeutral = true) (hw : s.val.value ≠ w)
    (hq : ∀ ts, q = some ts → ts.val.string = s.id) :
    Justified S (some s) (l ++ [Event.queryTranslationString t s q, upsertEvent t s q w]) := by
  rw [Justified_neutral_append S _ l _ hn]
  cases q with
  | none => simp [Justified, upsertEvent, hw]
  | some ts => simp [Justified, upsertEvent, hw, hq ts rfl]

@[simp] theorem resolveTranslation_strings (env : Env) (n : String) (tr : Option Translation)
    (st : St) : (resolveTranslation env n tr st).1.db.strings = st.db.strings :=
  (resolveTranslation_step env n tr st).2.1

@[simp] theorem upsert_strings (env : Env) (t : Translation) (s : SourceString) (w : String)
    (st : St) : (upsertTranslationString env t s w st).1.db.strings = st.db.strings := by
  unfold upsertTranslationString
  repeat' split
  all_goals simp only [Prod.ext_iff] at *
  all_goals (try casesm* _ ∧ _)
  all_goals subst_vars
  all_goals simp
  all_goals (split <;> rfl)

theorem upsert_durable_strings (env : Env) (t : Translation) (s : SourceString) (w : String)
    (st : St) (hd : st.durable.strings = st.db.strings) :
    (upsertTranslationString env t s w st).1.durable.strings = st.db.strings := by
  unfold upsertTranslationString
  repeat' split
  all_goals simp only [Prod.ext_iff] at *
  all_goals (try casesm* _ ∧ _)
  all_goals subst_vars
  all_goals simp
  all_goals (split <;> simp_all)

theorem translatePair_strings (env : Env) (fl : Flags) (f : File) (p : Pair) (s : SourceString)
    (tr : Option Translation) (st : St) :
    (translatePair env fl f p s tr st).1.db.strings = st.db.strings ∧
    (st.durable.strings = st.db.strings →
      (translatePair env fl f p s tr st).1.durable.strings = st.db.strings) := by
  have hR := resolveTranslation_step env fl.flagTrans tr st
  rcases translatePair_cases env fl f p s tr st with ⟨_, h⟩ | ⟨t, _, h⟩ <;> rw [h]
  · exact ⟨hR.2.1, hR.2.2.2⟩
  · refine ⟨by simp, ?_⟩
    intro hd
    have h1 := hR.2.2.2 hd
    rw [← hR.2.1] at h1 ⊢
    simpa using upsert_durable_strings env t s p.string _ h1

theorem importPair_strings (env : Env) (fl : Flags) (f : File) (p : Pair) (c : String → Nat)
    (tr : Option Translation) (st : St) (ht : fl.flagTrans ≠ "") :
    (importPair env fl f p c tr st).1.db.strings = st.db.strings ∧
    (st.durable.strings = st.db.strings →
      (importPair env fl f p c tr st).1.durable.strings = st.db.strings) := by
  rw [importPair_eq]
  split
  · simp
  · rename_i s _
    split
    · simp
    · simp only [ht, ne_eq, not_false_eq_true, if_true]
      have := translatePair_strings env fl f p s tr
        (queryString env f (c p.identifier) p.identifier st).1
      simpa using this
  · simp [ht]

theorem importPair_step (env : Env) (fl : Flags) (f : File) (p : Pair) (c : String → Nat)
    (tr : Option Translation) (st : St) (ht : fl.flagTrans ≠ "") :
    TransStep st (importPair env fl f p c tr st).1 := by
  obtain ⟨tail, h, hcase⟩ := importPair_tail env fl f p c tr st
  obtain ⟨h1, h2⟩ := ext_of_trace _ _ _ h
  refine ⟨h1, (importPair_strings env fl f p c tr st ht).1, ?_,
    (importPair_strings env fl f p c tr st ht).2⟩
  intro cur
  rw [h2]
  have hfind : ∀ s, ptrOf (queryString env f (c p.identifier) p.identifier st).2 = some s →
      find? (stringKey f.id (c p.identifier) p.identifier) st.db.strings = some s := by
    intro s hs
    simp at hs
    exact hs.2
  simp only [Justified]
  refine ⟨hfind, ?_⟩
  rcases hcase with rfl | ⟨h0, _⟩ | ⟨h0, _⟩ | ⟨_, s, hs, hv, l, hl, hl' | ⟨t, q, hq, hl'⟩⟩
  · simp [Justified]
  · exact absurd h0 ht
  · exact absurd h0 ht
  · rw [hl']
    exact Justified_neutral_list _ _ l hl
  · rw [hl', hs]
    exact Justified_pair_tail _ s t q p.string l hl hv hq

theorem importPairs_step (env : Env) (fl : Flags) (f : File) (pairs : List Pair)
    (c : String → Nat) (tr : Option Translation) (st : St) (ht : fl.flagTrans ≠ "") :
    TransStep st (importPairs env fl f pairs c tr st).1 := by
  induction pairs generalizing c tr st with
  | nil => simpa [importPairs] using TransStep.refl st
  | cons p ps ih =>
    rw [importPairs_cons]
    split
    · exact (importPair_step env fl f p c tr st ht).trans (ih _ _ _)
    · exact importPair_step env fl f p c tr st ht

theorem dbBegin_step (st : St) : TransStep st (dbBegin st) :=
  TransStep.of_neutral (by simp [newEvents]) (by simp [newEvents, Event.isNeutral]) (by simp)
    (by simp)

theorem dbEnd_step (st : St) : TransStep st (dbEnd st) :=
  TransStep.of_neutral (by simp [newEvents]) (by simp [newEvents, Event.isNeutral]) (by simp)
    (by simp)

theorem importStrings_step (env : Env) (fl : Flags) (f : File) (pairs : List Pair)
    (tr : Option Translation) (st : St) (ht : fl.flagTrans ≠ "") :
    TransStep st (importStrings env fl f pairs tr st).1 := by
  rw [importStrings_eq]
  exact ((dbBegin_step st).trans (importPairs_step env fl f pairs _ tr _ ht)).trans (dbEnd_step _)

theorem importFile_step (env : Env) (fl : Flags) (name : String) (aname : ArchiveName)
    (file : ArchiveFile) (a : Option Archive) (tr : Option Translation) (st : St)
    (ht : fl.flagTrans ≠ "") :
    TransStep st (importFile env fl name aname file a tr st).1 := by
  unfold importFile
  repeat' split
  all_goals simp only [Prod.ext_iff] at *
  all_goals (try casesm* _ ∧ _)
  all_goals subst_vars
  · exact complain_step _ _ _
  · exact resolveArchive_step _ _ _ _ _
  · exact (resolveArchive_step _ _ _ _ _).trans (resolveFile_step _ _ _ _)
  · exact ((resolveArchive_step _ _ _ _ _).trans (resolveFile_step _ _ _ _)).trans
      (importStrings_step _ _ _ _ _ _ ht)
  · exact TransStep.refl st

theorem importGroup_step (env : Env) (fl : Flags) (name : String) (aname : ArchiveName)
    (files : List ArchiveFile) (a : Option Archive) (tr : Option Translation) (st : St)
    (ht : fl.flagTrans ≠ "") :
    TransStep st (importGroup env fl name aname files a tr st).1 := by
  induction files generalizing a tr st with
  | nil => simpa [importGroup] using TransStep.refl st
  | cons file files ih =>
    simp only [importGroup]
    exact (importFile_step env fl name aname file a tr st ht).trans (ih _ _ _)

theorem importGroups_step (env : Env) (fl : Flags) (name : String) (aname : ArchiveName)
    (groups : List (List ArchiveFile)) (a : Option Archive) (tr : Option Translation) (st : St)
    (ht : fl.flagTrans ≠ "") :
    TransStep st (importGroups env fl name aname groups a tr st).1 := by
  induction groups generalizing a tr st with
  | nil => simpa [importGroups] using TransStep.refl st
  | cons group groups ih =>
    simp only [importGroups]
    exact (importGroup_step env fl name aname group a tr st ht).trans (ih _ _ _)

theorem LatestQuery.cons_other {S : List StringRow} {cur cur' : Option SourceString}
    {x : Event} {pre : List Event} (hx : queryOrdinal x = none)
    (h : LatestQuery S cur pre cur') : LatestQuery S cur (x :: pre) cur' := by
  rcases h with ⟨h1, h2⟩ | ⟨pre1, g, o, i, pre2, h1, h2, h3⟩
  · left
    refine ⟨h1, ?_⟩
    intro e he
    rcases List.mem_cons.1 he with rfl | he
    · exact hx
    · exact h2 e he
  · right
    exact ⟨x :: pre1, g, o, i, pre2, by rw [h1]; rfl, h2, h3⟩

theorem Justified_split (S : List StringRow) (rest : List Event) :
    ∀ (pre : List Event) (cur : Option SourceString), Justified S cur (pre ++ rest) →
      ∃ cur', LatestQuery S cur pre cur' ∧ Justified S cur' rest := by
  intro pre
  induction pre with
  | nil =>
    intro cur h
    exact ⟨cur, Or.inl ⟨rfl, by simp⟩, by simpa using h⟩
  | cons x pre ih =>
    intro cur h
    cases x
    case queryString g o i r =>
      simp only [List.cons_append, Justified] at h
      obtain ⟨cur', hl, hj⟩ := ih r h.2
      refine ⟨cur', ?_, hj⟩
      rcases hl with ⟨h1, h2⟩ | ⟨pre1, g', o', i', pre2, h1, h2, h3⟩
      · right
        subst h1
        exact ⟨[], g, o, i, pre, rfl, h2, h.1⟩
      · right
        exact ⟨_ :: pre1, g', o', i', pre2, by rw [h1]; rfl, h2, h3⟩
    case insertString => simp [Justified] at h
    case updateString => simp [Justified] at h
    case insertTranslationString =>
      simp only [List.cons_append, Justified] at h
      obtain ⟨cur', hl, hj⟩ := ih cur h.2
      exact ⟨cur', hl.cons_other rfl, hj⟩
    case updateTranslationString =>
      simp only [List.cons_append, Justified] at h
      obtain ⟨cur', hl, hj⟩ := ih cur h.2
      exact ⟨cur', hl.cons_other rfl, hj⟩
    all_goals
      simp only [List.cons_append, Justified] at h
      obtain ⟨cur', hl, hj⟩ := ih cur h
      exact ⟨cur', hl.cons_other rfl, hj⟩

theorem Justified_mem (S : List StringRow) (evs : List Event) (cur : Option SourceString)
    (h : Justified S cur evs) : ∀ e ∈ evs,
      (∀ g v o i w, e ≠ Event.insertString g v o i w) ∧
      (∀ s v w, e ≠ Event.updateString s v w) := by
  intro e he
  obtain ⟨pre, post, rfl⟩ := List.append_of_mem he
  obtain ⟨cur', _, hj⟩ := Justified_split S (e :: post) pre cur h
  constructor
  · intro g v o i w hw
    subst hw
    simp [Justified] at hj
  · intro s v w hw
    subst hw
    simp [Justified] at hj

/-- C3: the archive-scan import of one archive in translation mode, from any state, in any
environment of storage failures. The trace only grows; no `InsertString` and no
`UpdateString` is among the new calls, and the SourceString table is the same afterwards
(also as committed, when the run starts with nothing uncommitted in it). Every
`InsertTranslationString` targets the row `s` that the latest `QueryString` before it
returned, which is the row stored under the queried key, and carries a value different from
the stored one; every `UpdateTranslationString` rewrites a TranslationString that refers to
such a row, with a value different from the stored one. -/
theorem importArchive_translation (env : Env) (fl : Flags) (name : String)
    (aname : ArchiveName) (groups : List (List ArchiveFile)) (st : St)
    (ht : fl.flagTrans ≠ "") :
    let out := importArchive env fl name aname groups st
    out.trace = st.trace ++ newEvents st out
      ∧ out.db.strings = st.db.strings
      ∧ (st.durable.strings = st.db.strings → out.durable.strings = st.db.strings)
      ∧ (∀ e ∈ newEvents st out, (∀ g v o i w, e ≠ Event.insertString g v o i w) ∧
          (∀ s v w, e ≠ Event.updateString s v w))
      ∧ (∀ pre t s w post,
          newEvents st out = pre ++ Event.insertTranslationString t s w :: post →
          s.val.value ≠ w ∧ ∃ pre1 g o i pre2,
            pre = pre1 ++ Event.queryString g o i (some s) :: pre2 ∧
            (∀ e ∈ pre2, queryOrdinal e = none) ∧
            find? (stringKey g.id o i) st.db.strings = some s)
      ∧ (∀ pre ts w post,
          newEvents st out = pre ++ Event.updateTranslationString ts w :: post →
          ∃ s, ts.val.string = s.id ∧ s.val.value ≠ w ∧ ∃ pre1 g o i pre2,
            pre = pre1 ++ Event.queryString g o i (some s) :: pre2 ∧
            (∀ e ∈ pre2, queryOrdinal e = none) ∧
            find? (stringKey g.id o i) st.db.strings = some s) := by
  intro out
  obtain ⟨h1, h2, h3, h4⟩ := importGroups_step env fl name aname groups none none st ht
  refine ⟨h1, h2, h4, Justified_mem _ _ none (h3 none), ?_, ?_⟩
  · intro pre t s w post hsplit
    have hj := h3 none
    rw [show newEvents st (importGroups env fl name aname groups none none st).1
      = pre ++ Event.insertTranslationString t s w :: post from hsplit] at hj
    obtain ⟨cur', hl, hj'⟩ := Justified_split _ _ pre none hj
    simp only [Justified] at hj'
    obtain ⟨⟨hc, hv⟩, _⟩ := hj'
    subst hc
    refine ⟨hv, ?_⟩
    rcases hl with ⟨h0, _⟩ | ⟨pre1, g, o, i, pre2, e1, e2, e3⟩
    · cases h0
    · exact ⟨pre1, g, o, i, pre2, e1, e2, e3 s rfl⟩
  · intro pre ts w post hsplit
    have hj := h3 none
    rw [show newEvents st (importGroups env fl name aname groups none none st).1
      = pre ++ Event.updateTranslationString ts w :: post from hsplit] at hj
    obtain ⟨cur', hl, hj'⟩ := Justified_split _ _ pre none hj
    simp only [Justified] at hj'
    obtain ⟨⟨s, hc, hts, hv⟩, _⟩ := hj'
    subst hc
    refine ⟨s, hts, hv, ?_⟩
    rcases hl with ⟨h0, _⟩ | ⟨pre1, g, o, i, pre2, e1, e2, e3⟩
    · cases h0
    · exact ⟨pre1, g, o, i, pre2, e1, e2, e3 s rfl⟩

theorem importArchive_translation_witness :
    (importArchive quietEnv engFlags "ui.ice" ⟨"ui.ice", 0⟩ engGroups
        (St.init engStore)).db.strings = engStore.strings ∧
    (importArchive quietEnv engFlags "ui.ice" ⟨"ui.ice", 0⟩ engGroups
        (St.init engStore)).db.tstrings = [⟨0, 0, "new"⟩] :=
  ⟨(importArchive_translation quietEnv engFlags "ui.ice" ⟨"ui.ice", 0⟩ engGroups
      (St.init engStore) (by decide)).2.1, by decide⟩

/-! ## Keyed tables -/

section Table

variable {α κ π : Type} [DecidableEq κ]

theorem find?_none {p : α → Bool} {l : List α} :
    find? p l = none ↔ ∀ x ∈ l, p x = false := by
  induction l with
  | nil => simp [find?]
  | cons x xs ih =>
    unfold find?
    by_cases hx : p x = true
    · simp [hx]
    · simp [hx, ih]

theorem find?_cons (p : α → Bool) (x : α) (xs : List α) :
    find? p (x :: xs) = if p x then some ⟨0, x⟩
      else (find? p xs).map (fun r => ⟨r.id + 1, r.val⟩) := rfl

theorem find?_append_single (p : α → Bool) (l : List α) (x : α) :
    find? p (l ++ [x]) = match find? p l with
      | some r => some r
      | none => if p x then some ⟨l.length, x⟩ else none := by
  induction l with
  | nil => simp [find?]
  | cons y ys ih =>
    rw [List.cons_append, find?_cons, find?_cons, ih]
    by_cases hy : p y = true
    · simp [hy]
    · rw [if_neg hy, if_neg hy]
      cases find? p ys with
      | some r => rfl
      | none =>
        by_cases hx : p x = true <;> simp [hx]

theorem modifyAt_length (g : α → α) (i : Nat) (l : List α) :
    (modifyAt g i l).length = l.length := by
  induction l generalizing i with
  | nil => cases i <;> simp [modifyAt]
  | cons x xs ih => cases i <;> simp [modifyAt, ih]

theorem modifyAt_getElem? (g : α → α) (i j : Nat) (l : List α) :
    (modifyAt g i l)[j]? = if j = i then l[j]?.map g else l[j]? := by
  induction l generalizing i j with
  | nil => cases i <;> simp [modifyAt]
  | cons x xs ih =>
    cases i with
    | zero =>
      cases j <;> simp [modifyAt]
    | succ i =>
      cases j with
      | zero => simp [modifyAt]
      | succ j => simp [modifyAt, ih]

theorem modifyAt_congr (g g' : α → α) (i : Nat) (l : List α)
    (h : ∀ r, l[i]? = some r → g r = g' r) : modifyAt g i l = modifyAt g' i l := by
  apply List.ext_getElem?
  intro j
  rw [modifyAt_getElem?, modifyAt_getElem?]
  split
  · rename_i hj
    subst hj
    cases hr : l[j]? with
    | none => rfl
    | some r => simp [h r hr]
  · rfl

theorem modifyAt_self (g : α → α) (i : Nat) (l : List α)
    (h : ∀ r, l[i]? = some r → g r = r) : modifyAt g i l = l := by
  apply List.ext_getElem?
  intro j
  rw [modifyAt_getElem?]
  split
  · rename_i hj
    subst hj
    cases hr : l[j]? with
    | none => rfl
    | some r => simp [h r hr]
  · rfl

theorem find?_modifyAt (p : α → Bool) (g : α → α) (i : Nat) (l : List α)
    (hp : ∀ r, p (g r) = p r) :
    find? p (modifyAt g i l)
      = (find? p l).map (fun r => if r.id = i then ⟨r.id, g r.val⟩ else r) := by
  induction l generalizing i with
  | nil => cases i <;> simp [modifyAt, find?]
  | cons x xs ih =>
    cases i with
    | zero =>
      rw [modifyAt, find?_cons, find?_cons, hp]
      by_cases hx : p x = true
      · simp [hx]
      · rw [if_neg hx, if_neg hx]
        cases find? p xs <;> simp
    | succ i =>
      rw [modifyAt, find?_cons, find?_cons, ih]
      by_cases hx : p x = true
      · simp [hx]
      · rw [if_neg hx, if_neg hx]
        cases find? p xs with
        | none => rfl
        | some r =>
          by_cases hr : r.id = i <;> simp [hr]

theorem put_find_same (key : α → κ) (upd : π → α → α) (mk : κ → π → α)
    (hupd : ∀ v r, key (upd v r) = key r) (hmk : ∀ k v, key (mk k v) = k)
    (w : κ × π) (T : List α) :
    find? (fun r => decide (key r = w.1)) (put key upd mk w T)
      = some (match find? (fun r => decide (key r = w.1)) T with
        | some r => ⟨r.id, upd w.2 r.val⟩
        | none => ⟨T.length, mk w.1 w.2⟩) := by
  unfold put
  cases h : find? (fun r => decide (key r = w.1)) T with
  | some r =>
    simp only []
    rw [find?_modifyAt _ _ _ _ (by intro r; simp [hupd]), h]
    simp
  | none =>
    simp only []
    rw [find?_append_single, h]
    simp [hmk]

theorem put_find_other (key : α → κ) (upd : π → α → α) (mk : κ → π → α)
    (hupd : ∀ v r, key (upd v r) = key r) (hmk : ∀ k v, key (mk k v) = k)
    (w : κ × π) (T : List α) (k : κ) (hk : k ≠ w.1) :
    find? (fun r => decide (key r = k)) (put key upd mk w T)
      = find? (fun r => decide (key r = k)) T := by
  unfold put
  cases h : find? (fun r => decide (key r = w.1)) T with
  | some r =>
    simp only []
    rw [find?_modifyAt _ _ _ _ (by intro r; simp [hupd])]
    cases h' : find? (fun r => decide (key r = k)) T with
    | none => rfl
    | some r' =>
      have h1 := find?_some h
      have h2 := find?_some h'
      have hne : r'.id ≠ r.id := by
        intro he
        rw [he, h1.2] at h2
        have hv : r.val = r'.val := by simpa using h2.2
        have k1 : key r.val = w.1 := by simpa using h1.1
        have k2 : key r'.val = k := by simpa using h2.1
        exact hk (by rw [← k2, ← hv, k1])
      simp [hne]
  | none =>
    simp only []
    rw [find?_append_single]
    cases h' : find? (fun r => decide (key r = k)) T with
    | some r' => rfl
    | none => simp [hmk, Ne.symm hk]

theorem rowAt_put (key : α → κ) (upd : π → α → α) (mk : κ → π → α)
    (hupd : ∀ v r, key (upd v r) = key r) (hmk : ∀ k v, key (mk k v) = k)
    (w : κ × π) (T : List α) (k : κ) :
    rowAt key k (put key upd mk w T)
      = if k = w.1 then putRow upd mk k (rowAt key k T) w.2 else rowAt key k T := by
  unfold rowAt
  split
  · rename_i hk
    subst hk
    rw [put_find_same key upd mk hupd hmk]
    cases find? (fun r => decide (key r = w.1)) T <;> simp [putRow]
  · rename_i hk
    rw [put_find_other key upd mk hupd hmk w T k hk]

theorem rowAt_puts (key : α → κ) (upd : π → α → α) (mk : κ → π → α)
    (hupd : ∀ v r, key (upd v r) = key r) (hmk : ∀ k v, key (mk k v) = k)
    (W : List (κ × π)) (T : List α) (k : κ) :
    rowAt key k (puts key upd mk W T)
      = ((W.filter (fun w => decide (w.1 = k))).map (fun w => w.2)).foldl
          (putRow upd mk k) (rowAt key k T) := by
  induction W generalizing T with
  | nil => rfl
  | cons w W ih =>
    have : puts key upd mk (w :: W) T = puts key upd mk W (put key upd mk w T) := rfl
    rw [this, ih, rowAt_put key upd mk hupd hmk]
    by_cases hk : k = w.1
    · subst hk
      simp [List.filter_cons]
    · have hk' : ¬ w.1 = k := fun h => hk h.symm
      simp [List.filter_cons, hk, hk']

theorem puts_append (key : α → κ) (upd : π → α → α) (mk : κ → π → α)
    (W1 W2 : List (κ × π)) (T : List α) :
    puts key upd mk (W1 ++ W2) T = puts key upd mk W2 (puts key upd mk W1 T) := by
  simp [puts, List.foldl_append]

omit [DecidableEq κ] in
theorem modifyAt_map (key : α → κ) (g : α → α) (hg : ∀ r, key (g r) = key r) (i : Nat)
    (l : List α) : (modifyAt g i l).map key = l.map key := by
  induction l generalizing i with
  | nil => cases i <;> rfl
  | cons x xs ih => cases i <;> simp [modifyAt, hg, ih]

theorem find?_index_keys (key : α → κ) (k : κ) :
    ∀ (T T' : List α), T.map key = T'.map key →
      (find? (fun r => decide (key r = k)) T).map (fun r => r.id)
        = (find? (fun r => decide (key r = k)) T').map (fun r => r.id) := by
  intro T
  induction T with
  | nil =>
    intro T' h
    cases T' with
    | nil => rfl
    | cons y ys => simp at h
  | cons x xs ih =>
    intro T' h
    cases T' with
    | nil => simp at h
    | cons y ys =>
      simp only [List.map_cons, List.cons.injEq] at h
      rw [find?_cons, find?_cons, h.1]
      by_cases hy : key y = k
      · simp [hy]
      · simp only [hy, decide_False, Bool.false_eq_true, if_false, Option.map_map]
        have := ih ys h.2
        cases h1 : find? (fun r => decide (key r = k)) xs <;>
          cases h2 : find? (fun r => decide (key r = k)) ys <;> simp_all

theorem put_present (key : α → κ) (upd : π → α → α) (mk : κ → π → α)
    (hupd : ∀ v r, key (upd v r) = key r) (w : κ × π) (T : List α) (r : Ref α)
    (h : find? (fun r => decide (key r = w.1)) T = some r) :
    (put key upd mk w T).map key = T.map key ∧
      ∀ j, j ≠ r.id → (put key upd mk w T)[j]? = T[j]? := by
  unfold put
  rw [h]
  simp only []
  refine ⟨modifyAt_map key _ (hupd w.2) _ _, ?_⟩
  intro j hj
  rw [modifyAt_getElem?, if_neg hj]

/-- All keys written by `W` have a row in `T`. -/
theorem puts_present (key : α → κ) (upd : π → α → α) (mk : κ → π → α)
    (hupd : ∀ v r, key (upd v r) = key r) (W : List (κ × π)) :
    ∀ T : List α, (∀ w ∈ W, find? (fun r => decide (key r = w.1)) T ≠ none) →
      (puts key upd mk W T).map key = T.map key ∧
      ∀ j, (∀ w ∈ W, (find? (fun r => decide (key r = w.1)) T).map (fun r => r.id) ≠ some j) →
        (puts key upd mk W T)[j]? = T[j]? := by
  induction W with
  | nil => intro T _; exact ⟨rfl, fun _ _ => rfl⟩
  | cons w W ih =>
    intro T hall
    have hw := hall w (by simp)
    obtain ⟨r, hr⟩ := Option.ne_none_iff_exists'.1 hw
    obtain ⟨hk, hg⟩ := put_present key upd mk hupd w T r hr
    have hidx : ∀ k, (find? (fun r => decide (key r = k)) (put key upd mk w T)).map (fun r => r.id)
        = (find? (fun r => decide (key r = k)) T).map (fun r => r.id) :=
      fun k => find?_index_keys key k _ _ hk
    have hall' : ∀ w' ∈ W, find? (fun r => decide (key r = w'.1)) (put key upd mk w T) ≠ none := by
      intro w' hw' hn
      have := hidx w'.1
      rw [hn] at this
      have h2 := hall w' (by simp [hw'])
      cases h3 : find? (fun r => decide (key r = w'.1)) T with
      | none => exact h2 h3
      | some x => rw [h3] at this; simp at this
    obtain ⟨ik, ig⟩ := ih (put key upd mk w T) hall'
    have : puts key upd mk (w :: W) T = puts key upd mk W (put key upd mk w T) := rfl
    rw [this]
    refine ⟨ik.trans hk, ?_⟩
    intro j hj
    rw [ig j (fun w' hw' => by rw [hidx]; exact hj w' (by simp [hw']))]
    apply hg
    intro he
    have := hj w (by simp)
    rw [hr] at this
    simp [he] at this

omit [DecidableEq κ] in
theorem foldl_putRow_some (upd : π → α → α) (mk : κ → π → α) (k : κ) (ws : List π) (o : Option α)
    (h : ws ≠ [] ∨ o ≠ none) : ws.foldl (putRow upd mk k) o ≠ none := by
  induction ws generalizing o with
  | nil =>
    rcases h with h | h
    · exact absurd rfl h
    · exact h
  | cons v ws ih =>
    simp only [List.foldl_cons]
    apply ih
    right
    cases o <;> simp [putRow]

/-- Running a sequence of `put`s a second time changes nothing, when the row updates are
such that replaying the payloads of one key on their own result changes nothing. -/
theorem puts_idem (key : α → κ) (upd : π → α → α) (mk : κ → π → α)
    (hupd : ∀ v r, key (upd v r) = key r) (hmk : ∀ k v, key (mk k v) = k)
    (hrow : ∀ k (ws : List π) (o : Option α),
      ws.foldl (putRow upd mk k) (ws.foldl (putRow upd mk k) o) = ws.foldl (putRow upd mk k) o)
    (W : List (κ × π)) (T : List α) :
    puts key upd mk W (puts key upd mk W T) = puts key upd mk W T := by
  have hrowAt : ∀ k, rowAt key k (puts key upd mk W (puts key upd mk W T))
      = rowAt key k (puts key upd mk W T) := by
    intro k
    rw [rowAt_puts key upd mk hupd hmk W (puts key upd mk W T), rowAt_puts key upd mk hupd hmk W T,
      hrow]
  have hpres : ∀ w ∈ W, find? (fun r => decide (key r = w.1)) (puts key upd mk W T) ≠ none := by
    intro w hw hn
    have h1 : rowAt key w.1 (puts key upd mk W T) = none := by simp [rowAt, hn]
    rw [rowAt_puts key upd mk hupd hmk] at h1
    refine foldl_putRow_some upd mk w.1 _ _ (Or.inl ?_) h1
    intro he
    have : w.2 ∈ (W.filter (fun w' => decide (w'.1 = w.1))).map (fun w => w.2) :=
      List.mem_map.2 ⟨w, by simp [hw], rfl⟩
    rw [he] at this
    simp at this
  obtain ⟨hk, hg⟩ := puts_present key upd mk hupd W (puts key upd mk W T) hpres
  apply List.ext_getElem?
  intro j
  by_cases hj : ∀ w ∈ W, (find? (fun r => decide (key r = w.1)) (puts key upd mk W T)).map
      (fun r => r.id) ≠ some j
  · exact hg j hj
  · push_neg at hj
    obtain ⟨w, _, hw⟩ := hj
    cases h1 : find? (fun r => decide (key r = w.1)) (puts key upd mk W T) with
    | none => rw [h1] at hw; simp at hw
    | some r =>
      rw [h1] at hw
      have hid : r.id = j := by simpa using hw
      have hidx := find?_index_keys key w.1 _ _ hk
      rw [h1] at hidx
      cases h2 : find? (fun r => decide (key r = w.1))
          (puts key upd mk W (puts key upd mk W T)) with
      | none => rw [h2] at hidx; simp at hidx
      | some r2 =>
        rw [h2] at hidx
        have hid2 : r2.id = r.id := by simpa using hidx
        have hv := hrowAt w.1
        simp only [rowAt, h1, h2, Option.map_some'] at hv
        have e1 := (find?_some h1).2
        have e2 := (find?_some h2).2
        rw [hid2, hid] at e2
        rw [hid] at e1
        rw [e1, e2]
        exact congrArg some (Option.some.inj hv)

theorem put_getElem?_other (key : α → κ) (upd : π → α → α) (mk : κ → π → α)
    (hupd : ∀ v r, key (upd v r) = key r) (hmk : ∀ k v, key (mk k v) = k)
    (w : κ × π) (T : List α) (j : Nat) (row : α) (hk : key row ≠ w.1) :
    (put key upd mk w T)[j]? = some row ↔ T[j]? = some row := by
  unfold put
  cases h : find? (fun r => decide (key r = w.1)) T with
  | some r =>
    simp only []
    rw [modifyAt_getElem?]
    have h1 := find?_some h
    have k1 : key r.val = w.1 := by simpa using h1.1
    split
    · rename_i hj
      subst hj
      rw [h1.2]
      simp only [Option.map_some', Option.some.injEq]
      constructor
      · intro he
        exact absurd (by rw [← he, hupd, k1]) hk
      · intro he
        exact absurd (by rw [← he, k1]) hk
    · rfl
  | none =>
    simp only []
    by_cases hj : j < T.length
    · rw [List.getElem?_append_left hj]
    · have hj' : T.length ≤ j := Nat.le_of_not_lt hj
      rw [List.getElem?_append_right hj', List.getElem?_eq_none hj']
      constructor
      · intro he
        have : j - T.length = 0 := by
          by_contra hne
          have : ([mk w.1 w.2] : List α)[j - T.length]? = none :=
            List.getElem?_eq_none (by simp; omega)
          rw [this] at he
          cases he
        rw [this] at he
        simp at he
        exact absurd (by rw [← he, hmk]) hk
      · intro he
        cases he

theorem puts_getElem?_other (key : α → κ) (upd : π → α → α) (mk : κ → π → α)
    (hupd : ∀ v r, key (upd v r) = key r) (hmk : ∀ k v, key (mk k v) = k)
    (W : List (κ × π)) (T : List α) (j : Nat) (row : α) (hk : ∀ w ∈ W, key row ≠ w.1) :
    (puts key upd mk W T)[j]? = some row ↔ T[j]? = some row := by
  induction W generalizing T with
  | nil => rfl
  | cons w W ih =>
    have : puts key upd mk (w :: W) T = puts key upd mk W (put key upd mk w T) := rfl
    rw [this, ih _ (fun w' hw' => hk w' (by simp [hw'])),
      put_getElem?_other key upd mk hupd hmk w T j row (hk w (by simp))]

theorem puts_find_other (key : α → κ) (upd : π → α → α) (mk : κ → π → α)
    (hupd : ∀ v r, key (upd v r) = key r) (hmk : ∀ k v, key (mk k v) = k)
    (W : List (κ × π)) (T : List α) (k : κ) (hk : ∀ w ∈ W, k ≠ w.1) :
    find? (fun r => decide (key r = k)) (puts key upd mk W T)
      = find? (fun r => decide (key r = k)) T := by
  induction W generalizing T with
  | nil => rfl
  | cons w W ih =>
    have : puts key upd mk (w :: W) T = puts key upd mk W (put key upd mk w T) := rfl
    rw [this, ih _ (fun w' hw' => hk w' (by simp [hw'])),
      put_find_other key upd mk hupd hmk w T k (hk w (by simp))]

theorem puts_find_once (key : α → κ) (upd : π → α → α) (mk : κ → π → α)
    (hupd : ∀ v r, key (upd v r) = key r) (hmk : ∀ k v, key (mk k v) = k)
    (W1 W2 : List (κ × π)) (w : κ × π) (T : List α)
    (h1 : ∀ w' ∈ W1, w.1 ≠ w'.1) (h2 : ∀ w' ∈ W2, w.1 ≠ w'.1) :
    find? (fun r => decide (key r = w.1)) (puts key upd mk (W1 ++ w :: W2) T)
      = some (match find? (fun r => decide (key r = w.1)) T with
        | some r => ⟨r.id, upd w.2 r.val⟩
        | none => ⟨(puts key upd mk W1 T).length, mk w.1 w.2⟩) := by
  rw [puts_append]
  have : puts key upd mk (w :: W2) (puts key upd mk W1 T)
      = puts key upd mk W2 (put key upd mk w (puts key upd mk W1 T)) := rfl
  rw [this, puts_find_other key upd mk hupd hmk W2 _ w.1 h2,
    put_find_same key upd mk hupd hmk, puts_find_other key upd mk hupd hmk W1 T w.1 h1]

theorem put_length_le (key : α → κ) (upd : π → α → α) (mk : κ → π → α) (w : κ × π)
    (T : List α) : T.length ≤ (put key upd mk w T).length := by
  unfold put
  split
  · rw [modifyAt_length]
  · simp

theorem puts_length_le (key : α → κ) (upd : π → α → α) (mk : κ → π → α) (W : List (κ × π))
    (T : List α) : T.length ≤ (puts key upd mk W T).length := by
  induction W generalizing T with
  | nil => exact Nat.le_refl _
  | cons w W ih =>
    have : puts key upd mk (w :: W) T = puts key upd mk W (put key upd mk w T) := rfl
    rw [this]
    exact Nat.le_trans (put_length_le key upd mk w T) (ih _)

end Table

/-! ## The base import on the SourceString table -/

theorem lastOr_idem {π : Type} (ws : List π) (d : π) : lastOr ws (lastOr ws d) = lastOr ws d := by
  cases ws <;> rfl

theorem lastOr_all {π : Type} [DecidableEq π] (ws : List π) (d : π)
    (h : ∀ w ∈ ws, w = d) : lastOr ws d = d := by
  induction ws generalizing d with
  | nil => rfl
  | cons v vs ih =>
    have hv : v = d := h v (by simp)
    subst hv
    exact ih v (fun w hw => h w (by simp [hw]))

theorem foldl_putRow_some_eq {α κ π : Type} (upd : π → α → α) (mk : κ → π → α) (k : κ)
    (ws : List π) (r : α) :
    ws.foldl (putRow upd mk k) (some r) = some (ws.foldl (fun r v => upd v r) r) := by
  induction ws generalizing r with
  | nil => rfl
  | cons v vs ih => simp only [List.foldl_cons, putRow, ih]

theorem hrow_of {α κ π : Type} (upd : π → α → α) (mk : κ → π → α)
    (h1 : ∀ (ws : List π) (r : α),
      ws.foldl (fun r v => upd v r) (ws.foldl (fun r v => upd v r) r)
        = ws.foldl (fun r v => upd v r) r)
    (h2 : ∀ (k : κ) (v : π) (ws : List π),
      (v :: ws).foldl (fun r v => upd v r) (ws.foldl (fun r v => upd v r) (mk k v))
        = ws.foldl (fun r v => upd v r) (mk k v)) :
    ∀ k (ws : List π) (o : Option α),
      ws.foldl (putRow upd mk k) (ws.foldl (putRow upd mk k) o)
        = ws.foldl (putRow upd mk k) o := by
  intro k ws o
  cases o with
  | some r => rw [foldl_putRow_some_eq, foldl_putRow_some_eq, h1]
  | none =>
    cases ws with
    | nil => rfl
    | cons v vs =>
      have e : (v :: vs).foldl (putRow upd mk k) none
          = some (vs.foldl (fun r v => upd v r) (mk k v)) := by
        simp only [List.foldl_cons, putRow, foldl_putRow_some_eq]
      rw [e, foldl_putRow_some_eq, h2 k v vs]

theorem supd_fold (ver : Int) (ws : List String) (r : StringRow) :
    ws.foldl (fun r v => supd ver v r) r
      = { r with value := lastOr ws r.value,
                 version := if ∀ w ∈ ws, w = r.value then r.version else ver } := by
  induction ws generalizing r with
  | nil => simp [lastOr]
  | cons v vs ih =>
    simp only [List.foldl_cons, ih]
    by_cases hv : r.value = v
    · subst hv
      simp [supd, lastOr]
    · have hv' : ¬ v = r.value := fun h => hv h.symm
      simp [supd, hv, hv', lastOr]

theorem supd_replay (ver : Int) :
    ∀ k (ws : List String) (o : Option StringRow),
      ws.foldl (putRow (supd ver) (smk ver) k) (ws.foldl (putRow (supd ver) (smk ver) k) o)
        = ws.foldl (putRow (supd ver) (smk ver) k) o := by
  apply hrow_of
  · intro ws r
    rw [supd_fold ver ws r, supd_fold]
    simp only [lastOr_idem]
    by_cases hall : ∀ w ∈ ws, w = r.value
    · have hl := lastOr_all ws r.value hall
      simp only [hl, if_pos hall]
    · simp only [if_neg hall, ite_self]
  · intro k v ws
    rw [supd_fold ver ws, supd_fold]
    simp only [smk, ite_self]
    cases ws with
    | nil => simp [lastOr]
    | cons w ws => simp [lastOr]

theorem tupd_fold (ws : List String) (r : TransRow) :
    ws.foldl (fun r v => tupd v r) r = { r with value := lastOr ws r.value } := by
  induction ws generalizing r with
  | nil => simp [lastOr]
  | cons v vs ih =>
    rw [List.foldl_cons, ih]
    simp [tupd, lastOr]

theorem tupd_replay :
    ∀ k (ws : List String) (o : Option TransRow),
      ws.foldl (putRow tupd tmk k) (ws.foldl (putRow tupd tmk k) o)
        = ws.foldl (putRow tupd tmk k) o := by
  apply hrow_of
  · intro ws r
    rw [tupd_fold ws r, tupd_fold]
    simp [lastOr_idem]
  · intro k v ws
    rw [tupd_fold ws, tupd_fold]
    cases ws <;> simp [tmk, lastOr]

theorem stringKey_eq (fid o : Nat) (i : String) :
    stringKey fid o i = fun r => decide (skey r = (fid, o, i)) := by
  funext r
  simp [stringKey, skey]

theorem transKey_eq (t s : Nat) : transKey t s = fun r => decide (tkey r = (t, s)) := by
  funext r
  simp [transKey, tkey]

theorem skey_supd (ver : Int) (v : String) (r : StringRow) : skey (supd ver v r) = skey r := by
  unfold supd
  split <;> rfl

theorem importPair_base (env : Env) (fl : Flags) (f : File) (p : Pair) (c : String → Nat)
    (tr : Option Translation) (st : St) (hf : ∀ n, env.fails n = false)
    (hb : fl.flagTrans = "") :
    (importPair env fl f p c tr st).2 = (bump c p.identifier, tr, Flow.next) ∧
    (importPair env fl f p c tr st).1.db = { st.db with
      strings := put skey (supd fl.flagImport) (smk fl.flagImport)
        ((f.id, c p.identifier, p.identifier), p.string) st.db.strings } ∧
    (importPair env fl f p c tr st).1.inTx = st.inTx ∧
    (st.inTx = true → (importPair env fl f p c tr st).1.durable = st.durable) := by
  rw [importPair_eq]
  simp only [queryString_snd, hf, Bool.false_eq_true, if_false]
  unfold put
  rw [← stringKey_eq]
  cases hq : find? (stringKey f.id (c p.identifier) p.identifier) st.db.strings with
  | none =>
    simp [hb, hf, smk]
    intro h
    simp [h]
  | some s =>
    have hs := (find?_some hq).2
    simp only []
    by_cases hv : s.val.value = p.string
    · have : modifyAt (supd fl.flagImport p.string) s.id st.db.strings = st.db.strings := by
        apply modifyAt_self
        intro r hr
        rw [hs] at hr
        cases hr
        simp [supd, hv]
      rw [this]
      simp [hv]
    · simp only [hv, if_false, hb, ne_eq, not_true_eq_false]
      have : modifyAt (supd fl.flagImport p.string) s.id st.db.strings
          = modifyAt (fun r => { r with value := p.string, version := fl.flagImport }) s.id
              st.db.strings := by
        apply modifyAt_congr
        intro r hr
        rw [hs] at hr
        cases hr
        simp [supd, hv]
      rw [this]
      simp [hf]
      intro h
      simp [h]

theorem importPairs_base (env : Env) (fl : Flags) (f : File) (pairs : List Pair)
    (c : String → Nat) (tr : Option Translation) (st : St) (hf : ∀ n, env.fails n = false)
    (hb : fl.flagTrans = "") :
    (importPairs env fl f pairs c tr st).2.2 = (tr, Flow.next) ∧
    (importPairs env fl f pairs c tr st).1.db = { st.db with
      strings := puts skey (supd fl.flagImport) (smk fl.flagImport)
        (fileWrites f.id pairs c) st.db.strings } ∧
    (importPairs env fl f pairs c tr st).1.inTx = st.inTx ∧
    (st.inTx = true → (importPairs env fl f pairs c tr st).1.durable = st.durable) := by
  induction pairs generalizing c st with
  | nil => simp [importPairs, fileWrites, puts]
  | cons p ps ih =>
    obtain ⟨h1, h2, h3, h4⟩ := importPair_base env fl f p c tr st hf hb
    have hn : (importPair env fl f p c tr st).2.2.2 = Flow.next := by rw [h1]
    have hc : (importPair env fl f p c tr st).2.1 = bump c p.identifier := by rw [h1]
    have ht : (importPair env fl f p c tr st).2.2.1 = tr := by rw [h1]
    rw [importPairs_cons, if_pos hn, hc, ht]
    obtain ⟨g1, g2, g3, g4⟩ := ih (bump c p.identifier) (importPair env fl f p c tr st).1
    refine ⟨g1, ?_, g3.trans h3, ?_⟩
    · rw [g2, h2]
      rfl
    · intro hin
      rw [g4 (h3.trans hin), h4 hin]

theorem importStrings_base (env : Env) (fl : Flags) (f : File) (pairs : List Pair)
    (tr : Option Translation) (st : St) (hf : ∀ n, env.fails n = false)
    (hb : fl.flagTrans = "") :
    (importStrings env fl f pairs tr st).2 = tr ∧
    (importStrings env fl f pairs tr st).1.db = { st.db with
      strings := puts skey (supd fl.flagImport) (smk fl.flagImport)
        (fileWrites f.id pairs (fun _ => 0)) st.db.strings } ∧
    (importStrings env fl f pairs tr st).1.inTx = false ∧
    (importStrings env fl f pairs tr st).1.durable = (importStrings env fl f pairs tr st).1.db := by
  obtain ⟨g1, g2, _, _⟩ := importPairs_base env fl f pairs (fun _ => 0) tr (dbBegin st) hf hb
  rw [importStrings_eq]
  refine ⟨by rw [g1], ?_, rfl, rfl⟩
  simp only [dbEnd_db, g2, dbBegin_db]

theorem fileWrites_append (fid : Nat) (a b : List Pair) (c : String → Nat) :
    fileWrites fid (a ++ b) c = fileWrites fid a c ++ fileWrites fid b
      (fun k => c k + (a.filter (fun q => decide (q.identifier = k))).length) := by
  induction a generalizing c with
  | nil => simp [fileWrites]
  | cons p ps ih =>
    have hfun : (fun k => bump c p.identifier k
          + (ps.filter (fun q => decide (q.identifier = k))).length)
        = fun k => c k + ((p :: ps).filter (fun q => decide (q.identifier = k))).length := by
      funext k
      by_cases hk : p.identifier = k
      · subst hk
        simp [bump, List.filter_cons]
        omega
      · have hk' : ¬ k = p.identifier := fun h => hk h.symm
        simp [bump, List.filter_cons, hk, hk']
    rw [List.cons_append, fileWrites, fileWrites, ih, hfun]
    rfl

theorem fileWrites_bounds (fid : Nat) (ps : List Pair) (c : String → Nat) :
    ∀ w ∈ fileWrites fid ps c, w.1.1 = fid ∧ c w.1.2.2 ≤ w.1.2.1 ∧
      w.1.2.1 < c w.1.2.2 + (ps.filter (fun q => decide (q.identifier = w.1.2.2))).length := by
  induction ps generalizing c with
  | nil => simp [fileWrites]
  | cons p ps ih =>
    intro w hw
    simp only [fileWrites, List.mem_cons] at hw
    rcases hw with rfl | hw
    · simp [List.filter_cons]
    · obtain ⟨h1, h2, h3⟩ := ih (bump c p.identifier) w hw
      refine ⟨h1, ?_, ?_⟩
      · by_cases hk : w.1.2.2 = p.identifier
        · simp [bump, hk] at h2 ⊢
          omega
        · simpa [bump, hk] using h2
      · by_cases hk : w.1.2.2 = p.identifier
        · simp [bump, hk, List.filter_cons] at h3 ⊢
          omega
        · have hk' : ¬ p.identifier = w.1.2.2 := fun h => hk h.symm
          simpa [bump, hk, hk', List.filter_cons] using h3

theorem fileWrites_mem (fid : Nat) (ps : List Pair) (c : String → Nat) :
    ∀ w ∈ fileWrites fid ps c, ∃ pre q post, ps = pre ++ q :: post ∧
      w = ((fid, c q.identifier
          + (pre.filter (fun x => decide (x.identifier = q.identifier))).length, q.identifier),
        q.string) := by
  induction ps generalizing c with
  | nil => simp [fileWrites]
  | cons p ps ih =>
    intro w hw
    simp only [fileWrites, List.mem_cons] at hw
    rcases hw with rfl | hw
    · exact ⟨[], p, ps, rfl, by simp⟩
    · obtain ⟨pre, q, post, h1, h2⟩ := ih (bump c p.identifier) w hw
      refine ⟨p :: pre, q, post, by rw [h1]; rfl, ?_⟩
      rw [h2]
      by_cases hk : p.identifier = q.identifier
      · simp [bump, hk, List.filter_cons]
        omega
      · have hk' : ¬ q.identifier = p.identifier := fun h => hk h.symm
        simp [bump, hk, hk', List.filter_cons]

/-- C4: a base-mode import of the pairs of one file in which no storage call fails. For the
pair `p` that follows the pairs `pre`, with its ordinal `o` (the number of pairs of `pre` with
the same identifier), the store afterwards holds under the key (File, o, identifier) a
SourceString with the value of `p`: the row inserted with the run's import version when the
key was absent, the stored row with value and version rewritten when its value differed, the
untouched stored row when the value was equal. A row whose key is not the key of any pair of
the file sits unchanged at its position, no other such row appears, the other tables are
unchanged, and everything is committed. -/
theorem importStrings_base_effect (env : Env) (fl : Flags) (f : File) (pre : List Pair)
    (p : Pair) (post : List Pair) (tr : Option Translation) (st : St)
    (hf : ∀ n, env.fails n = false) (hb : fl.flagTrans = "") :
    let out := (importStrings env fl f (pre ++ p :: post) tr st).1
    let o := (pre.filter (fun q => decide (q.identifier = p.identifier))).length
    (∃ s, find? (stringKey f.id o p.identifier) out.db.strings = some s ∧
        s.val.value = p.string ∧
        (find? (stringKey f.id o p.identifier) st.db.strings = none →
          s.val = ⟨f.id, o, p.identifier, p.string, fl.flagImport⟩ ∧
            st.db.strings.length ≤ s.id) ∧
        (∀ s0, find? (stringKey f.id o p.identifier) st.db.strings = some s0 →
          s0.val.value ≠ p.string →
          s = ⟨s0.id, { s0.val with value := p.string, version := fl.flagImport }⟩) ∧
        (∀ s0, find? (stringKey f.id o p.identifier) st.db.strings = some s0 →
          s0.val.value = p.string → s = s0))
      ∧ (∀ (j : Nat) (row : StringRow),
          (∀ pre' q post', pre ++ p :: post = pre' ++ q :: post' →
            skey row ≠ (f.id,
              (pre'.filter (fun x => decide (x.identifier = q.identifier))).length,
              q.identifier)) →
          (out.db.strings[j]? = some row ↔ st.db.strings[j]? = some row))
      ∧ out.db.archives = st.db.archives ∧ out.db.files = st.db.files
      ∧ out.db.translations = st.db.translations ∧ out.db.tstrings = st.db.tstrings
      ∧ out.durable = out.db := by
  intro out o
  obtain ⟨_, hdb, _, hdur⟩ := importStrings_base env fl f (pre ++ p :: post) tr st hf hb
  have hstr : out.db.strings = puts skey (supd fl.flagImport) (smk fl.flagImport)
      (fileWrites f.id (pre ++ p :: post) (fun _ => 0)) st.db.strings := by
    show (importStrings env fl f (pre ++ p :: post) tr st).1.db.strings = _
    rw [hdb]
  have hW : fileWrites f.id (pre ++ p :: post) (fun _ => 0)
      = fileWrites f.id pre (fun _ => 0) ++ ((f.id, o, p.identifier), p.string) ::
          fileWrites f.id post (bump (fun k => 0 +
            (pre.filter (fun q => decide (q.identifier = k))).length) p.identifier) := by
    rw [fileWrites_append, fileWrites]
    simp only [Nat.zero_add]
  have h1 : ∀ w' ∈ fileWrites f.id pre (fun _ => 0),
      (((f.id, o, p.identifier), p.string) : (Nat × Nat × String) × String).1 ≠ w'.1 := by
    intro w' hw' he
    obtain ⟨_, _, b3⟩ := fileWrites_bounds f.id pre (fun _ => 0) w' hw'
    have e1 : w'.1.2.1 = o := by rw [← he]
    have e2 : w'.1.2.2 = p.identifier := by rw [← he]
    rw [e2, e1] at b3
    simp only [Nat.zero_add] at b3
    exact Nat.lt_irrefl _ b3
  have h2 : ∀ w' ∈ fileWrites f.id post (bump (fun k => 0 +
        (pre.filter (fun q => decide (q.identifier = k))).length) p.identifier),
      (((f.id, o, p.identifier), p.string) : (Nat × Nat × String) × String).1 ≠ w'.1 := by
    intro w' hw' he
    obtain ⟨_, b2, _⟩ := fileWrites_bounds f.id post _ w' hw'
    have e1 : w'.1.2.1 = o := by rw [← he]
    have e2 : w'.1.2.2 = p.identifier := by rw [← he]
    rw [e2, e1] at b2
    simp [bump] at b2
  have hfind := puts_find_once skey (supd fl.flagImport) (smk fl.flagImport)
    (skey_supd fl.flagImport) (fun _ _ => rfl) _ _ ((f.id, o, p.identifier), p.string)
    st.db.strings h1 h2
  rw [← hW, ← hstr, ← stringKey_eq] at hfind
  refine ⟨?_, ?_, ?_, ?_, ?_, ?_, hdur⟩
  · refine ⟨_, hfind, ?_, ?_, ?_, ?_⟩
    · cases hq : find? (stringKey f.id o p.identifier) st.db.strings with
      | none => rfl
      | some s0 =>
        simp only [supd]
        split <;> simp_all
    · intro hn
      rw [hn]
      exact ⟨rfl, puts_length_le _ _ _ _ _⟩
    · intro s0 hs0 hv
      rw [hs0]
      simp [supd, hv]
    · intro s0 hs0 hv
      rw [hs0]
      simp [supd, hv]
  · intro j row hrow
    rw [hstr]
    apply puts_getElem?_other skey (supd fl.flagImport) (smk fl.flagImport)
      (skey_supd fl.flagImport) (fun _ _ => rfl)
    intro w hw he
    obtain ⟨pre', q, post', hsplit, hwq⟩ := fileWrites_mem f.id _ _ w hw
    apply hrow pre' q post' hsplit
    rw [he, hwq]
    simp
  · show (importStrings env fl f (pre ++ p :: post) tr st).1.db.archives = _
    rw [hdb]
  · show (importStrings env fl f (pre ++ p :: post) tr st).1.db.files = _
    rw [hdb]
  · show (importStrings env fl f (pre ++ p :: post) tr st).1.db.translations = _
    rw [hdb]
  · show (importStrings env fl f (pre ++ p :: post) tr st).1.db.tstrings = _
    rw [hdb]

theorem importStrings_base_effect_witness :
    ∃ s, find? (stringKey file0.id
          (([⟨"GREET", "hello"⟩].filter
            (fun q : Pair => decide (q.identifier = "GREET"))).length) "GREET")
        (importStrings quietEnv baseFlags file0 ([⟨"GREET", "hello"⟩] ++ ⟨"GREET", "hi"⟩ ::
          [⟨"BYE", "bye"⟩]) none (St.init uiStore)).1.db.strings = some s ∧
      s.val.value = "hi" :=
  have h := (importStrings_base_effect quietEnv baseFlags file0 [⟨"GREET", "hello"⟩]
    ⟨"GREET", "hi"⟩ [⟨"BYE", "bye"⟩] none (St.init uiStore) (fun _ => rfl) rfl).1
  ⟨h.choose, h.choose_spec.1, h.choose_spec.2.1⟩

/-! ## Resolution is stable under a second run -/

theorem find?_append_some {α : Type} (p : α → Bool) (T X : List α) (r : Ref α)
    (h : find? p T = some r) : find? p (T ++ X) = some r := by
  induction T generalizing r with
  | nil => simp [find?] at h
  | cons x xs ih =>
    rw [List.cons_append, find?_cons]
    rw [find?_cons] at h
    by_cases hp : p x = true
    · simpa [hp] using h
    · simp only [hp, Bool.false_eq_true, if_false] at h ⊢
      cases hq : find? p xs with
      | none => simp [hq] at h
      | some r' =>
        rw [ih r' hq]
        simpa [hq] using h

theorem find?_append_none {α : Type} (p : α → Bool) (T X : List α) (row : α)
    (h : find? p T = none) (hp : p row = true) :
    find? p (T ++ row :: X) = some ⟨T.length, row⟩ := by
  induction T with
  | nil => simp [find?, hp]
  | cons x xs ih =>
    rw [find?_cons] at h
    by_cases hx : p x = true
    · simp [hx] at h
    · simp only [hx, Bool.false_eq_true, if_false, Option.map_eq_none'] at h
      rw [List.cons_append, find?_cons, ih h]
      simp [hx]

theorem ensure_grows {α : Type} (p : α → Bool) (row : α) (T : List α) :
    T <+: (ensure p row T).1 := by
  unfold ensure
  split
  · exact List.prefix_refl _
  · exact List.prefix_append _ _

/-- A get-or-create that ran on a table finds its row again on every extension of the
result. -/
theorem ensure_stable {α : Type} (p : α → Bool) (row : α) (T T2 : List α)
    (hp : p row = true) (h : (ensure p row T).1 <+: T2) :
    ensure p row T2 = (T2, (ensure p row T).2) := by
  obtain ⟨X, rfl⟩ := h
  unfold ensure
  cases hq : find? p T with
  | some r => simp only [find?_append_some p T X r hq]
  | none =>
    simp only [List.append_assoc, List.singleton_append]
    rw [find?_append_none p T X row hq hp]

theorem ensureArchive_grows (aname : ArchiveName) (a : Option Archive) (A : List ArchiveName) :
    A <+: (ensureArchive aname a A).1 := by
  cases a with
  | some x => exact List.prefix_refl _
  | none => exact ensure_grows _ _ _

theorem ensureArchive_stable (aname : ArchiveName) (a : Option Archive)
    (A A2 : List ArchiveName) (h : (ensureArchive aname a A).1 <+: A2) :
    ensureArchive aname a A2 = (A2, (ensureArchive aname a A).2) := by
  cases a with
  | some x => rfl
  | none => exact ensure_stable _ _ _ _ (by simp [archiveKey]) h

theorem ensureFile_grows (x : Archive) (n : String) (F : List FileRow) :
    F <+: (ensureFile x n F).1 := ensure_grows _ _ _

theorem ensureFile_stable (x : Archive) (n : String) (F F2 : List FileRow)
    (h : (ensureFile x n F).1 <+: F2) : ensureFile x n F2 = (F2, (ensureFile x n F).2) :=
  ensure_stable _ _ _ _ (by simp [fileKey]) h

theorem ensureTranslation_stable (name : String) (tr : Option Translation)
    (T T2 : List String) (h : (ensureTranslation name tr T).1 <+: T2) :
    ensureTranslation name tr T2 = (T2, (ensureTranslation name tr T).2) := by
  cases tr with
  | some x => rfl
  | none => exact ensure_stable _ _ _ _ (by simp [translationKey]) h

theorem jobs_nil (aname : ArchiveName) (a : Option Archive) (A : List ArchiveName)
    (F : List FileRow) : jobs aname [] a A F = ([], a, A, F) := rfl

theorem jobs_skip (aname : ArchiveName) (file : ArchiveFile) (rest : List ArchiveFile)
    (a : Option Archive) (A : List ArchiveName) (F : List FileRow)
    (h : file.type ≠ "text" ∨ ∃ e, file.text = .error e) :
    jobs aname (file :: rest) a A F = jobs aname rest a A F := by
  rw [jobs]
  rcases h with h | ⟨e, h⟩
  · rw [if_neg h]
  · rw [h]
    simp

theorem jobs_text (aname : ArchiveName) (file : ArchiveFile) (rest : List ArchiveFile)
    (a : Option Archive) (A : List ArchiveName) (F : List FileRow) (pairs : List Pair)
    (h : file.type = "text") (ht : file.text = .ok pairs) :
    jobs aname (file :: rest) a A F
      = (((ensureFile (ensureArchive aname a A).2 file.name F).2, pairs) ::
          (jobs aname rest (some (ensureArchive aname a A).2) (ensureArchive aname a A).1
            (ensureFile (ensureArchive aname a A).2 file.name F).1).1,
        (jobs aname rest (some (ensureArchive aname a A).2) (ensureArchive aname a A).1
            (ensureFile (ensureArchive aname a A).2 file.name F).1).2) := by
  rw [jobs, if_pos h, ht]

theorem ArchiveFile.cases (file : ArchiveFile) :
    (file.type ≠ "text" ∨ ∃ e, file.text = .error e) ∨
      (file.type = "text" ∧ ∃ pairs, file.text = .ok pairs) := by
  by_cases h : file.type = "text"
  · cases ht : file.text with
    | error e => exact Or.inl (Or.inr ⟨e, rfl⟩)
    | ok pairs => exact Or.inr ⟨h, pairs, rfl⟩
  · exact Or.inl (Or.inl h)

theorem jobs_grows (aname : ArchiveName) (files : List ArchiveFile) (a : Option Archive)
    (A : List ArchiveName) (F : List FileRow) :
    A <+: (jobs aname files a A F).2.2.1 ∧ F <+: (jobs aname files a A F).2.2.2 := by
  induction files generalizing a A F with
  | nil => exact ⟨List.prefix_refl _, List.prefix_refl _⟩
  | cons file rest ih =>
    rcases file.cases with h | ⟨h, pairs, ht⟩
    · rw [jobs_skip aname file rest a A F h]
      exact ih a A F
    · rw [jobs_text aname file rest a A F pairs h ht]
      obtain ⟨h1, h2⟩ := ih (some (ensureArchive aname a A).2) (ensureArchive aname a A).1
        (ensureFile (ensureArchive aname a A).2 file.name F).1
      exact ⟨(ensureArchive_grows aname a A).trans h1, (ensureFile_grows _ _ _).trans h2⟩

/-- On tables that extend the tables a first pass left, a second pass resolves every text
file to the same File row, ends with the same Archive handle, and adds no row. -/
theorem jobs_stable (aname : ArchiveName) (files : List ArchiveFile) (a : Option Archive)
    (A : List ArchiveName) (F : List FileRow) (A2 : List ArchiveName) (F2 : List FileRow)
    (hA : (jobs aname files a A F).2.2.1 <+: A2) (hF : (jobs aname files a A F).2.2.2 <+: F2) :
    jobs aname files a A2 F2
      = ((jobs aname files a A F).1, (jobs aname files a A F).2.1, A2, F2) := by
  induction files generalizing a A F with
  | nil => rfl
  | cons file rest ih =>
    rcases file.cases with h | ⟨h, pairs, ht⟩
    · rw [jobs_skip aname file rest a A F h] at hA hF ⊢
      rw [jobs_skip aname file rest a A2 F2 h]
      exact ih a A F hA hF
    · rw [jobs_text aname file rest a A F pairs h ht] at hA hF ⊢
      rw [jobs_text aname file rest a A2 F2 pairs h ht]
      have p := jobs_grows aname rest (some (ensureArchive aname a A).2)
        (ensureArchive aname a A).1 (ensureFile (ensureArchive aname a A).2 file.name F).1
      rw [ensureArchive_stable aname a A A2 (p.1.trans hA)]
      simp only []
      rw [ensureFile_stable _ file.name F F2 (p.2.trans hF)]
      simp only []
      rw [ih (some (ensureArchive aname a A).2) (ensureArchive aname a A).1
        (ensureFile (ensureArchive aname a A).2 file.name F).1 hA hF]

/-! ## A run without storage failures, table by table -/

theorem insertArchive_ok (env : Env) (aname : ArchiveName) (st : St)
    (hf : ∀ n, env.fails n = false) :
    insertArchive env aname st
      = ((st.log (.insertArchive aname)).mutate
          { st.db with archives := st.db.archives ++ [aname] },
        .ok ⟨st.db.archives.length, aname⟩) := by
  unfold insertArchive
  simp [hf]

theorem insertFile_ok (env : Env) (a : Archive) (name : String) (st : St)
    (hf : ∀ n, env.fails n = false) :
    insertFile env a name st
      = ((st.log (.insertFile a name)).mutate
          { st.db with files := st.db.files ++ [⟨a.id, name⟩] },
        .ok ⟨st.db.files.length, ⟨a.id, name⟩⟩) := by
  unfold insertFile
  simp [hf]

theorem insertTranslation_ok (env : Env) (name : String) (st : St)
    (hf : ∀ n, env.fails n = false) :
    insertTranslation env name st
      = ((st.log (.insertTranslation name)).mutate
          { st.db with translations := st.db.translations ++ [name] },
        .ok ⟨st.db.translations.length, name⟩) := by
  unfold insertTranslation
  simp [hf]

theorem resolveArchive_ok (env : Env) (name : String) (aname : ArchiveName)
    (a : Option Archive) (st : St) (hf : ∀ n, env.fails n = false) :
    (resolveArchive env name aname a st).2 = some (ensureArchive aname a st.db.archives).2 ∧
    (resolveArchive env name aname a st).1.db
      = { st.db with archives := (ensureArchive aname a st.db.archives).1 } ∧
    (resolveArchive env name aname a st).1.inTx = st.inTx ∧
    (st.inTx = false → st.durable = st.db →
      (resolveArchive env name aname a st).1.durable
        = (resolveArchive env name aname a st).1.db) := by
  cases a with
  | some x => exact ⟨rfl, rfl, rfl, fun _ h => h⟩
  | none =>
    unfold resolveArchive ensureArchive ensure
    simp only []
    cases hq : find? (archiveKey aname) st.db.archives with
    | some r => simp [hf, hq]
    | none =>
      simp [hf, hq, insertArchive_ok]
      intro h1 h2
      simp [h1]

theorem resolveFile_ok (env : Env) (x : Archive) (n : String) (st : St)
    (hf : ∀ n, env.fails n = false) :
    (resolveFile env x n st).2 = some (ensureFile x n st.db.files).2 ∧
    (resolveFile env x n st).1.db = { st.db with files := (ensureFile x n st.db.files).1 } ∧
    (resolveFile env x n st).1.inTx = st.inTx ∧
    (st.inTx = false → st.durable = st.db →
      (resolveFile env x n st).1.durable = (resolveFile env x n st).1.db) := by
  unfold resolveFile ensureFile ensure
  simp only []
  cases hq : find? (fileKey x.id n) st.db.files with
  | some r => simp [hf, hq]
  | none =>
    simp [hf, hq, insertFile_ok]
    intro h1 h2
    simp [h1]

theorem importFile_skip (env : Env) (fl : Flags) (name : String) (aname : ArchiveName)
    (file : ArchiveFile) (a : Option Archive) (tr : Option Translation) (st : St)
    (h : file.type ≠ "text" ∨ ∃ e, file.text = .error e) :
    (importFile env fl name aname file a tr st).2 = (a, tr) ∧
    (importFile env fl name aname file a tr st).1.db = st.db ∧
    (importFile env fl name aname file a tr st).1.inTx = st.inTx ∧
    (importFile env fl name aname file a tr st).1.durable = st.durable := by
  unfold importFile
  rcases h with h | ⟨e, h⟩
  · rw [if_neg h]
    exact ⟨rfl, rfl, rfl, rfl⟩
  · rw [h]
    split <;> exact ⟨rfl, rfl, rfl, rfl⟩

theorem importFile_text (env : Env) (fl : Flags) (name : String) (aname : ArchiveName)
    (file : ArchiveFile) (a : Option Archive) (tr : Option Translation) (st : St)
    (pairs : List Pair) (hf : ∀ n, env.fails n = false)
    (h : file.type = "text") (ht : file.text = .ok pairs) :
    importFile env fl name aname file a tr st
      = ((importStrings env fl
            (ensureFile (ensureArchive aname a st.db.archives).2 file.name st.db.files).2 pairs tr
            (resolveFile env (ensureArchive aname a st.db.archives).2 file.name
              (resolveArchive env name aname a st).1).1).1,
          some (ensureArchive aname a st.db.archives).2,
          (importStrings env fl
            (ensureFile (ensureArchive aname a st.db.archives).2 file.name st.db.files).2 pairs tr
            (resolveFile env (ensureArchive aname a st.db.archives).2 file.name
              (resolveArchive env name aname a st).1).1).2) := by
  obtain ⟨a1, a2, _, _⟩ := resolveArchive_ok env name aname a st hf
  have ea : resolveArchive env name aname a st
      = ((resolveArchive env name aname a st).1, some (ensureArchive aname a st.db.archives).2) :=
    Prod.ext rfl a1
  obtain ⟨f1, _, _, _⟩ := resolveFile_ok env (ensureArchive aname a st.db.archives).2 file.name
    (resolveArchive env name aname a st).1 hf
  have hfiles : (resolveArchive env name aname a st).1.db.files = st.db.files := by rw [a2]
  rw [hfiles] at f1
  have ef : resolveFile env (ensureArchive aname a st.db.archives).2 file.name
        (resolveArchive env name aname a st).1
      = ((resolveFile env (ensureArchive aname a st.db.archives).2 file.name
          (resolveArchive env name aname a st).1).1,
        some (ensureFile (ensureArchive aname a st.db.archives).2 file.name st.db.files).2) :=
    Prod.ext rfl f1
  unfold importFile
  rw [if_pos h, ht]
  simp only []
  generalize resolveArchive env name aname a st = ra at ea ef ⊢
  rw [ea]
  simp only []
  generalize resolveFile env (ensureArchive aname a st.db.archives).2 file.name ra.1 = rf at ef ⊢
  rw [ef]

theorem importGroup_cons (env : Env) (fl : Flags) (name : String) (aname : ArchiveName)
    (file : ArchiveFile) (rest : List ArchiveFile) (a : Option Archive)
    (tr : Option Translation) (st : St) :
    importGroup env fl name aname (file :: rest) a tr st
      = importGroup env fl name aname rest (importFile env fl name aname file a tr st).2.1
          (importFile env fl name aname file a tr st).2.2
          (importFile env fl name aname file a tr st).1 := by
  rw [importGroup]

theorem importGroup_append (env : Env) (fl : Flags) (name : String) (aname : ArchiveName)
    (xs ys : List ArchiveFile) (a : Option Archive) (tr : Option Translation) (st : St) :
    importGroup env fl name aname (xs ++ ys) a tr st
      = importGroup env fl name aname ys (importGroup env fl name aname xs a tr st).2.1
          (importGroup env fl name aname xs a tr st).2.2
          (importGroup env fl name aname xs a tr st).1 := by
  induction xs generalizing a tr st with
  | nil => rfl
  | cons x xs ih => rw [List.cons_append, importGroup_cons, importGroup_cons, ih]

/-- The loop over the groups runs the file loop over all files of the archive in order. -/
theorem importGroups_join (env : Env) (fl : Flags) (name : String) (aname : ArchiveName)
    (groups : List (List ArchiveFile)) (a : Option Archive) (tr : Option Translation)
    (st : St) :
    importGroups env fl name aname groups a tr st
      = importGroup env fl name aname groups.flatten a tr st := by
  induction groups generalizing a tr st with
  | nil => rfl
  | cons g gs ih =>
    rw [List.flatten_cons, importGroup_append, ← ih]
    rw [importGroups]

/-- The state in which the pair loop of a decoded text file starts, when no storage call
fails: the Archive and the File row are resolved, and everything is committed. -/
theorem importFile_text_state (env : Env) (name : String) (aname : ArchiveName)
    (n : String) (a : Option Archive) (st : St) (hf : ∀ n, env.fails n = false)
    (hin : st.inTx = false) (hd : st.durable = st.db) :
    (resolveFile env (ensureArchive aname a st.db.archives).2 n
        (resolveArchive env name aname a st).1).1.db
      = { st.db with
          archives := (ensureArchive aname a st.db.archives).1,
          files := (ensureFile (ensureArchive aname a st.db.archives).2 n st.db.files).1 } ∧
    (resolveFile env (ensureArchive aname a st.db.archives).2 n
        (resolveArchive env name aname a st).1).1.inTx = false ∧
    (resolveFile env (ensureArchive aname a st.db.archives).2 n
        (resolveArchive env name aname a st).1).1.durable
      = (resolveFile env (ensureArchive aname a st.db.archives).2 n
        (resolveArchive env name aname a st).1).1.db := by
  obtain ⟨_, a2, a3, a4⟩ := resolveArchive_ok env name aname a st hf
  obtain ⟨_, f2, f3, f4⟩ := resolveFile_ok env (ensureArchive aname a st.db.archives).2 n
    (resolveArchive env name aname a st).1 hf
  refine ⟨?_, by rw [f3, a3, hin], f4 (a3.trans hin) (a4 hin hd)⟩
  rw [f2, a2]

theorem jobWrites_cons (j : File × List Pair) (js : List (File × List Pair)) :
    jobWrites (j :: js) = fileWrites j.1.id j.2 (fun _ => 0) ++ jobWrites js := by
  simp [jobWrites]

theorem importGroup_base (env : Env) (fl : Flags) (name : String) (aname : ArchiveName)
    (files : List ArchiveFile) (a : Option Archive) (tr : Option Translation) (st : St)
    (hf : ∀ n, env.fails n = false) (hb : fl.flagTrans = "")
    (hin : st.inTx = false) (hd : st.durable = st.db) :
    (importGroup env fl name aname files a tr st).2
      = ((jobs aname files a st.db.archives st.db.files).2.1, tr) ∧
    (importGroup env fl name aname files a tr st).1.db
      = { st.db with
          archives := (jobs aname files a st.db.archives st.db.files).2.2.1,
          files := (jobs aname files a st.db.archives st.db.files).2.2.2,
          strings := puts skey (supd fl.flagImport) (smk fl.flagImport)
            (jobWrites (jobs aname files a st.db.archives st.db.files).1) st.db.strings } ∧
    (importGroup env fl name aname files a tr st).1.inTx = false ∧
    (importGroup env fl name aname files a tr st).1.durable
      = (importGroup env fl name aname files a tr st).1.db := by
  induction files generalizing a st with
  | nil => exact ⟨rfl, rfl, hin, hd⟩
  | cons file rest ih =>
    rw [importGroup_cons]
    rcases file.cases with h | ⟨h, pairs, ht⟩
    · obtain ⟨s1, s2, s3, s4⟩ := importFile_skip env fl name aname file a tr st h
      have e1 : (importFile env fl name aname file a tr st).2.1 = a := by rw [s1]
      have e2 : (importFile env fl name aname file a tr st).2.2 = tr := by rw [s1]
      rw [e1, e2, jobs_skip aname file rest a _ _ h]
      have := ih a (importFile env fl name aname file a tr st).1 (s3.trans hin)
        (by rw [s4, s2, hd])
      rw [s2] at this
      exact this
    · rw [importFile_text env fl name aname file a tr st pairs hf h ht,
        jobs_text aname file rest a _ _ pairs h ht]
      obtain ⟨t1, t2, t3⟩ := importFile_text_state env name aname file.name a st hf hin hd
      obtain ⟨b1, b2, b3, b4⟩ := importStrings_base env fl
        (ensureFile (ensureArchive aname a st.db.archives).2 file.name st.db.files).2 pairs tr
        (resolveFile env (ensureArchive aname a st.db.archives).2 file.name
          (resolveArchive env name aname a st).1).1 hf hb
      simp only []
      rw [b1]
      have := ih (some (ensureArchive aname a st.db.archives).2) _ b3 b4
      rw [b2, t1] at this
      simp only [] at this
      refine ⟨this.1, ?_, this.2.2⟩
      rw [this.2.1, jobWrites_cons, puts_append]

/-! ### Translation mode -/

theorem resolveTranslation_ok (env : Env) (name : String) (tr : Option Translation) (st : St)
    (hf : ∀ n, env.fails n = false) :
    (resolveTranslation env name tr st).2
      = some (ensureTranslation name tr st.db.translations).2 ∧
    (resolveTranslation env name tr st).1.db
      = { st.db with translations := (ensureTranslation name tr st.db.translations).1 } ∧
    (resolveTranslation env name tr st).1.inTx = st.inTx ∧
    (st.inTx = true → (resolveTranslation env name tr st).1.durable = st.durable) := by
  cases tr with
  | some x => exact ⟨rfl, rfl, rfl, fun _ => rfl⟩
  | none =>
    unfold resolveTranslation ensureTranslation ensure
    simp only []
    cases hq : find? (translationKey name) st.db.translations with
    | some r => simp [hf, hq]
    | none =>
      simp [hf, hq, insertTranslation_ok]
      intro h1
      simp [h1]

theorem upsert_ok (env : Env) (t : Translation) (s : SourceString) (v : String) (st : St)
    (hf : ∀ n, env.fails n = false) :
    (upsertTranslationString env t s v st).2 = none ∧
    (upsertTranslationString env t s v st).1.db
      = { st.db with tstrings := put tkey tupd tmk ((t.id, s.id), v) st.db.tstrings } ∧
    (upsertTranslationString env t s v st).1.inTx = st.inTx ∧
    (st.inTx = true → (upsertTranslationString env t s v st).1.durable = st.durable) := by
  unfold upsertTranslationString put
  rw [← transKey_eq]
  simp only [queryTranslationString_snd, queryTranslationString_fst, hf, Bool.false_eq_true,
    if_false, ptrOf_ok]
  cases hq : find? (transKey t.id s.id) st.db.tstrings with
  | some r =>
    simp [hf]
    refine ⟨rfl, ?_⟩
    intro h1
    simp [h1]
  | none =>
    simp [hf]
    refine ⟨rfl, ?_⟩
    intro h1
    simp [h1]

theorem translatePair_ok (env : Env) (fl : Flags) (f : File) (p : Pair) (s : SourceString)
    (tr : Option Translation) (st : St) (hf : ∀ n, env.fails n = false) :
    (translatePair env fl f p s tr st).2
      = (some (ensureTranslation fl.flagTrans tr st.db.translations).2, Flow.next) ∧
    (translatePair env fl f p s tr st).1.db
      = { st.db with
          translations := (ensureTranslation fl.flagTrans tr st.db.translations).1,
          tstrings := put tkey tupd tmk
            (((ensureTranslation fl.flagTrans tr st.db.translations).2.id, s.id), p.string)
            st.db.tstrings } ∧
    (translatePair env fl f p s tr st).1.inTx = st.inTx ∧
    (st.inTx = true → (translatePair env fl f p s tr st).1.durable = st.durable) := by
  obtain ⟨r1, r2, r3, r4⟩ := resolveTranslation_ok env fl.flagTrans tr st hf
  rcases translatePair_cases env fl f p s tr st with ⟨h, _⟩ | ⟨t, h, e⟩
  · rw [r1] at h
    cases h
  · rw [r1] at h
    cases h
    obtain ⟨u1, u2, u3, u4⟩ := upsert_ok env (ensureTranslation fl.flagTrans tr st.db.translations).2
      s p.string (resolveTranslation env fl.flagTrans tr st).1 hf
    rw [e, u1]
    simp only [complain_none, Option.isSome_none, Bool.false_eq_true, if_false]
    refine ⟨trivial, ?_, u3.trans r3, ?_⟩
    · rw [u2, r2]
    · intro h1
      rw [u4 (r3.trans h1), r4 h1]

theorem lazyT_nil (name : String) (tr : Option Translation) (T : List String) :
    lazyT name tr T [] = (T, tr) := rfl

theorem lazyT_cons (name : String) (tr : Option Translation) (T : List String)
    (w : Nat × String) (W : List (Nat × String)) :
    lazyT name tr T (w :: W)
      = ((ensureTranslation name tr T).1, some (ensureTranslation name tr T).2) := rfl

theorem ensureTranslation_lazyT (name : String) (tr : Option Translation) (T : List String)
    (W : List (Nat × String)) :
    (ensureTranslation name (lazyT name tr T W).2 (lazyT name tr T W).1).2
      = (ensureTranslation name tr T).2 := by
  cases W with
  | nil => rfl
  | cons w W => rfl

theorem lazyT_append (name : String) (tr : Option Translation) (T : List String)
    (W1 W2 : List (Nat × String)) :
    lazyT name (lazyT name tr T W1).2 (lazyT name tr T W1).1 W2 = lazyT name tr T (W1 ++ W2) := by
  cases W1 with
  | nil => rfl
  | cons w W1 =>
    cases W2 with
    | nil => rfl
    | cons w2 W2 => rfl

theorem keyed_append (tid : Nat) (W1 W2 : List (Nat × String)) :
    keyed tid (W1 ++ W2) = keyed tid W1 ++ keyed tid W2 := by
  simp [keyed]

theorem TransEffect.nil (name : String) (tr : Option Translation) (db : Store) :
    TransEffect name tr [] db db tr := ⟨rfl, rfl, rfl, rfl⟩

theorem TransEffect.comp {name : String} {tr tr1 tr2 : Option Translation}
    {W1 W2 : List (Nat × String)} {db db1 db2 : Store}
    (h1 : TransEffect name tr W1 db db1 tr1) (h2 : TransEffect name tr1 W2 db1 db2 tr2) :
    TransEffect name tr (W1 ++ W2) db db2 tr2 := by
  obtain ⟨a1, a2, a3, a4⟩ := h1
  obtain ⟨b1, b2, b3, b4⟩ := h2
  subst a1
  rw [a2] at b1 b2 b3
  rw [ensureTranslation_lazyT] at b3
  rw [lazyT_append] at b1 b2
  refine ⟨b1, b2, ?_, b4.trans a4⟩
  rw [b3, a3, keyed_append, puts_append]

theorem TransEffect.of_eq {name : String} {tr tr' : Option Translation}
    {W : List (Nat × String)} {db0 db db' : Store}
    (h : TransEffect name tr W db db' tr') (h1 : db.translations = db0.translations)
    (h2 : db.tstrings = db0.tstrings) (h3 : db.strings = db0.strings) :
    TransEffect name tr W db0 db' tr' := by
  unfold TransEffect at h ⊢
  rw [h1, h2, h3] at h
  exact h

theorem transWrites_cons (S : List StringRow) (fid : Nat) (p : Pair) (ps : List Pair)
    (c : String → Nat) :
    transWrites S fid (p :: ps) c
      = transWrites S fid [p] c ++ transWrites S fid ps (bump c p.identifier) := by
  simp only [transWrites]
  split
  · split <;> rfl
  · rfl

theorem importPair_trans (env : Env) (fl : Flags) (f : File) (p : Pair) (c : String → Nat)
    (tr : Option Translation) (st : St) (hf : ∀ n, env.fails n = false)
    (ht : fl.flagTrans ≠ "") :
    TransEffect fl.flagTrans tr (transWrites st.db.strings f.id [p] c) st.db
      (importPair env fl f p c tr st).1.db (importPair env fl f p c tr st).2.2.1 ∧
    (importPair env fl f p c tr st).2.1 = bump c p.identifier ∧
    (importPair env fl f p c tr st).2.2.2 = Flow.next ∧
    (importPair env fl f p c tr st).1.db.archives = st.db.archives ∧
    (importPair env fl f p c tr st).1.db.files = st.db.files ∧
    (importPair env fl f p c tr st).1.inTx = st.inTx ∧
    (st.inTx = true → (importPair env fl f p c tr st).1.durable = st.durable) := by
  rw [importPair_eq]
  simp only [queryString_snd, hf, Bool.false_eq_true, if_false, transWrites]
  cases hq : find? (stringKey f.id (c p.identifier) p.identifier) st.db.strings with
  | none =>
    simp only [ht, ne_eq, not_false_eq_true, if_true]
    refine ⟨?_, trivial, trivial, ?_, ?_, ?_, ?_⟩
    · have := TransEffect.nil fl.flagTrans tr st.db
      simpa using this
    all_goals simp
  | some s =>
    simp only []
    by_cases hv : s.val.value = p.string
    · simp only [hv, if_true, ne_eq, not_true_eq_false, if_false]
      refine ⟨?_, trivial, trivial, ?_, ?_, ?_, ?_⟩
      · have := TransEffect.nil fl.flagTrans tr st.db
        simpa using this
      all_goals simp
    · simp only [hv, if_false, ht, ne_eq, not_false_eq_true, if_true]
      obtain ⟨t1, t2, t3, t4⟩ := translatePair_ok env fl f p s tr
        (queryString env f (c p.identifier) p.identifier st).1 hf
      rw [t1, t2]
      refine ⟨⟨?_, ?_, ?_, ?_⟩, trivial, rfl, ?_, ?_, ?_, ?_⟩
      · simp [lazyT]
      · simp [lazyT]
      · simp [keyed, puts]
      · simp
      · simp
      · simp
      · rw [t3]
        simp
      · intro h1
        rw [t4 (by simpa using h1)]
        simp

theorem importPairs_trans (env : Env) (fl : Flags) (f : File) (pairs : List Pair)
    (c : String → Nat) (tr : Option Translation) (st : St) (hf : ∀ n, env.fails n = false)
    (ht : fl.flagTrans ≠ "") :
    TransEffect fl.flagTrans tr (transWrites st.db.strings f.id pairs c) st.db
      (importPairs env fl f pairs c tr st).1.db (importPairs env fl f pairs c tr st).2.2.1 ∧
    (importPairs env fl f pairs c tr st).1.db.archives = st.db.archives ∧
    (importPairs env fl f pairs c tr st).1.db.files = st.db.files ∧
    (importPairs env fl f pairs c tr st).1.inTx = st.inTx ∧
    (st.inTx = true → (importPairs env fl f pairs c tr st).1.durable = st.durable) := by
  induction pairs generalizing c tr st with
  | nil => exact ⟨TransEffect.nil _ _ _, rfl, rfl, rfl, fun _ => rfl⟩
  | cons p ps ih =>
    obtain ⟨h1, h2, h3, h4, h5, h6, h7⟩ := importPair_trans env fl f p c tr st hf ht
    rw [importPairs_cons, if_pos h3, h2, transWrites_cons]
    obtain ⟨g1, g2, g3, g4, g5⟩ := ih (bump c p.identifier)
      (importPair env fl f p c tr st).2.2.1 (importPair env fl f p c tr st).1
    rw [h1.2.2.2] at g1
    exact ⟨h1.comp g1, g2.trans h4, g3.trans h5, g4.trans h6,
      fun hin => (g5 (h6.trans hin)).trans (h7 hin)⟩

theorem importStrings_trans (env : Env) (fl : Flags) (f : File) (pairs : List Pair)
    (tr : Option Translation) (st : St) (hf : ∀ n, env.fails n = false)
    (ht : fl.flagTrans ≠ "") :
    TransEffect fl.flagTrans tr (transWrites st.db.strings f.id pairs (fun _ => 0)) st.db
      (importStrings env fl f pairs tr st).1.db (importStrings env fl f pairs tr st).2 ∧
    (importStrings env fl f pairs tr st).1.db.archives = st.db.archives ∧
    (importStrings env fl f pairs tr st).1.db.files = st.db.files ∧
    (importStrings env fl f pairs tr st).1.inTx = false ∧
    (importStrings env fl f pairs tr st).1.durable = (importStrings env fl f pairs tr st).1.db := by
  obtain ⟨g1, g2, g3, _, _⟩ := importPairs_trans env fl f pairs (fun _ => 0) tr (dbBegin st) hf ht
  rw [importStrings_eq]
  exact ⟨g1, g2, g3, rfl, rfl⟩

theorem jobTransWrites_cons (S : List StringRow) (j : File × List Pair)
    (js : List (File × List Pair)) :
    jobTransWrites S (j :: js) = transWrites S j.1.id j.2 (fun _ => 0) ++ jobTransWrites S js := by
  simp [jobTransWrites]

theorem importGroup_trans (env : Env) (fl : Flags) (name : String) (aname : ArchiveName)
    (files : List ArchiveFile) (a : Option Archive) (tr : Option Translation) (st : St)
    (hf : ∀ n, env.fails n = false) (ht : fl.flagTrans ≠ "")
    (hin : st.inTx = false) (hd : st.durable = st.db) :
    TransEffect fl.flagTrans tr
      (jobTransWrites st.db.strings (jobs aname files a st.db.archives st.db.files).1) st.db
      (importGroup env fl name aname files a tr st).1.db
      (importGroup env fl name aname files a tr st).2.2 ∧
    (importGroup env fl name aname files a tr st).2.1
      = (jobs aname files a st.db.archives st.db.files).2.1 ∧
    (importGroup env fl name aname files a tr st).1.db.archives
      = (jobs aname files a st.db.archives st.db.files).2.2.1 ∧
    (importGroup env fl name aname files a tr st).1.db.files
      = (jobs aname files a st.db.archives st.db.files).2.2.2 ∧
    (importGroup env fl name aname files a tr st).1.inTx = false ∧
    (importGroup env fl name aname files a tr st).1.durable
      = (importGroup env fl name aname files a tr st).1.db := by
  induction files generalizing a tr st with
  | nil => exact ⟨TransEffect.nil _ _ _, rfl, rfl, rfl, hin, hd⟩
  | cons file rest ih =>
    rw [importGroup_cons]
    rcases file.cases with h | ⟨h, pairs, hp⟩
    · obtain ⟨s1, s2, s3, s4⟩ := importFile_skip env fl name aname file a tr st h
      have e1 : (importFile env fl name aname file a tr st).2.1 = a := by rw [s1]
      have e2 : (importFile env fl name aname file a tr st).2.2 = tr := by rw [s1]
      rw [e1, e2, jobs_skip aname file rest a _ _ h]
      have := ih a tr (importFile env fl name aname file a tr st).1 (s3.trans hin)
        (by rw [s4, s2, hd])
      rw [s2] at this
      exact this
    · rw [importFile_text env fl name aname file a tr st pairs hf h hp,
        jobs_text aname file rest a _ _ pairs h hp]
      obtain ⟨t1, t2, t3⟩ := importFile_text_state env name aname file.name a st hf hin hd
      obtain ⟨b1, b2, b3, b4, b5⟩ := importStrings_trans env fl
        (ensureFile (ensureArchive aname a st.db.archives).2 file.name st.db.files).2 pairs tr
        (resolveFile env (ensureArchive aname a st.db.archives).2 file.name
          (resolveArchive env name aname a st).1).1 hf ht
      simp only []
      have := ih (some (ensureArchive aname a st.db.archives).2)
        (importStrings env fl
          (ensureFile (ensureArchive aname a st.db.archives).2 file.name st.db.files).2 pairs tr
          (resolveFile env (ensureArchive aname a st.db.archives).2 file.name
            (resolveArchive env name aname a st).1).1).2
        (importStrings env fl
          (ensureFile (ensureArchive aname a st.db.archives).2 file.name st.db.files).2 pairs tr
          (resolveFile env (ensureArchive aname a st.db.archives).2 file.name
            (resolveArchive env name aname a st).1).1).1 b4 b5
      rw [b2, b3, b1.2.2.2, t1] at this
      simp only [] at this
      rw [t1] at b1
      refine ⟨?_, this.2⟩
      rw [jobTransWrites_cons]
      exact (b1.of_eq rfl rfl rfl).comp this.1

/-! ## Idempotence -/

theorem Store.ext_fields {d e : Store} (h1 : d.archives = e.archives) (h2 : d.files = e.files)
    (h3 : d.strings = e.strings) (h4 : d.translations = e.translations)
    (h5 : d.tstrings = e.tstrings) : d = e := by
  cases d
  cases e
  simp only [Store.mk.injEq]
  exact ⟨h1, h2, h3, h4, h5⟩

theorem jobs_again (aname : ArchiveName) (files : List ArchiveFile) (a : Option Archive)
    (A : List ArchiveName) (F : List FileRow) :
    jobs aname files a (jobs aname files a A F).2.2.1 (jobs aname files a A F).2.2.2
      = jobs aname files a A F :=
  jobs_stable aname files a A F _ _ (List.prefix_refl _) (List.prefix_refl _)

theorem tkey_tupd (v : String) (r : TransRow) : tkey (tupd v r) = tkey r := rfl

/-- Base mode, on stores: applying the closed form of a run to its own result gives the
result again. -/
theorem base_twice (aname : ArchiveName) (files : List ArchiveFile) (ver : Int) (db d1 d2 : Store)
    (h1 : d1 = { db with
      archives := (jobs aname files none db.archives db.files).2.2.1,
      files := (jobs aname files none db.archives db.files).2.2.2,
      strings := puts skey (supd ver) (smk ver)
        (jobWrites (jobs aname files none db.archives db.files).1) db.strings })
    (h2 : d2 = { d1 with
      archives := (jobs aname files none d1.archives d1.files).2.2.1,
      files := (jobs aname files none d1.archives d1.files).2.2.2,
      strings := puts skey (supd ver) (smk ver)
        (jobWrites (jobs aname files none d1.archives d1.files).1) d1.strings }) :
    d2 = d1 := by
  have ea : d1.archives = (jobs aname files none db.archives db.files).2.2.1 := by rw [h1]
  have ef : d1.files = (jobs aname files none db.archives db.files).2.2.2 := by rw [h1]
  have es : d1.strings = puts skey (supd ver) (smk ver)
      (jobWrites (jobs aname files none db.archives db.files).1) db.strings := by rw [h1]
  rw [ea, ef, jobs_again, es,
    puts_idem skey (supd ver) (smk ver) (skey_supd ver) (fun _ _ => rfl) (supd_replay ver),
    ← ea, ← ef, ← es] at h2
  rw [h2]

/-- Translation mode, on stores: a second pass over the result of a first pass, with the
writes and the resolved rows of that result, gives the result again. -/
theorem trans_twice (name : String) (aname : ArchiveName) (files : List ArchiveFile)
    (db d1 d2 : Store) (tr1 tr2 : Option Translation)
    (h1 : TransEffect name none
      (jobTransWrites db.strings (jobs aname files none db.archives db.files).1) db d1 tr1)
    (a1 : d1.archives = (jobs aname files none db.archives db.files).2.2.1)
    (f1 : d1.files = (jobs aname files none db.archives db.files).2.2.2)
    (h2 : TransEffect name none
      (jobTransWrites d1.strings (jobs aname files none d1.archives d1.files).1) d1 d2 tr2)
    (a2 : d2.archives = (jobs aname files none d1.archives d1.files).2.2.1)
    (f2 : d2.files = (jobs aname files none d1.archives d1.files).2.2.2) :
    d2 = d1 := by
  rw [a1, f1, jobs_again] at h2 a2 f2
  obtain ⟨_, t1, u1, s1⟩ := h1
  obtain ⟨_, t2, u2, s2⟩ := h2
  rw [s1] at t2 u2
  apply Store.ext_fields (a2.trans a1.symm) (f2.trans f1.symm) s2
  · rw [t2]
    cases hW : jobTransWrites db.strings (jobs aname files none db.archives db.files).1 with
    | nil => rfl
    | cons w W =>
      rw [hW] at t1
      rw [lazyT_cons] at t1 ⊢
      rw [ensureTranslation_stable name none db.translations d1.translations
        (by rw [t1])]
  · rw [u2]
    cases hW : jobTransWrites db.strings (jobs aname files none db.archives db.files).1 with
    | nil => rfl
    | cons w W =>
      rw [hW] at t1 u1
      rw [lazyT_cons] at t1
      rw [ensureTranslation_stable name none db.translations d1.translations
        (by rw [t1]), u1]
      exact puts_idem tkey tupd tmk tkey_tupd (fun _ _ => rfl) tupd_replay _ _

/-- C1: the archive-scan import of one archive, run twice in succession with the same flags
and with no failing storage call, leaves after the second run the store the first run
left: the committed store is the same (Archives, Files, SourceStrings with value and
version, Translations, TranslationStrings), and after either run nothing is left
uncommitted. This holds for every flag setting, so in base mode and in translation mode. -/
theorem importArchive_idempotent (env : Env) (fl : Flags) (name : String)
    (aname : ArchiveName) (groups : List (List ArchiveFile)) (db : Store)
    (hf : ∀ n, env.fails n = false) :
    (importArchive env fl name aname groups
        (St.init (importArchive env fl name aname groups (St.init db)).durable)).durable
      = (importArchive env fl name aname groups (St.init db)).durable ∧
    (importArchive env fl name aname groups (St.init db)).db
      = (importArchive env fl name aname groups (St.init db)).durable ∧
    (importArchive env fl name aname groups
        (St.init (importArchive env fl name aname groups (St.init db)).durable)).db
      = (importArchive env fl name aname groups
        (St.init (importArchive env fl name aname groups (St.init db)).durable)).durable := by
  unfold importArchive
  simp only [importGroups_join]
  by_cases hb : fl.flagTrans = ""
  · obtain ⟨_, o2, _, o4⟩ := importGroup_base env fl name aname groups.flatten none none
      (St.init db) hf hb rfl rfl
    obtain ⟨_, s2, _, s4⟩ := importGroup_base env fl name aname groups.flatten none none
      (St.init (importGroup env fl name aname groups.flatten none none (St.init db)).1.durable)
      hf hb rfl rfl
    refine ⟨?_, o4.symm, s4.symm⟩
    rw [s4]
    rw [o4] at s2 ⊢
    exact base_twice aname groups.flatten fl.flagImport db _ _ o2 s2
  · obtain ⟨o1, _, o3, o4, _, o6⟩ := importGroup_trans env fl name aname groups.flatten none none
      (St.init db) hf hb rfl rfl
    obtain ⟨s1, _, s3, s4, _, s6⟩ := importGroup_trans env fl name aname groups.flatten none none
      (St.init (importGroup env fl name aname groups.flatten none none (St.init db)).1.durable)
      hf hb rfl rfl
    refine ⟨?_, o6.symm, s6.symm⟩
    rw [s6]
    rw [o6] at s1 s3 s4 ⊢
    exact trans_twice fl.flagTrans aname groups.flatten db _ _ _ _ o1 o3 o4 s1 s3 s4

theorem importArchive_idempotent_witness :
    (importArchive quietEnv engFlags "ui.ice" ⟨"ui.ice", 0⟩ engGroups
        (St.init (importArchive quietEnv engFlags "ui.ice" ⟨"ui.ice", 0⟩ engGroups
          (St.init engStore)).durable)).durable
      = (importArchive quietEnv engFlags "ui.ice" ⟨"ui.ice", 0⟩ engGroups
          (St.init engStore)).durable ∧
    (importArchive quietEnv engFlags "ui.ice" ⟨"ui.ice", 0⟩ engGroups
        (St.init engStore)).durable.tstrings = [⟨0, 0, "new"⟩] ∧
    engStore.tstrings = [⟨0, 0, "alt"⟩] :=
  ⟨(importArchive_idempotent quietEnv engFlags "ui.ice" ⟨"ui.ice", 0⟩ engGroups engStore
    (fun _ => rfl)).1, by decide, by decide⟩

end Pso2Trans
